import Mathlib

/-!
# openfand: curve shaper, control actor and OpenFan wire protocol

A shallow embedding of the control-loop core of `mdouchement/openfand`
(`openfan/controller.go`, `openfan/datatype.go`, `curve_shaper.go`,
`controller.go`, `config.go`) together with the properties checked against it.

Modelling conventions

* Go `int`, `uint8`, `uint16`, `uint64` values are `Int`/`Nat`; a conversion to
  `uint8` is written `% 256`.  Go integer division truncates toward zero
  (`Int.tdiv`).
* A finite Go `float64` is the rational (`ℚ`) it denotes; `int(x)` of a float is
  truncation toward zero (`truncate`).  The curve shaper comes in two versions: one
  in exact arithmetic, for the properties of the curve that do not hinge on a
  rounding, and one with every `float64` operation rounded (`roundF64`, names
  ending in `64`), for the values that do.
* A Go map is an association list holding each key once; ranging over the map
  visits the list in order.  Go leaves the order unspecified, so a statement
  quantified over all lists covers every order.
* `time.Time` and `time.Duration` are integers (nanoseconds).
* Bytes of the ASCII wire protocol are `Char`s.
-/

namespace Openfand

/-! ## Errors -/

/-- The error values of the two packages; `wrap` is `fmt.Errorf("...%w", err)`. -/
inductive Error where
  | ErrNotFoundTemp
  | ErrInvalidPWM
  | OpenfanErrNotFound
  | OpenfanErrInvalidPWM
  | other (msg : String)
  | wrap (msg : String) (inner : Error)
  deriving DecidableEq, Repr

/-- Result of `errors.Is(e, target)` for a sentinel `target`. -/
def Error.Is : Error → Error → Bool
  | .wrap msg inner, target => (Error.wrap msg inner == target) || Error.Is inner target
  | e, target => e == target

/-! ## Go maps as association lists -/

section GoMap

variable {κ : Type} {α : Type} [DecidableEq κ]

/-- Lookup `m[k]` with the presence flag. -/
def mget : List (κ × α) → κ → Option α
  | [], _ => none
  | (k', v) :: rest, k => if k' = k then some v else mget rest k

/-- Assignment `m[k] = v`. -/
def mset : List (κ × α) → κ → α → List (κ × α)
  | [], k, v => [(k, v)]
  | (k', v') :: rest, k, v => if k' = k then (k', v) :: rest else (k', v') :: mset rest k v

/-- Builtin `delete(m, k)`. -/
def mdelete : List (κ × α) → κ → List (κ × α)
  | [], _ => []
  | (k', v') :: rest, k => if k' = k then mdelete rest k else (k', v') :: mdelete rest k

end GoMap

/-! ## openfan/datatype.go, openfan/const.go -/

namespace Openfan

/-- Type `Fan` of the package: a `uint8`. -/
abbrev Fan := Nat

/-- Type `Command` of the package: a `uint8`. -/
abbrev Command := Nat

def CommandFanAllGetRPM : Command := 0x00
def CommandFanGetRPM : Command := 0x01
def CommandFanSetPWM : Command := 0x02
def CommandFanSetAllPWM : Command := 0x03
def CommandFanSetRPM : Command := 0x04
def CommandHardwareInfo : Command := 0x05
def CommandFirmwareInfo : Command := 0x06

/-- One upper-case hexadecimal digit, as the verb `%X` prints it. -/
def hexDigitUpper (d : Nat) : Char :=
  if d < 10 then Char.ofNat (48 + d) else Char.ofNat (55 + d)

/-- Hexadecimal digits of `v`, most significant first (`fuel` bounds the recursion). -/
def hexDigits : Nat → Nat → List Char
  | 0, _ => []
  | fuel + 1, v =>
    if v < 16 then [hexDigitUpper v]
    else hexDigits fuel (v / 16) ++ [hexDigitUpper (v % 16)]

/-- Output of `fmt.Sprintf("%0wX", v)` for an unsigned `v`: upper-case hex, zero padded
on the left to at least `w` characters. -/
def sprintfHexUpper (w v : Nat) : List Char :=
  let ds := hexDigits (v + 1) v
  List.replicate (w - ds.length) '0' ++ ds

/-- Function `f2x`: the two characters of `%02X` applied to a `uint8`. -/
def f2x (v : Nat) : Char × Char :=
  let s := sprintfHexUpper 2 v
  (s.getD 0 '0', s.getD 1 '0')

/-- Function `f4x`: the four characters of `%04X` applied to a `uint16`. -/
def f4x (v : Nat) : Char × Char × Char × Char :=
  let s := sprintfHexUpper 4 v
  (s.getD 0 '0', s.getD 1 '0', s.getD 2 '0', s.getD 3 '0')

/-! ## openfan/controller.go: SetPWM and SetAllPWM -/

/-- Lines `pwm = pwm*255/100 + 1; pwm = min(pwm, 255)` of `SetPWM` and `SetAllPWM`. -/
def toDevicePWM (pwm : Int) : Int :=
  min (Int.tdiv (pwm * 255) 100 + 1) 255

/-- Conversion `uint8(pwm)` of a Go `int`. -/
def toUint8 (v : Int) : Nat := (v % 256).toNat

/-- Line `v = v * 100 / 255` of `SetPWM` and `SetAllPWM` (`v` is a `uint64` below 256). -/
def fromDevicePWM (v : Nat) : Nat := v * 100 / 255

/-- The request part of `SetPWM`: the range guard, then the command and the payload
handed to `Run`. -/
def SetPWMRequest (f : Fan) (pwm : Int) : Except Error (Command × List Char) :=
  if pwm < 0 ∨ pwm > 100 then .error .OpenfanErrInvalidPWM
  else
    let (f1, f2) := f2x f
    let pwm := toDevicePWM pwm
    let (pwm1, pwm2) := f2x (toUint8 pwm)
    .ok (CommandFanSetPWM, [f1, f2, pwm1, pwm2])

/-- The request part of `SetAllPWM`. -/
def SetAllPWMRequest (pwm : Int) : Except Error (Command × List Char) :=
  if pwm < 0 ∨ pwm > 100 then .error .OpenfanErrInvalidPWM
  else
    let pwm := toDevicePWM pwm
    let (pwm1, pwm2) := f2x (toUint8 pwm)
    .ok (CommandFanSetAllPWM, [pwm1, pwm2])

end Openfan

/-! ## Go library functions used by the transport

The functions below are models of the Go standard library, written from its documented
behaviour: `bytes.IndexByte`, `bytes.Split` with a one-byte separator, `bytes.TrimSpace`
and `strconv.ParseUint`. -/

namespace Openfan

/-- Outcome of a Go call: a value, a returned error, or a run-time panic (index or slice
bounds out of range). -/
inductive Result (α : Type) where
  | ok (v : α)
  | error (e : Error)
  | panic
  deriving DecidableEq, Repr

/-- Go `bytes.IndexByte(b, c)`: the index of the first `c` in `b`, or `-1`. -/
def IndexByte : List Char → Char → Int
  | [], _ => -1
  | x :: rest, c =>
    if x = c then 0
    else
      let r := IndexByte rest c
      if r < 0 then -1 else r + 1

/-- Go `bytes.Split(s, sep)` for a separator of one byte: the parts between the
separators; a sequence without separator is its only part. `bytes.SplitSeq` yields the
same parts in the same order. -/
def Split : List Char → Char → List (List Char)
  | [], _ => [[]]
  | c :: rest, sep =>
    if c = sep then [] :: Split rest sep
    else
      match Split rest sep with
      | [] => [[c]]
      | p :: ps => (c :: p) :: ps

/-- White space of one byte, as `unicode.IsSpace` on ASCII:
`'\t'`, `'\n'`, `'\v'`, `'\f'`, `'\r'`, `' '`. -/
def asciiSpace (c : Char) : Bool :=
  c.toNat = 9 || c.toNat = 10 || c.toNat = 11 || c.toNat = 12 || c.toNat = 13 || c.toNat = 32

/-- UTF-8 encodings of the white space of `unicode.IsSpace` outside ASCII: U+0085, U+00A0,
U+1680, U+2000 to U+200A, U+2028, U+2029, U+202F, U+205F, U+3000. -/
def unicodeSpaces : List (List Nat) :=
  [[0xC2, 0x85], [0xC2, 0xA0], [0xE1, 0x9A, 0x80],
   [0xE2, 0x80, 0x80], [0xE2, 0x80, 0x81], [0xE2, 0x80, 0x82], [0xE2, 0x80, 0x83],
   [0xE2, 0x80, 0x84], [0xE2, 0x80, 0x85], [0xE2, 0x80, 0x86], [0xE2, 0x80, 0x87],
   [0xE2, 0x80, 0x88], [0xE2, 0x80, 0x89], [0xE2, 0x80, 0x8A],
   [0xE2, 0x80, 0xA8], [0xE2, 0x80, 0xA9], [0xE2, 0x80, 0xAF], [0xE2, 0x81, 0x9F],
   [0xE3, 0x80, 0x80]]

/-- Width in bytes of the white space rune `s` starts with, `0` when it starts with none. -/
def spaceWidth (s : List Char) : Nat :=
  match s with
  | [] => 0
  | c :: _ =>
    if asciiSpace c then 1
    else if unicodeSpaces.contains ((s.take 2).map Char.toNat) then 2
    else if unicodeSpaces.contains ((s.take 3).map Char.toNat) then 3
    else 0

/-- Width in bytes of the white space rune `s` ends with, `0` when it ends with none. -/
def spaceWidthEnd (s : List Char) : Nat :=
  match s.reverse with
  | [] => 0
  | c :: _ =>
    if asciiSpace c then 1
    else if unicodeSpaces.contains ((s.drop (s.length - 2)).map Char.toNat) then 2
    else if unicodeSpaces.contains ((s.drop (s.length - 3)).map Char.toNat) then 3
    else 0

/-- Removal of the leading white space, at most `fuel` runes. -/
def trimLeft : Nat → List Char → List Char
  | 0, s => s
  | fuel + 1, s =>
    if spaceWidth s = 0 then s else trimLeft fuel (s.drop (spaceWidth s))

/-- Removal of the trailing white space, at most `fuel` runes. -/
def trimRight : Nat → List Char → List Char
  | 0, s => s
  | fuel + 1, s =>
    if spaceWidthEnd s = 0 then s else trimRight fuel (s.take (s.length - spaceWidthEnd s))

/-- Go `bytes.TrimSpace(s)`: `s` without its leading and trailing white space. A sequence of
`n` bytes has at most `n` runes, so the fuel is never exhausted. -/
def TrimSpace (s : List Char) : List Char :=
  trimRight s.length (trimLeft s.length s)

/-- Value of a digit in `strconv.ParseUint`: `'0'` to `'9'`, or a letter (of either case,
compared after `c | 0x20`) counted from ten. -/
def digitVal (c : Char) : Option Nat :=
  if 48 ≤ c.toNat ∧ c.toNat ≤ 57 then some (c.toNat - 48)
  else if 97 ≤ (c.toNat ||| 32) ∧ (c.toNat ||| 32) ≤ 122 then some ((c.toNat ||| 32) - 97 + 10)
  else none

/-- The error `strconv.ErrSyntax` inside a `*strconv.NumError`. -/
def errSyntax : Error := .wrap "strconv.ParseUint" (.other "invalid syntax")

/-- The error `strconv.ErrRange` inside a `*strconv.NumError`. -/
def errRange : Error := .wrap "strconv.ParseUint" (.other "value out of range")

/-- One round of the digit loop of `strconv.ParseUint`. -/
def parseDigit (base bitSize : Nat) (n : Nat) (c : Char) : Except Error Nat :=
  match digitVal c with
  | none => .error errSyntax
  | some d =>
    if d ≥ base then .error errSyntax
    else if n ≥ (2 ^ 64 - 1) / base + 1 then .error errRange
    else if n * base + d > 2 ^ bitSize - 1 then .error errRange
    else .ok (n * base + d)

/-- Go `strconv.ParseUint(s, base, bitSize)` for an explicit base (here always 16) and the
bit sizes 8 and 16 of this program; underscores are only accepted with base 0. With these
bit sizes the accumulator stays below `2 ^ 16`, so the 64-bit arithmetic never wraps. -/
def ParseUint (s : List Char) (base bitSize : Nat) : Except Error Nat :=
  if s = [] then .error errSyntax
  else s.foldlM (parseDigit base bitSize) 0

end Openfan

/-! ## openfan/controller.go: transport (`Run`) and the calls built on it -/

namespace Openfan

def CommRequestCharacter : Char := '>'
def CommResponseCharacter : Char := '<'
def CommEndCharacter : Char := '\n'
def CommAltEndCharacter : Char := '\r'
def CommRxBufferLenASCII : Nat := 128

/-- The two buffers of the `Controller` struct; they live as long as the controller and
are never cleared between two calls of `Run`. -/
structure Controller where
  wbuf : List Char
  rbuf : List Char
  deriving DecidableEq, Repr

/-- The buffers made by `Open`: 128 and 4096 zero bytes. -/
def Open : Controller :=
  { wbuf := List.replicate CommRxBufferLenASCII (Char.ofNat 0)
    rbuf := List.replicate (CommRxBufferLenASCII * 32) (Char.ofNat 0) }

/-- What the serial port does during one call of `Run`: the error of `serial.Write` (if any)
and the results of the successive calls of `serial.Read`, each an error or the bytes it
delivers. A call beyond the end of the list delivers no byte (read timeout). -/
structure Port where
  writeErr : Option Error
  reads : List (Except Error (List Char))

/-- Assignment `buf[i] = v`; `none` is the index-out-of-range panic. -/
def store (buf : List Char) (i : Nat) (v : Char) : Option (List Char) :=
  if i < buf.length then some (buf.set i v) else none

/-- Loop `for i, b := range payload { buf[off+i] = b }`. -/
def storeAll (buf : List Char) (off : Nat) : List Char → Option (List Char)
  | [] => some buf
  | b :: rest => (store buf off b).bind (fun buf => storeAll buf (off + 1) rest)

/-- First part of `Run`: the request is assembled in `wbuf`; the result is the new `wbuf`
and the slice `wbuf[:l]` handed to `serial.Write`, or `none` when an index or the slice is
out of range. -/
def frame (wbuf : List Char) (command : Command) (payload : List Char) :
    Option (List Char × List Char) :=
  let l := 5 + payload.length
  (store wbuf 0 CommRequestCharacter).bind fun w =>
  (store w 1 (f2x command).1).bind fun w =>
  (store w 2 (f2x command).2).bind fun w =>
  (storeAll w 3 payload).bind fun w =>
  (store w (l - 2) CommAltEndCharacter).bind fun w =>
  (store w (l - 1) CommEndCharacter).bind fun w =>
  if l ≤ w.length then some (w, w.take l) else none

/-- The read loop of `Run`, with the variables `n`, `i`, `l` of the source. Each round
reads into `rbuf[n*i : 128+n*i]` (a panic when the slice leaves the buffer); a read delivers
at most the 128 bytes of that slice. The result is the new `rbuf` and `l`. Every round but
the last one adds 128 to `n*i`, so `rbuf.length + 1` rounds of fuel are never exhausted. -/
def receive : Nat → List (Except Error (List Char)) → List Char → Nat → Nat → Nat →
    Result (List Char × Nat)
  | 0, _, _, _, _, _ => .panic
  | fuel + 1, reads, rbuf, n, i, l =>
    if CommRxBufferLenASCII + n * i > rbuf.length then .panic
    else
      match reads.headD (.ok []) with
      | .error e => .error (.wrap "read" e)
      | .ok chunk =>
        let data := chunk.take CommRxBufferLenASCII
        let rbuf := rbuf.take (n * i) ++ data ++ rbuf.drop (n * i + data.length)
        let n := data.length
        if n < CommRxBufferLenASCII then .ok (rbuf, l + n)
        else receive fuel reads.tail rbuf n (i + 1) (l + n)

/-- Last part of `Run`: `n = bytes.IndexByte(rbuf, '<')`, the slices `rbuf[:n]` and
`rbuf[n:l]` (a panic when `n` is `-1` or above `l`), the removal of four bytes from a
response of more than four, and `bytes.TrimSpace`. The logging has no effect on the result. -/
def extract (rbuf : List Char) (l : Nat) : Result (List Char) :=
  let n := IndexByte rbuf CommResponseCharacter
  if n < 0 ∨ n > rbuf.length then .panic
  else if n > l ∨ l > rbuf.length then .panic
  else
    let response := (rbuf.take l).drop n.toNat
    let response := if response.length > 4 then response.drop 4 else response
    .ok (TrimSpace response)

/-- What one call of `Run` did: the bytes handed to `serial.Write` (if it got there), the
buffers afterwards, and the outcome. -/
structure Exchange where
  written : Option (List Char)
  wbuf : List Char
  rbuf : List Char
  result : Result (List Char)
  deriving DecidableEq, Repr

/-- Method `Run` of the device controller. A short write is only logged. -/
def Run (c : Controller) (port : Port) (command : Command) (payload : List Char) : Exchange :=
  match frame c.wbuf command payload with
  | none => ⟨none, c.wbuf, c.rbuf, .panic⟩
  | some (wbuf, request) =>
    match port.writeErr with
    | some e => ⟨some request, wbuf, c.rbuf, .error (.wrap "write" e)⟩
    | none =>
      match receive (c.rbuf.length + 1) port.reads c.rbuf 0 0 0 with
      | .panic => ⟨some request, wbuf, c.rbuf, .panic⟩
      | .error e => ⟨some request, wbuf, c.rbuf, .error e⟩
      | .ok (rbuf, l) => ⟨some request, wbuf, rbuf, extract rbuf l⟩

/-- The reply part of `SetPWM`: the response is split at `':'`, its second part is a
hexadecimal byte, scaled back to percent. -/
def SetPWMReply (response : List Char) : Result Int :=
  let kv := Split response ':'
  if kv.length ≠ 2 then .error (.other "fan_set_pwm: invalid response format")
  else
    match ParseUint (kv.getD 1 []) 16 8 with
    | .error e => .error (.wrap "fan_set_pwm" e)
    | .ok v => .ok (fromDevicePWM v)

/-- Method `SetPWM`: the exchange with the device, if there was one, and the outcome. -/
def SetPWM (c : Controller) (port : Port) (f : Fan) (pwm : Int) :
    Option Exchange × Result Int :=
  match SetPWMRequest f pwm with
  | .error e => (none, .error e)
  | .ok (command, payload) =>
    let x := Run c port command payload
    (some x,
      match x.result with
      | .panic => .panic
      | .error e => .error (.wrap "fan_set_pwm" e)
      | .ok response => SetPWMReply response)

/-- The reply part of `SetAllPWM`. -/
def SetAllPWMReply (response : List Char) : Result Int :=
  match ParseUint response 16 8 with
  | .error e => .error (.wrap "fan_set_all_pwm" e)
  | .ok v => .ok (fromDevicePWM v)

/-- Method `SetAllPWM`: the exchange with the device, if there was one, and the outcome. -/
def SetAllPWM (c : Controller) (port : Port) (pwm : Int) : Option Exchange × Result Int :=
  match SetAllPWMRequest pwm with
  | .error e => (none, .error e)
  | .ok (command, payload) =>
    let x := Run c port command payload
    (some x,
      match x.result with
      | .panic => .panic
      | .error e => .error (.wrap "fan_set_all_pwm" e)
      | .ok response => SetAllPWMReply response)

/-- One round of the loop of `RPMs` over the items of the response. -/
def rpmItem (rpms : List (Fan × Nat)) (p : List Char) : Except Error (List (Fan × Nat)) :=
  let kv := Split p ':'
  if kv.length ≠ 2 then .ok rpms
  else
    match ParseUint (kv.getD 0 []) 16 8 with
    | .error e => .error (.wrap "fan_all_get_rpm: k" e)
    | .ok k =>
      match ParseUint (kv.getD 1 []) 16 16 with
      | .error e => .error (.wrap "fan_all_get_rpm: v" e)
      | .ok v => .ok (mset rpms k v)

/-- The parsing part of `RPMs`, applied to what `Run` returned. -/
def parseRPMs (response : List Char) : Except Error (List (Fan × Nat)) :=
  (Split response ';').foldlM rpmItem []

/-- Method `RPMs`. -/
def RPMs (c : Controller) (port : Port) : Result (List (Fan × Nat)) :=
  match (Run c port CommandFanAllGetRPM []).result with
  | .panic => .panic
  | .error e => .error (.wrap "fan_all_get_rpm" e)
  | .ok response =>
    match parseRPMs response with
    | .error e => .error e
    | .ok rpms => .ok rpms

end Openfan

/-! ## All-fan RPM responses as the specification describes them

The definitions of this section follow the words of the specification, not the code: a
response payload is a `';'`-separated list of items, an item `INDEX:VALUE` is made of two
hexadecimal numbers. They are compared with `Openfan.parseRPMs`. -/

namespace Openfan

/-- An item of a response payload: `INDEX:VALUE`, or any other text. -/
inductive RPMItem where
  | pair (index value : List Char)
  | other (text : List Char)
  deriving DecidableEq, Repr

/-- The bytes of an item. -/
def RPMItem.render : RPMItem → List Char
  | .pair index value => index ++ ':' :: value
  | .other text => text

/-- The `';'`-separated list of the given parts. -/
def joinItems : List (List Char) → List Char
  | [] => []
  | [p] => p
  | p :: q :: rest => p ++ ';' :: joinItems (q :: rest)

/-- A hexadecimal digit of either case. -/
def isHexDigit (c : Char) : Prop :=
  (48 ≤ c.toNat ∧ c.toNat ≤ 57) ∨ (65 ≤ c.toNat ∧ c.toNat ≤ 70) ∨
    (97 ≤ c.toNat ∧ c.toNat ≤ 102)

instance (c : Char) : Decidable (isHexDigit c) := by
  unfold isHexDigit; infer_instance

/-- Value of a hexadecimal digit. -/
def hexDigitValue (c : Char) : Nat :=
  if c.toNat ≤ 57 then c.toNat - 48
  else if c.toNat ≤ 70 then c.toNat - 55
  else c.toNat - 87

/-- Value of a hexadecimal number, most significant digit first. -/
def hexValue (s : List Char) : Nat :=
  s.foldl (fun n c => 16 * n + hexDigitValue c) 0

/-- A hexadecimal number: at least one digit, only hexadecimal digits. -/
def isHexNumber (s : List Char) : Prop :=
  s ≠ [] ∧ ∀ c ∈ s, isHexDigit c

instance (s : List Char) : Decidable (isHexNumber s) := by
  unfold isHexNumber; infer_instance

/-- The items the specification speaks of: `INDEX:VALUE` with `INDEX` a hexadecimal number
below 256 and `VALUE` one below 65536, or a text (without `';'`) that does not contain
exactly one `':'`. -/
def RPMItem.wellFormed : RPMItem → Prop
  | .pair index value =>
    isHexNumber index ∧ hexValue index < 256 ∧ isHexNumber value ∧ hexValue value < 65536
  | .other text => ';' ∉ text ∧ text.count ':' ≠ 1

instance (it : RPMItem) : Decidable it.wellFormed := by
  cases it <;> unfold RPMItem.wellFormed <;> infer_instance

/-- One item's effect on the value expected under key `k`. -/
def expectedStep (k : Nat) (acc : Option Nat) : RPMItem → Option Nat
  | .pair index value => if hexValue index = k then some (hexValue value) else acc
  | .other _ => acc

/-- The value the specification expects under key `k`: that of the last item `INDEX:VALUE`
whose `INDEX` is `k`, none when there is no such item. -/
def expectedRPM (items : List RPMItem) (k : Nat) : Option Nat :=
  items.foldl (expectedStep k) none

end Openfan

/-! ## hwmon/sensor/sensor.go -/

set_option linter.dupNamespace false

namespace Sensor

/-- Type `TemperatureID` of the package: a `uint16`. -/
abbrev TemperatureID := Nat

/-- Struct `Temperature` (the unexported `refresh` closure is left out). -/
structure Temperature where
  ID : TemperatureID
  Key : String := ""
  Name : String
  Device : String := ""
  Temperature : ℚ
  High : ℚ := 0
  Critical : ℚ := 0
  deriving DecidableEq

end Sensor

/-! ## datatype.go, config.go -/

/-- Struct `Evaluation`. -/
structure Evaluation where
  ID : Openfan.Fan
  EvaluedAt : Int
  Label : String
  PWM : Int
  RPM : Nat
  TemperatureID : Sensor.TemperatureID
  TemperatureName : String
  Temperature : ℚ
  deriving DecidableEq

/-- The zero value of `Evaluation`, read from a map that lacks the key. -/
def Evaluation.zero : Evaluation :=
  { ID := 0, EvaluedAt := 0, Label := "", PWM := 0, RPM := 0,
    TemperatureID := 0, TemperatureName := "", Temperature := 0 }

/-- Struct `point`. -/
structure point where
  temperature : ℚ
  pwm : Int
  deriving DecidableEq

/-- Struct `segment`. -/
structure segment where
  temperature : ℚ
  eval : ℚ → ℚ

/-- One entry of `Fan.CurvePoints`: a `map[int]map[string]int` from PWM to the thresholds
by sensor name. -/
abbrev CurvePoint := List (Int × List (String × Int))

/-- Struct `Fan` of the configuration (the YAML-side field `CurvePointsYAML` is left out). -/
structure Fan where
  ID : Openfan.Fan
  Label : String := ""
  FanSetUp : Int := 0
  FanSetDown : Int := 0
  CurvePoints : List CurvePoint

/-- Struct `Config`. -/
structure Config where
  Debug : Bool := false
  Socket : String := ""
  FanSettings : List (String × Fan)

/-- The checks `Load` runs on the PWM entries of one curve point, `prevPWM` being threaded
through: PWM in `[0,100]`, not below the previous one, thresholds not empty.  The result is
the new `prevPWM`, or `none` where `Load` returns an error. -/
def checkCurvePoint : Int → CurvePoint → Option Int
  | prevPWM, [] => some prevPWM
  | prevPWM, (PWM, thresholds) :: rest =>
    if PWM < 0 ∨ PWM > 100 then none
    else if PWM < prevPWM then none
    else if thresholds.length = 0 then none
    else checkCurvePoint PWM rest

/-- The loop of `Load` over the curve points of one fan. -/
def checkCurvePoints : Int → List CurvePoint → Bool
  | _, [] => true
  | prevPWM, p :: rest =>
    match checkCurvePoint prevPWM p with
    | none => false
    | some prevPWM => checkCurvePoints prevPWM rest

/-- What `Load` accepts as the curve of one fan: at least one curve point, and every check
of the loop passes (`prevPWM` starts at 0). -/
def acceptedCurve (cps : List CurvePoint) : Bool :=
  cps.length ≠ 0 && checkCurvePoints 0 cps

/-! ## curve_shaper.go -/

/-- Conversion `int(x)` of a `float64`: truncation toward zero. -/
def truncate (x : ℚ) : Int := Int.tdiv x.num x.den

/-- Function `PWMFromTempSegment`. -/
def PWMFromTempSegment (temp1 pwm1 temp2 pwm2 : ℚ) : ℚ → ℚ :=
  let temp2' := if temp1 = temp2 then 2 else temp2
  let temp1' := if temp1 = temp2 then 1 else temp1
  let a := (pwm2 - pwm1) / (temp2' - temp1')
  let b := pwm1 - a * temp1'
  fun temp => min (a * temp + b) 100

/-- Function `maxPWM`. -/
def maxPWM (a b : Evaluation) : Evaluation :=
  if a.PWM > b.PWM then a else b

/-- Struct `CurveShaper`. -/
structure CurveShaper where
  labels : List (Openfan.Fan × String)
  index : List (Sensor.TemperatureID × List (Openfan.Fan × (ℚ → Int)))

/-- Closure `findID` of `NewCurveShaper`. -/
def findID (temps : List Sensor.Temperature) (name : String) :
    Except Error Sensor.TemperatureID :=
  match temps.find? (fun t => t.Name = name) with
  | some t => .ok t.ID
  | none => .error .ErrNotFoundTemp

/-- Statement `m[k] = append(m[k], x)` on a map of slices. -/
def mappend {κ α : Type} [DecidableEq κ] (m : List (κ × List α)) (k : κ) (x : α) :
    List (κ × List α) :=
  mset m k ((mget m k).getD [] ++ [x])

/-- Body of the innermost loop of `NewCurveShaper` (`for tname, t := range thresholds`),
for the curve point of index `i` and its entry of PWM `pwm`. -/
def addThreshold (temps : List Sensor.Temperature) (i : Nat) (pwm : Int)
    (indexp : List (Sensor.TemperatureID × List point)) (th : String × Int) :
    Except Error (List (Sensor.TemperatureID × List point)) :=
  match findID temps th.1 with
  | .error err => .error (.wrap th.1 err)
  | .ok tid =>
    let indexp := if i = 0 then mappend indexp tid ⟨0, pwm⟩ else indexp
    .ok (mappend indexp tid ⟨(th.2 : ℚ), pwm⟩)

/-- Body of the loop `for i, p := range fan.CurvePoints`, with its loop
`for pwm, thresholds := range p`. -/
def addCurvePoint (temps : List Sensor.Temperature)
    (indexp : List (Sensor.TemperatureID × List point)) (ip : Nat × CurvePoint) :
    Except Error (List (Sensor.TemperatureID × List point)) :=
  ip.2.foldlM (fun acc e => e.2.foldlM (addThreshold temps ip.1 e.1) acc) indexp

/-- First loop of `NewCurveShaper` for one fan: the map `indexp` of anchor points by
sensor. -/
def buildPoints (temps : List Sensor.Temperature) (cps : List CurvePoint) :
    Except Error (List (Sensor.TemperatureID × List point)) :=
  cps.enum.foldlM (addCurvePoint temps) []

/-- Body of the second loop: a closing anchor of PWM 100 at the last temperature when the
last PWM is below 100. -/
def closePoints (points : List point) : List point :=
  match points.getLast? with
  | some p => if p.pwm < 100 then points ++ [⟨p.temperature, 100⟩] else points
  | none => points

/-- Second loop of `NewCurveShaper`: every entry of `indexp` gets its closing anchor. -/
def closeCurves (indexp : List (Sensor.TemperatureID × List point)) :
    List (Sensor.TemperatureID × List point) :=
  indexp.map (fun e => (e.1, closePoints e.2))

/-- The segment the third loop builds from the previous point `points[i]` and the current
point `p`. -/
def mkSegment (prev p : point) : segment :=
  { temperature := prev.temperature
    eval := PWMFromTempSegment prev.temperature (prev.pwm : ℚ) p.temperature (p.pwm : ℚ) }

/-- Third loop of `NewCurveShaper`: the map `indexs` of segments by sensor
(`for i, p := range points[1:]` pairs each point with its predecessor). -/
def buildSegments (indexp : List (Sensor.TemperatureID × List point)) :
    List (Sensor.TemperatureID × List segment) :=
  indexp.foldl (fun indexs e =>
    (e.2.zip e.2.tail).foldl (fun indexs pp => mappend indexs e.1 (mkSegment pp.1 pp.2))
      indexs) []

/-- The closure stored in `s.index[tid][fan.ID]`: the segments are walked from the last
one down, the first whose start is at most `t` gives the PWM, and 100 is the default. -/
def evalSegments (segments : List segment) (t : ℚ) : Int :=
  match segments.reverse.find? (fun s => decide (t ≥ s.temperature)) with
  | some s => truncate (s.eval t)
  | none => 100

/-- Fourth loop of `NewCurveShaper`: the evaluator of every sensor of the fan `fid` is
stored in the index. -/
def setIndex (index : List (Sensor.TemperatureID × List (Openfan.Fan × (ℚ → Int))))
    (fid : Openfan.Fan) (indexs : List (Sensor.TemperatureID × List segment)) :
    List (Sensor.TemperatureID × List (Openfan.Fan × (ℚ → Int))) :=
  indexs.foldl (fun index e =>
    mset index e.1 (mset ((mget index e.1).getD []) fid (evalSegments e.2))) index

/-- Body of the loop `for _, fan := range cfg.FanSettings` of `NewCurveShaper`. -/
def addFan (temps : List Sensor.Temperature) (s : CurveShaper) (fan : Fan) :
    Except Error CurveShaper :=
  match buildPoints temps fan.CurvePoints with
  | .error err => .error err
  | .ok indexp =>
    .ok { labels := mset s.labels fan.ID fan.Label
          index := setIndex s.index fan.ID (buildSegments (closeCurves indexp)) }

/-- Function `NewCurveShaper`. -/
def NewCurveShaper (cfg : Config) (temps : List Sensor.Temperature) :
    Except Error CurveShaper :=
  cfg.FanSettings.foldlM (fun s nf => addFan temps s nf.2) { labels := [], index := [] }

/-- Method `CurveShaper.Eval`; `now` is the reading of `time.Now()`, taken as one instant
for the whole call. -/
def CurveShaper.Eval (s : CurveShaper) (now : Int) (temps : List Sensor.Temperature) :
    List (Openfan.Fan × Evaluation) :=
  temps.foldl (fun pwms t =>
    ((mget s.index t.ID).getD []).foldl (fun pwms fe =>
      mset pwms fe.1 (maxPWM ((mget pwms fe.1).getD Evaluation.zero)
        { ID := fe.1
          EvaluedAt := now
          Label := (mget s.labels fe.1).getD ""
          PWM := fe.2 t.Temperature
          RPM := 0
          TemperatureID := t.ID
          TemperatureName := t.Name
          Temperature := t.Temperature })) pwms) []

/-! ## Curve shaper: derived notions used in the statements -/

/-- The evaluator `s.index[tid][fid]`, when the index holds one. -/
def CurveShaper.evaluator (s : CurveShaper) (tid : Sensor.TemperatureID) (fid : Openfan.Fan) :
    Option (ℚ → Int) :=
  (mget s.index tid).bind (fun m => mget m fid)

/-- The entry `pwms[fid]` of `Eval` after one more reading `t`, from the entry `acc` before
it: the fan's evaluator for the sensor, when the index holds one, goes through `maxPWM`
against the entry so far (the zero value when there is none). -/
def evalOne (s : CurveShaper) (now : Int) (fid : Openfan.Fan) (acc : Option Evaluation)
    (t : Sensor.Temperature) : Option Evaluation :=
  match s.evaluator t.ID fid with
  | some ev =>
    some (maxPWM (acc.getD Evaluation.zero)
      { ID := fid
        EvaluedAt := now
        Label := (mget s.labels fid).getD ""
        PWM := ev t.Temperature
        RPM := 0
        TemperatureID := t.ID
        TemperatureName := t.Name
        Temperature := t.Temperature })
  | none => acc

/-- The anchor points one threshold entry adds to the sensor `tid`. -/
def thresholdPoints (temps : List Sensor.Temperature) (tid : Sensor.TemperatureID) (i : Nat)
    (pwm : Int) (th : String × Int) : List point :=
  match findID temps th.1 with
  | .ok tid' =>
    if tid' = tid then
      (if i = 0 then [⟨0, pwm⟩, ⟨(th.2 : ℚ), pwm⟩] else [⟨(th.2 : ℚ), pwm⟩])
    else []
  | .error _ => []

/-- The anchor points one curve point adds to the sensor `tid`. -/
def curvePointPoints (temps : List Sensor.Temperature) (tid : Sensor.TemperatureID)
    (ip : Nat × CurvePoint) : List point :=
  ip.2.flatMap (fun e => e.2.flatMap (thresholdPoints temps tid ip.1 e.1))

/-- The anchor points of the sensor `tid` in a curve, in the order of the loops. -/
def sensorPoints (temps : List Sensor.Temperature) (cps : List CurvePoint)
    (tid : Sensor.TemperatureID) : List point :=
  cps.enum.flatMap (curvePointPoints temps tid)

/-- The segments between consecutive points. -/
def segmentsOf (points : List point) : List segment :=
  (points.zip points.tail).map (fun pp => mkSegment pp.1 pp.2)

/-- The segments of the sensor `tid` in a curve: those between its consecutive anchor
points, the closing anchor included. -/
def sensorSegments (temps : List Sensor.Temperature) (cps : List CurvePoint)
    (tid : Sensor.TemperatureID) : List segment :=
  segmentsOf (closePoints (sensorPoints temps cps tid))

/-- The anchor points `indexp[tid]` the first loop of `NewCurveShaper` leaves for a fan
(the nil slice when the sensor has none or a sensor name is unknown). -/
def fanAnchors (temps : List Sensor.Temperature) (fan : Fan) (tid : Sensor.TemperatureID) :
    List point :=
  match buildPoints temps fan.CurvePoints with
  | .ok indexp => (mget indexp tid).getD []
  | .error _ => []

/-! ## float64 arithmetic

The values of the Go type `float64` that occur here are finite; they are modelled by the
rationals they denote. An operation of the source on `float64` is the exact operation
followed by `roundF64`, the rounding to the nearest value with a significand of 53 bits,
ties to the even significand (IEEE 754 binary64, the only rounding mode of Go). Every
operation is rounded on its own, as the compiler does on amd64 (no fused multiply-add).
The range of the exponent is not modelled: the model is exact as long as no result
overflows (magnitude of `2 ^ 1024` or more) or is subnormal (below `2 ^ (-1022)`). -/

/-- The exponent `⌊log₂ n⌋` of a natural number `n ≥ 1`, by halving; `fuel` bounds the
number of halvings, and `n` itself is enough. -/
def log2Fuel : Nat → Nat → Nat
  | 0, _ => 0
  | fuel + 1, n => if n < 2 then 0 else log2Fuel fuel (n / 2) + 1

/-- The exponent of a positive rational `q`: the integer `e` with
`2 ^ e ≤ q < 2 ^ (e + 1)`.  Below 1 it is read off the inverse: with `n = ⌈1 / q⌉` and
`2 ^ (k - 1) < n ≤ 2 ^ k` it is `-k`. -/
def exponent (q : ℚ) : Int :=
  if 1 ≤ q then (log2Fuel ⌊q⌋₊ ⌊q⌋₊ : Int)
  else -((log2Fuel ⌈q⁻¹⌉₊ (⌈q⁻¹⌉₊ - 1) : Int) + 1)

/-- Nearest integer, ties to the even one. -/
def roundHalfEven (q : ℚ) : Int :=
  if Int.fract q < 1 / 2 then ⌊q⌋
  else if 1 / 2 < Int.fract q then ⌊q⌋ + 1
  else if ⌊q⌋ % 2 = 0 then ⌊q⌋ else ⌊q⌋ + 1

/-- Rounding of an exact result to `float64`: with `2 ^ e ≤ |x| < 2 ^ (e + 1)`, the nearest
multiple of `2 ^ (e - 52)`, ties to even. -/
def roundF64 (x : ℚ) : ℚ :=
  if x = 0 then 0
  else (roundHalfEven (x / 2 ^ (exponent |x| - 52)) : ℚ) * 2 ^ (exponent |x| - 52)

/-! ## curve_shaper.go in `float64` arithmetic

The functions of `curve_shaper.go` whose result depends on the rounding of `float64`, with
every operation and every conversion `float64(n)` of an `int` rounded by `roundF64`.
The loops are those of `NewCurveShaper` above; `closePoints`, `closeCurves`,
`evalSegments`, `setIndex` and `CurveShaper.Eval` compute on values as they are and serve
both versions. -/

/-- Function `PWMFromTempSegment` in the `float64` arithmetic of the source: the
subtractions, the division, the products and the sum are each rounded. -/
def PWMFromTempSegment64 (temp1 pwm1 temp2 pwm2 : ℚ) : ℚ → ℚ :=
  let temp2' := if temp1 = temp2 then 2 else temp2
  let temp1' := if temp1 = temp2 then 1 else temp1
  let a := roundF64 (roundF64 (pwm2 - pwm1) / roundF64 (temp2' - temp1'))
  let b := roundF64 (pwm1 - roundF64 (a * temp1'))
  fun temp => min (roundF64 (roundF64 (a * temp) + b)) 100

/-- Body of the innermost loop of `NewCurveShaper`, the conversion `float64(t)` of the
threshold rounded. -/
def addThreshold64 (temps : List Sensor.Temperature) (i : Nat) (pwm : Int)
    (indexp : List (Sensor.TemperatureID × List point)) (th : String × Int) :
    Except Error (List (Sensor.TemperatureID × List point)) :=
  match findID temps th.1 with
  | .error err => .error (.wrap th.1 err)
  | .ok tid =>
    let indexp := if i = 0 then mappend indexp tid ⟨0, pwm⟩ else indexp
    .ok (mappend indexp tid ⟨roundF64 (th.2 : ℚ), pwm⟩)

/-- Body of the loop `for i, p := range fan.CurvePoints`, over `addThreshold64`. -/
def addCurvePoint64 (temps : List Sensor.Temperature)
    (indexp : List (Sensor.TemperatureID × List point)) (ip : Nat × CurvePoint) :
    Except Error (List (Sensor.TemperatureID × List point)) :=
  ip.2.foldlM (fun acc e => e.2.foldlM (addThreshold64 temps ip.1 e.1) acc) indexp

/-- First loop of `NewCurveShaper` for one fan, over `addCurvePoint64`. -/
def buildPoints64 (temps : List Sensor.Temperature) (cps : List CurvePoint) :
    Except Error (List (Sensor.TemperatureID × List point)) :=
  cps.enum.foldlM (addCurvePoint64 temps) []

/-- The segment the third loop builds from the previous point `points[i]` and the current
point `p`, the conversions `float64(points[i].pwm)` and `float64(p.pwm)` rounded. -/
def mkSegment64 (prev p : point) : segment :=
  { temperature := prev.temperature
    eval := PWMFromTempSegment64 prev.temperature (roundF64 (prev.pwm : ℚ)) p.temperature
      (roundF64 (p.pwm : ℚ)) }

/-- Third loop of `NewCurveShaper`, over `mkSegment64`. -/
def buildSegments64 (indexp : List (Sensor.TemperatureID × List point)) :
    List (Sensor.TemperatureID × List segment) :=
  indexp.foldl (fun indexs e =>
    (e.2.zip e.2.tail).foldl (fun indexs pp => mappend indexs e.1 (mkSegment64 pp.1 pp.2))
      indexs) []

/-- Body of the loop `for _, fan := range cfg.FanSettings` of `NewCurveShaper`, over
`buildPoints64` and `buildSegments64`. -/
def addFan64 (temps : List Sensor.Temperature) (s : CurveShaper) (fan : Fan) :
    Except Error CurveShaper :=
  match buildPoints64 temps fan.CurvePoints with
  | .error err => .error err
  | .ok indexp =>
    .ok { labels := mset s.labels fan.ID fan.Label
          index := setIndex s.index fan.ID (buildSegments64 (closeCurves indexp)) }

/-- Function `NewCurveShaper` in `float64` arithmetic. -/
def NewCurveShaper64 (cfg : Config) (temps : List Sensor.Temperature) :
    Except Error CurveShaper :=
  cfg.FanSettings.foldlM (fun s nf => addFan64 temps s nf.2) { labels := [], index := [] }

/-- The anchor points one threshold entry adds to the sensor `tid`, in `float64`. -/
def thresholdPoints64 (temps : List Sensor.Temperature) (tid : Sensor.TemperatureID) (i : Nat)
    (pwm : Int) (th : String × Int) : List point :=
  match findID temps th.1 with
  | .ok tid' =>
    if tid' = tid then
      (if i = 0 then [⟨0, pwm⟩, ⟨roundF64 (th.2 : ℚ), pwm⟩] else [⟨roundF64 (th.2 : ℚ), pwm⟩])
    else []
  | .error _ => []

/-- The anchor points one curve point adds to the sensor `tid`, in `float64`. -/
def curvePointPoints64 (temps : List Sensor.Temperature) (tid : Sensor.TemperatureID)
    (ip : Nat × CurvePoint) : List point :=
  ip.2.flatMap (fun e => e.2.flatMap (thresholdPoints64 temps tid ip.1 e.1))

/-- The anchor points of the sensor `tid` in a curve, in the order of the loops, in
`float64`. -/
def sensorPoints64 (temps : List Sensor.Temperature) (cps : List CurvePoint)
    (tid : Sensor.TemperatureID) : List point :=
  cps.enum.flatMap (curvePointPoints64 temps tid)

/-- The `float64` segments between consecutive points. -/
def segmentsOf64 (points : List point) : List segment :=
  (points.zip points.tail).map (fun pp => mkSegment64 pp.1 pp.2)

/-- The `float64` segments of the sensor `tid` in a curve: those between its consecutive
anchor points, the closing anchor included. -/
def sensorSegments64 (temps : List Sensor.Temperature) (cps : List CurvePoint)
    (tid : Sensor.TemperatureID) : List segment :=
  segmentsOf64 (closePoints (sensorPoints64 temps cps tid))

/-- The anchor points `indexp[tid]` the first loop of `NewCurveShaper` leaves for a fan in
`float64` (the nil slice when the sensor has none or a sensor name is unknown). -/
def fanAnchors64 (temps : List Sensor.Temperature) (fan : Fan) (tid : Sensor.TemperatureID) :
    List point :=
  match buildPoints64 temps fan.CurvePoints with
  | .ok indexp => (mget indexp tid).getD []
  | .error _ => []

/-! ## controller.go -/

def eventUpdateEval : String := "update-eval"
def eventUpdateRPMs : String := "update-rpms"
def eventWatch : String := "watch"
def eventRefreshWatchers : String := "refresh-watchers"
def eventUnwatch : String := "unwatch"

/-- Struct `event` (the channel `monitor` of a watcher is left out). -/
structure event where
  name : String
  eval : Evaluation := Evaluation.zero
  rpms : List (Openfan.Fan × Nat) := []
  monitorID : Int := 0
  deriving DecidableEq

/-- Struct `refresh`; `interval` is in nanoseconds and `until_` is the field `until`. -/
structure refresh where
  current : Nat := 0
  until_ : Nat := 0
  interval : Int
  deriving DecidableEq

/-- The state of `Controller` the control loop works on: the configured fans and the maps
`active` and `pending`. -/
structure Controller where
  fans : List (Openfan.Fan × Fan)
  active : List (Openfan.Fan × Evaluation)
  pending : List (Openfan.Fan × Evaluation)

/-- The maps as `New` leaves them: `fans` filled from the configuration, `active` and
`pending` empty. -/
def New (cfg : Config) : Controller :=
  { fans := cfg.FanSettings.foldl (fun fans nf => mset fans nf.2.ID nf.2) []
    active := []
    pending := [] }

/-- What one run of the loop body of `Controller.eval` over a batch has done so far: the
map `pending`, the flag `toRefresh`, the events sent on `c.events` and the calls of
`c.fan.SetPWM`, both in order. -/
structure EvalState where
  pending : List (Openfan.Fan × Evaluation)
  toRefresh : Bool
  sent : List event
  calls : List (Openfan.Fan × Int)

/-- Lines 238-246 of `Controller.eval`: the evaluation is applied.  An error of `SetPWM`
is logged and changes nothing else. -/
def applyEval (st : EvalState) (fid : Openfan.Fan) (eval : Evaluation) : EvalState :=
  { st with
    toRefresh := true
    sent := st.sent ++ [{ name := eventUpdateEval, eval := eval }]
    calls := st.calls ++ [(fid, eval.PWM)] }

/-- Field `c.fans[fid].FanSetUp.Duration`; a fan missing from the map reads as the zero
value. -/
def fanSetUp (fans : List (Openfan.Fan × Fan)) (fid : Openfan.Fan) : Int :=
  ((mget fans fid).map (fun f => f.FanSetUp)).getD 0

/-- Field `c.fans[fid].FanSetDown.Duration`. -/
def fanSetDown (fans : List (Openfan.Fan × Fan)) (fid : Openfan.Fan) : Int :=
  ((mget fans fid).map (fun f => f.FanSetDown)).getD 0

/-- Body of the loop `for fid, eval := range evals` of `Controller.eval`, reading the maps
`fans` and `active` of the controller. -/
def evalFan (fans : List (Openfan.Fan × Fan)) (active : List (Openfan.Fan × Evaluation))
    (st : EvalState) (fe : Openfan.Fan × Evaluation) : EvalState :=
  let fid := fe.1
  let eval := fe.2
  match mget active fid with
  | some sa =>
    if eval.PWM = sa.PWM then
      { st with pending := mdelete st.pending fid }
    else
      let diff := eval.PWM - sa.PWM
      let d := if diff < 0 then fanSetDown fans fid else fanSetUp fans fid
      if d > 0 then
        match mget st.pending fid with
        | none => { st with pending := mset st.pending fid eval }
        | some sp =>
          if eval.EvaluedAt - sp.EvaluedAt < d then st
          else applyEval { st with pending := mdelete st.pending fid } fid eval
      else applyEval st fid eval
  | none => applyEval st fid eval

/-- One iteration of the loop `for evals := range ch` of `Controller.eval`: the state after
the batch, and the descriptor sent on `refreshCh` when a fan was applied. -/
def evalBatch (c : Controller) (evals : List (Openfan.Fan × Evaluation)) :
    EvalState × Option refresh :=
  let st := evals.foldl (evalFan c.fans c.active)
    { pending := c.pending, toRefresh := false, sent := [], calls := [] }
  (st, if st.toRefresh then some { interval := 500 * 1000000, until_ := 8 } else none)

/-- Subtraction of `uint16` values. -/
def subUint16 (a b : Nat) : Nat := (a + 65536 - b % 65536) % 65536

/-- Addition of `uint16` values. -/
def addUint16 (a b : Nat) : Nat := (a + b) % 65536

/-- Body of the loop `for fid, rpm := range e.rpms` of the case `eventUpdateRPMs`. -/
def updateRPM (acc : List (Openfan.Fan × Evaluation) × Bool) (fr : Openfan.Fan × Nat) :
    List (Openfan.Fan × Evaluation) × Bool :=
  let eval := (mget acc.1 fr.1).getD Evaluation.zero
  let change := acc.2 ||
    (decide (eval.RPM ≠ 0) &&
      (decide (fr.2 < subUint16 eval.RPM 5) || decide (fr.2 > addUint16 eval.RPM 5)))
  (mset acc.1 fr.1 { eval with RPM := fr.2 }, change)

/-- One iteration of the loop of `Controller.eventLoop` on the maps of the controller: the
new state and the events the iteration sends on `c.events` (the watchers are left
out). -/
def eventLoopStep (c : Controller) (e : event) : Controller × List event :=
  if e.name = eventUpdateEval then
    ({ c with active := mset c.active e.eval.ID e.eval }, [])
  else if e.name = eventUpdateRPMs then
    ({ c with active := (e.rpms.foldl updateRPM (c.active, false)).1 },
      [{ name := eventRefreshWatchers }])
  else if e.name = eventWatch then
    (c, [{ name := eventRefreshWatchers }])
  else (c, [])

/-- What the two goroutines working on the maps can do next: `Controller.eval` handles one
entry of a batch, or `Controller.eventLoop` handles one event.  A sequence of actions is one
interleaving of the two loops; the events are arbitrary, so the ones `Controller.eval` sent
may be handled at any later moment. -/
inductive Action where
  | entry (fid : Openfan.Fan) (eval : Evaluation)
  | event (e : event)

/-- The state after one action: an entry leaves its new `pending` map, an event its new
`active` map. -/
def step (c : Controller) : Action → Controller
  | .entry fid eval =>
    { c with
      pending := (evalFan c.fans c.active
        { pending := c.pending, toRefresh := false, sent := [], calls := [] }
        (fid, eval)).pending }
  | .event e => (eventLoopStep c e).1

/-- The state after a sequence of actions. -/
def run (c : Controller) (acts : List Action) : Controller :=
  acts.foldl step c

/-- The calls of `SetPWM` the loop body of `Controller.eval` makes when it handles the entry
`(fid, eval)` in state `c`. -/
def callsOf (c : Controller) (fid : Openfan.Fan) (eval : Evaluation) :
    List (Openfan.Fan × Int) :=
  (evalFan c.fans c.active
    { pending := c.pending, toRefresh := false, sent := [], calls := [] } (fid, eval)).calls

/-- Body of `case e := <-refreshCh` in the refresh goroutine of `Controller.Launch`, given
the outcome of the query `c.fan.RPMs()`: the event sent on `c.events` (none when the query
fails, where the body ends with `continue`) and the descriptor handed to `time.AfterFunc`
with the delay `e.interval` (none when it is not sent again). `current` is a `uint8`. -/
def refreshTick (rpms : Except Error (List (Openfan.Fan × Nat))) (e : refresh) :
    Option event × Option refresh :=
  match rpms with
  | .error _ => (none, none)
  | .ok rpms =>
    (some { name := eventUpdateRPMs, rpms := rpms },
      if e.until_ = 0 ∨ e.current < e.until_ then
        some { e with current := (e.current + 1) % 256 }
      else none)

/-- The ticks one descriptor causes once it is sent on `refreshCh`: it is received, handled
by the body above with the outcome of the next query, and received again after
`e.interval` when the body sent it again. `queries` holds the outcomes of the queries of
these ticks; the result has one entry per tick, the event the tick emitted. The body reads
nothing but `e`, so other descriptors in flight do not change these ticks. -/
def refreshTicks : List (Except Error (List (Openfan.Fan × Nat))) → refresh → List (Option event)
  | [], _ => []
  | q :: queries, e =>
    (refreshTick q e).1 ::
      (match (refreshTick q e).2 with
      | some e' => refreshTicks queries e'
      | none => [])

/-! ## sse.go -/

/-- The error `io.EOF`. -/
def ioEOF : Error := .other "EOF"

/-- Result of one call `r.Read(p)` on a slice `p` of one byte: the byte stored in `p[0]`
when the returned count is 1 (none when it is 0), and the returned error. -/
structure ReadResult where
  byte : Option Char
  err : Option Error
  deriving DecidableEq, Repr

/-- Outcome of `ReadSSE`: the returned bytes and error together with the number of bytes
taken from the reader, or a run-time panic. -/
inductive SSEOutcome where
  | ret (data : List Char) (err : Option Error) (taken : Nat)
  | panic
  deriving DecidableEq, Repr

/-- The loop of `ReadSSE`. `room` is what is left of the buffer past `n` (with no room the
slice `buf[n : n+1]` is out of range), `reads` the results of the coming calls of `r.Read`
(a reader at the end of the list reports `io.EOF`), `taken` the bytes delivered so far,
`buf` the slice `buf[:n]` and `lf` the counter of the source, a `uint8`. A read that
delivers no byte leaves the zero byte of the fresh buffer in `buf[n]`. -/
def readLoop : Nat → List ReadResult → Nat → List Char → Nat → SSEOutcome
  | 0, _, _, _, _ => .panic
  | room + 1, reads, taken, buf, lf =>
    let res := reads.headD ⟨none, some ioEOF⟩
    let taken := taken + (if res.byte.isSome then 1 else 0)
    match res.err with
    | some e => .ret buf (some e) taken
    | none =>
      let b := res.byte.getD (Char.ofNat 0)
      let lf := if b = '\n' then (lf + 1) % 256 else 0
      if lf = 2 then .ret (buf.take (buf.length - 1)) none taken
      else readLoop room reads.tail taken (buf ++ [b]) lf

/-- Function `ReadSSE` on a reader that answers the successive calls of `Read` with
`reads`; the buffer has `512<<10` bytes. -/
def ReadSSE (reads : List ReadResult) : SSEOutcome :=
  readLoop (512 <<< 10) reads 0 [] 0

/-- The reads of a stream that delivers the given bytes one by one, without error. -/
def delivers (bytes : List Char) : List ReadResult :=
  bytes.map (fun b => ⟨some b, none⟩)

/-! ## Concrete inputs -/

/-- An evaluation of fan 0 with the given PWM and timestamp, on a sensor `cpu` at 40
degrees. -/
def exEval (pwm : Int) (evaluedAt : Int) : Evaluation :=
  { ID := 0, EvaluedAt := evaluedAt, Label := "", PWM := pwm, RPM := 0,
    TemperatureID := 0, TemperatureName := "cpu", Temperature := 40 }

/-- A configuration whose fan 0 has a ramp-up duration of 2000 ns. -/
def exRampCfg : Config :=
  { FanSettings := [("fan1", { ID := 0, FanSetUp := 2000, CurvePoints := [[(30, [("cpu", 40)])]] })] }

/-- Fan 0 becomes active at PWM 50, then an entry of PWM 60 stamped 1000 is handled. -/
def exRampTrace : List Action :=
  [Action.event { name := eventUpdateEval, eval := exEval 50 0 }, Action.entry 0 (exEval 60 1000)]

/-- A controller state where fan 0 is active at PWM 50 and has a pending record. -/
def exController : Controller :=
  { fans := [], active := [(0, exEval 50 0)], pending := [(0, exEval 60 1000), (1, exEval 70 1000)] }

/-- A catalog of two sensors, `cpu` of id 1 and `gpu` of id 2. -/
def exCatalog : List Sensor.Temperature :=
  [{ ID := 1, Name := "cpu", Temperature := 40 }, { ID := 2, Name := "gpu", Temperature := 40 }]

/-- A reading of the sensor `cpu`. -/
def cpuAt (t : ℚ) : Sensor.Temperature := { ID := 1, Name := "cpu", Temperature := t }

/-- A reading of the sensor `gpu`. -/
def gpuAt (t : ℚ) : Sensor.Temperature := { ID := 2, Name := "gpu", Temperature := t }

/-- A configuration of the single fan `fan4` (id 3) with the given curve. -/
def exCfg (cps : List CurvePoint) : Config :=
  { FanSettings := [("fan4", { ID := 3, Label := "rear", CurvePoints := cps })] }

/-- The shaper `NewCurveShaper` returns (an empty one when it fails). -/
def shaperOf (cfg : Config) (catalog : List Sensor.Temperature) : CurveShaper :=
  match NewCurveShaper cfg catalog with
  | .ok s => s
  | .error _ => { labels := [], index := [] }

/-- Curve `30%: {cpu: 0, gpu: 0}`: one point, both thresholds at 0 degrees. -/
def exZeroCurve : List CurvePoint := [[(30, [("cpu", 0), ("gpu", 0)])]]

/-- Curve `20%: {cpu: 30}`, `50%: {cpu: 60}`. -/
def exTwoPointCurve : List CurvePoint := [[(20, [("cpu", 30)])], [(50, [("cpu", 60)])]]

/-- Curve `20%: {cpu: 40}`, `50%: {cpu: 40}`, `100%: {cpu: 80}`: a step at 40 degrees. -/
def exStepCurve : List CurvePoint :=
  [[(20, [("cpu", 40)])], [(50, [("cpu", 40)])], [(100, [("cpu", 80)])]]

/-- Curve `20%: {cpu: 60}`, `100%: {cpu: 40}`: the thresholds decrease. -/
def exUnorderedCurve : List CurvePoint := [[(20, [("cpu", 60)])], [(100, [("cpu", 40)])]]

/-- Curve `10%: {cpu: 5}`, `20%: {cpu: 10, gpu: -10}`, `50%: {cpu: 20, gpu: -5}`: the sensor
`gpu` has thresholds below zero. -/
def exNegativeCurve : List CurvePoint :=
  [[(10, [("cpu", 5)])], [(20, [("cpu", 10), ("gpu", -10)])], [(50, [("cpu", 20), ("gpu", -5)])]]

/-- Curve `20%: {cpu: 30}`, `50%: {cpu: 50, gpu: 60}`, `100%: {cpu: 70, gpu: 80}`. -/
def exTwoSensorCurve : List CurvePoint :=
  [[(20, [("cpu", 30)])], [(50, [("cpu", 50), ("gpu", 60)])], [(100, [("cpu", 70), ("gpu", 80)])]]

/-- Curve `20%: {cpu: 30}`, `100%: {cpu: 60, gpu: 70}`: the sensor `gpu` is named in the
last point only. -/
def exSingleAnchorCurve : List CurvePoint :=
  [[(20, [("cpu", 30)])], [(100, [("cpu", 60), ("gpu", 70)])]]

/-- Curve `30%: {cpu: 1}`: one point, with a threshold of one degree. -/
def exLowCurve : List CurvePoint := [[(30, [("cpu", 1)])]]

/-- The value the evaluator `s.index[tid][fid]` yields at `t`, when the index holds one. -/
def evaluatorAt (s : CurveShaper) (tid : Sensor.TemperatureID) (fid : Openfan.Fan) (t : ℚ) :
    Option Int :=
  (s.evaluator tid fid).map (fun ev => ev t)

/-- Fan 0 with a negative ramp-up duration, as `fan_step_up: -1ns` configures it. -/
def exNegativeRampFans : List (Openfan.Fan × Fan) :=
  [(0, { ID := 0, FanSetUp := -1, CurvePoints := [] })]

/-- Fan 0 with a ramp-up duration of 2000 ns and a ramp-down duration of 5000 ns. -/
def exRampFans : List (Openfan.Fan × Fan) :=
  [(0, { ID := 0, FanSetUp := 2000, FanSetDown := 5000, CurvePoints := [] })]

/-- The state of a batch before its first entry, with the given pending records. -/
def exBatchStart (pending : List (Openfan.Fan × Evaluation)) : EvalState :=
  { pending := pending, toRefresh := false, sent := [], calls := [] }

/-! ### Inputs of the device transport -/

/-- A port on which the write succeeds and one read delivers the bytes `rx`. -/
def exPort (rx : List Char) : Openfan.Port := ⟨none, [.ok rx]⟩

/-- The received bytes of the specification's example: a diagnostic line, then a line
starting with the response character. -/
def exNoisyReply : List Char := "noisy debug\r\n<00:0064\r\n".toList

/-- A diagnostic line, then a response whose four-byte header `<00|` precedes an item. -/
def exHeaderReply : List Char := "noisy debug\r\n<00|00:0064\r\n".toList

/-- A response of four bytes. -/
def exShortReply : List Char := ['<', '0', '2', '|']

/-- A port that delivers 4096 bytes, in 32 full reads. -/
def exLongPort : Openfan.Port := ⟨none, List.replicate 32 (.ok (List.replicate 128 '<'))⟩

/-- Items of an all-fan RPM response: key `00` twice, a text without `':'`, and the empty
item after the trailing `';'`. -/
def exItems : List Openfan.RPMItem :=
  [.pair ['0', '0'] ['0', '0', '6', '4'], .pair ['0', 'a'] ['0', 'F', 'A', '0'],
    .other ['x'], .pair ['0', '0'] ['0', '1', 'F', '4'], .other []]

/-- A response carrying `exItems`: `<00|00:0064;0a:0FA0;x;00:01F4;\r\n`. -/
def exItemsReply : List Char := "<00|00:0064;0a:0FA0;x;00:01F4;\r\n".toList

/-! ### Inputs of the refresh loop and of the event loop -/

/-- The descriptor `Controller.eval` sends after an applied change: 500 ms, 8. -/
def exBurst : refresh := { current := 0, until_ := 8, interval := 500 * 1000000 }

/-- The descriptor `Controller.Launch` sends first: every 10 s, unbounded. -/
def exBaseline : refresh := { interval := 10 * 1000000000 }

/-- Twelve queries that succeed with the same reading of fan 0. -/
def exQueries : List (Except Error (List (Openfan.Fan × Nat))) :=
  List.replicate 12 (.ok [(0, 1200)])

/-- A controller without fans and with empty maps, as `New` leaves them. -/
def exEmptyController : Controller := { fans := [], active := [], pending := [] }

/-- A controller whose fan 0 is active with a stored speed of 3 RPM. -/
def exSlowController : Controller :=
  { fans := [], active := [(0, { exEval 50 0 with RPM := 3 })], pending := [] }

/-- The events of a short run of the actor: the evaluations `Eval` returns for the curve
`20%: {cpu: 30}`, `50%: {cpu: 60}` of fan 3 on a reading of 40 degrees, each in an
update-eval event, then an update-rpms event with readings of the fans 3 and 4. -/
def exActorTrace : List Action :=
  (((shaperOf (exCfg exTwoPointCurve) exCatalog).Eval 0 [cpuAt 40]).map
      (fun fe => Action.event { name := eventUpdateEval, eval := fe.2 })) ++
    [Action.event { name := eventUpdateRPMs, rpms := [(3, 1200), (4, 900)] }]

/-- Received bytes without response character. -/
def exNoMarkerReply : List Char := "ERR\r\n".toList

/-- Six received bytes without response character. -/
def exLateReply : List Char := "late\r\n".toList

/-- The device controller after a first exchange that received `exHeaderReply`. -/
def exAfterFirst : Openfan.Controller :=
  { wbuf := (Openfan.Run Openfan.Open (exPort exHeaderReply) Openfan.CommandFanAllGetRPM []).wbuf
    rbuf := (Openfan.Run Openfan.Open (exPort exHeaderReply) Openfan.CommandFanAllGetRPM []).rbuf }

/-- The shaper `NewCurveShaper` returns in `float64` arithmetic (an empty one when it
fails). -/
def shaperOf64 (cfg : Config) (catalog : List Sensor.Temperature) : CurveShaper :=
  match NewCurveShaper64 cfg catalog with
  | .ok s => s
  | .error _ => { labels := [], index := [] }

/-- Curve `20%: {cpu: 20}`, `100%: {cpu: 50}`. -/
def exFullCurve : List CurvePoint := [[(20, [("cpu", 20)])], [(100, [("cpu", 50)])]]

/-- Curve `20%: {cpu: -40}`, `50%: {cpu: -19}`: thresholds below zero. -/
def exFrostCurve : List CurvePoint := [[(20, [("cpu", -40)])], [(50, [("cpu", -19)])]]

/-- Curve `1%: {cpu: 2^47}`, `100%: {cpu: 2^47 + 1}`: thresholds past the range where the
product of a slope and a temperature is exact. -/
def exHugeCurve : List CurvePoint :=
  [[(1, [("cpu", 140737488355328)])], [(100, [("cpu", 140737488355329)])]]

/-! ## Lemmas on maps -/

section GoMapLemmas

variable {κ : Type} {α : Type} [DecidableEq κ]

theorem mget_mset (m : List (κ × α)) (k k' : κ) (v : α) :
    mget (mset m k v) k' = if k = k' then some v else mget m k' := by
  induction m with
  | nil =>
    by_cases h : k = k' <;> simp [mset, mget, h]
  | cons e rest ih =>
    obtain ⟨k0, v0⟩ := e
    by_cases h0 : k0 = k
    · subst h0
      by_cases h : k0 = k' <;> simp [mset, mget, h]
    · by_cases h : k = k'
      · subst h
        simp [mset, mget, h0, ih]
      · by_cases h1 : k0 = k'
        · subst h1
          simp [mset, mget, h0, h]
        · simp [mset, mget, h0, h, h1, ih]

theorem mget_mset_self (m : List (κ × α)) (k : κ) (v : α) :
    mget (mset m k v) k = some v := by
  simp [mget_mset]

theorem mget_mset_ne (m : List (κ × α)) {k k' : κ} (v : α) (h : k ≠ k') :
    mget (mset m k v) k' = mget m k' := by
  simp [mget_mset, h]

theorem mget_mdelete (m : List (κ × α)) (k k' : κ) :
    mget (mdelete m k) k' = if k = k' then none else mget m k' := by
  induction m with
  | nil => simp [mdelete, mget]
  | cons e rest ih =>
    obtain ⟨k0, v0⟩ := e
    by_cases h0 : k0 = k
    · subst h0
      by_cases h : k0 = k'
      · subst h
        simp [mdelete, ih]
      · simp [mdelete, mget, h, ih]
    · by_cases h : k = k'
      · subst h
        simp [mdelete, mget, h0, ih]
      · by_cases h1 : k0 = k'
        · subst h1
          simp [mdelete, mget, h0, h]
        · simp [mdelete, mget, h0, h, h1, ih]

theorem mem_of_mget {m : List (κ × α)} {k : κ} {v : α} (h : mget m k = some v) :
    (k, v) ∈ m := by
  induction m with
  | nil => simp [mget] at h
  | cons e rest ih =>
    obtain ⟨k0, v0⟩ := e
    by_cases h0 : k0 = k
    · subst h0
      simp [mget] at h
      simp [h]
    · simp [mget, h0] at h
      exact List.mem_cons_of_mem _ (ih h)

theorem mem_mset {m : List (κ × α)} {k : κ} {v : α} {e : κ × α} (h : e ∈ mset m k v) :
    e ∈ m ∨ e = (k, v) := by
  induction m with
  | nil =>
    simp [mset] at h
    exact Or.inr h
  | cons e0 rest ih =>
    obtain ⟨k0, v0⟩ := e0
    by_cases h0 : k0 = k
    · subst h0
      simp [mset] at h
      rcases h with h | h
      · exact Or.inr h
      · exact Or.inl (List.mem_cons_of_mem _ h)
    · simp [mset, h0] at h
      rcases h with h | h
      · exact Or.inl (h ▸ List.mem_cons_self _ _)
      · rcases ih h with h | h
        · exact Or.inl (List.mem_cons_of_mem _ h)
        · exact Or.inr h

theorem mkeys_mset (m : List (κ × α)) (k : κ) (v : α) :
    (mset m k v).map Prod.fst =
      if k ∈ m.map Prod.fst then m.map Prod.fst else m.map Prod.fst ++ [k] := by
  induction m with
  | nil => simp [mset]
  | cons e rest ih =>
    obtain ⟨k0, v0⟩ := e
    by_cases h0 : k0 = k
    · subst h0
      simp [mset]
    · have h0' : ¬ k = k0 := fun h => h0 h.symm
      simp only [mset, h0, if_false, List.map_cons, ih, List.mem_cons, h0', false_or]
      split <;> simp

theorem nodup_mkeys_mset {m : List (κ × α)} (k : κ) (v : α) (h : (m.map Prod.fst).Nodup) :
    ((mset m k v).map Prod.fst).Nodup := by
  rw [mkeys_mset]
  split
  · exact h
  · rename_i hk
    exact List.Nodup.append h (List.nodup_singleton k) (by simpa using hk)

theorem mget_eq_none_of_not_mem {m : List (κ × α)} {k : κ} (h : k ∉ m.map Prod.fst) :
    mget m k = none := by
  induction m with
  | nil => rfl
  | cons e rest ih =>
    obtain ⟨k0, v0⟩ := e
    simp only [List.map_cons, List.mem_cons, not_or] at h
    have h0 : ¬ k0 = k := fun h' => h.1 h'.symm
    simp [mget, h0, ih h.2]

theorem mget_of_mem {m : List (κ × α)} {k : κ} {v : α} (hn : (m.map Prod.fst).Nodup)
    (h : (k, v) ∈ m) : mget m k = some v := by
  induction m with
  | nil => simp at h
  | cons e rest ih =>
    obtain ⟨k0, v0⟩ := e
    simp only [List.map_cons, List.nodup_cons] at hn
    rcases List.mem_cons.mp h with h | h
    · injection h with h1 h2
      subst h1 h2
      simp [mget]
    · have hk : k ∈ rest.map Prod.fst := List.mem_map.mpr ⟨(k, v), h, rfl⟩
      have h0 : ¬ k0 = k := fun h' => hn.1 (h' ▸ hk)
      simp [mget, h0, ih hn.2 h]

end GoMapLemmas

/-! ## Wire protocol: PWM domain mapping -/

namespace Openfan

theorem f2x_digits (v : Nat) (h : v < 256) :
    f2x v = (hexDigitUpper (v / 16), hexDigitUpper (v % 16)) := by
  interval_cases v <;> rfl

/-- C1: for every percent `p` with `0 ≤ p ≤ 100`, the device value `SetPWM` sends,
`min(255, p*255/100 + 1)` truncated to a byte, converted back with `v*100/255` as `SetPWM`
does on the reply, is `p` again. -/
theorem pwm_percent_device_roundtrip (p : Int) (h0 : 0 ≤ p) (h100 : p ≤ 100) :
    toDevicePWM p = min (p * 255 / 100 + 1) 255 ∧
      (fromDevicePWM (toUint8 (toDevicePWM p)) : Int) = p := by
  interval_cases p <;> decide

/-- C1 at the five percents named by the specification: 0, 1, 50, 99 and 100. -/
theorem pwm_percent_device_roundtrip_witness :
    (fromDevicePWM (toUint8 (toDevicePWM 0)) : Int) = 0 ∧
      (fromDevicePWM (toUint8 (toDevicePWM 1)) : Int) = 1 ∧
      (fromDevicePWM (toUint8 (toDevicePWM 50)) : Int) = 50 ∧
      (fromDevicePWM (toUint8 (toDevicePWM 99)) : Int) = 99 ∧
      (fromDevicePWM (toUint8 (toDevicePWM 100)) : Int) = 100 :=
  ⟨(pwm_percent_device_roundtrip 0 (by decide) (by decide)).2,
    (pwm_percent_device_roundtrip 1 (by decide) (by decide)).2,
    (pwm_percent_device_roundtrip 50 (by decide) (by decide)).2,
    (pwm_percent_device_roundtrip 99 (by decide) (by decide)).2,
    (pwm_percent_device_roundtrip 100 (by decide) (by decide)).2⟩

theorem toDevicePWM_range (p : Int) (h0 : 0 ≤ p) (h100 : p ≤ 100) :
    toDevicePWM p = min (p * 255 / 100 + 1) 255 ∧ 1 ≤ toDevicePWM p ∧ toDevicePWM p ≤ 255 ∧
      (toUint8 (toDevicePWM p) : Int) = toDevicePWM p := by
  interval_cases p <;> decide

/-- C2: for every fan `f` (a `uint8`) and percent `p` in `0..100`, `SetPWM` hands to `Run`
the command `CommandFanSetPWM` with exactly four characters: the two upper-case hex digits
of `f`, then those of `d = min(255, p*255/100 + 1)`; `d` lies in `1..255` and its conversion
to a byte keeps its value.  Device value 200 is written `C8`. -/
theorem SetPWM_payload (f : Fan) (p : Int) (hf : f < 256) (h0 : 0 ≤ p) (h100 : p ≤ 100) :
    SetPWMRequest f p = .ok (CommandFanSetPWM,
        [hexDigitUpper (f / 16), hexDigitUpper (f % 16),
          hexDigitUpper ((min (p * 255 / 100 + 1) 255).toNat / 16),
          hexDigitUpper ((min (p * 255 / 100 + 1) 255).toNat % 16)]) ∧
      1 ≤ min (p * 255 / 100 + 1) 255 ∧ min (p * 255 / 100 + 1) 255 ≤ 255 ∧
      (toUint8 (toDevicePWM p) : Int) = min (p * 255 / 100 + 1) 255 ∧
      f2x 200 = ('C', '8') := by
  obtain ⟨hd, h1, h255, hu⟩ := toDevicePWM_range p h0 h100
  have hlt : toUint8 (toDevicePWM p) < 256 := by
    have : (toUint8 (toDevicePWM p) : Int) < 256 := by omega
    exact_mod_cast this
  have hnat : toUint8 (toDevicePWM p) = (min (p * 255 / 100 + 1) 255).toNat := by
    rw [← hd]; omega
  refine ⟨?_, hd ▸ h1, hd ▸ h255, hd ▸ hu, by decide⟩
  have hguard : ¬ (p < 0 ∨ p > 100) := by omega
  rw [hnat] at hlt
  simp only [SetPWMRequest, hguard, if_false, f2x_digits f hf, hnat, f2x_digits _ hlt]

/-- C2 at fan 3 and 78 percent: the payload is `03C7`. -/
theorem SetPWM_payload_witness :
    SetPWMRequest 3 78 = .ok (CommandFanSetPWM, ['0', '3', 'C', '7']) :=
  (SetPWM_payload 3 78 (by decide) (by decide) (by decide)).1

end Openfan

/-! ## Control actor: debounce -/

theorem eventLoopStep_pending (c : Controller) (e : event) :
    (eventLoopStep c e).1.pending = c.pending := by
  unfold eventLoopStep
  split_ifs <;> rfl

theorem eventLoopStep_fans (c : Controller) (e : event) :
    (eventLoopStep c e).1.fans = c.fans := by
  unfold eventLoopStep
  split_ifs <;> rfl

theorem step_fans (c : Controller) (a : Action) : (step c a).fans = c.fans := by
  cases a with
  | entry fid eval => rfl
  | event e => exact eventLoopStep_fans c e

theorem run_fans (c : Controller) (acts : List Action) : (run c acts).fans = c.fans := by
  induction acts generalizing c with
  | nil => rfl
  | cons a rest ih =>
    show (run (step c a) rest).fans = c.fans
    rw [ih, step_fans]

theorem run_append_singleton (c : Controller) (acts : List Action) (a : Action) :
    run c (acts ++ [a]) = step (run c acts) a := by
  simp [run, List.foldl_append]

/-- The map `pending` after one entry: unchanged, or without the fan, or with the entry
stored for the fan, which happens only when the entry differs from the active PWM. -/
theorem evalFan_pending_cases (fans : List (Openfan.Fan × Fan))
    (active : List (Openfan.Fan × Evaluation)) (st : EvalState) (fid : Openfan.Fan)
    (eval : Evaluation) :
    (evalFan fans active st (fid, eval)).pending = st.pending ∨
      (evalFan fans active st (fid, eval)).pending = mdelete st.pending fid ∨
      ((evalFan fans active st (fid, eval)).pending = mset st.pending fid eval ∧
        ∃ sa, mget active fid = some sa ∧ eval.PWM ≠ sa.PWM) := by
  cases hact : mget active fid with
  | none =>
    left
    simp [evalFan, hact, applyEval]
  | some sa =>
    by_cases heq : eval.PWM = sa.PWM
    · right; left
      simp [evalFan, hact, heq]
    · by_cases hd :
          (if eval.PWM - sa.PWM < 0 then fanSetDown fans fid else fanSetUp fans fid) > 0
      · cases hpen : mget st.pending fid with
        | none =>
          right; right
          exact ⟨by simp only [evalFan, hact, heq, hd, hpen, if_true, if_false], sa, rfl, heq⟩
        | some sp =>
          by_cases hw : eval.EvaluedAt - sp.EvaluedAt <
              (if eval.PWM - sa.PWM < 0 then fanSetDown fans fid else fanSetUp fans fid)
          · left
            simp only [evalFan, hact, heq, hd, hpen, hw, if_true, if_false]
          · right; left
            simp only [evalFan, hact, heq, hd, hpen, hw, applyEval, if_true, if_false]
      · left
        simp only [evalFan, hact, heq, hd, applyEval, if_true, if_false]

/-- Every pending record is an entry handled earlier for that fan, which differed from the
fan's active PWM when it was handled. -/
theorem pending_history (c0 : Controller) (h0 : c0.pending = []) (pre : List Action) :
    ∀ f sp, mget (run c0 pre).pending f = some sp →
      ∃ pre1 pre2 sa, pre = pre1 ++ Action.entry f sp :: pre2 ∧
        mget (run c0 pre1).active f = some sa ∧ sp.PWM ≠ sa.PWM := by
  induction pre using List.reverseRecOn with
  | nil =>
    intro f sp h
    simp [run, h0, mget] at h
  | append_singleton pre a ih =>
    intro f sp h
    rw [run_append_singleton] at h
    have keep : mget (run c0 pre).pending f = some sp →
        ∃ pre1 pre2 sa, pre ++ [a] = pre1 ++ Action.entry f sp :: pre2 ∧
          mget (run c0 pre1).active f = some sa ∧ sp.PWM ≠ sa.PWM := by
      intro h'
      obtain ⟨pre1, pre2, sa, hp, ha, hne⟩ := ih f sp h'
      exact ⟨pre1, pre2 ++ [a], sa, by simp [hp], ha, hne⟩
    cases a with
    | event e =>
      have : (step (run c0 pre) (Action.event e)).pending = (run c0 pre).pending :=
        eventLoopStep_pending _ e
      rw [this] at h
      exact keep h
    | entry fid eval =>
      have hstep : (step (run c0 pre) (Action.entry fid eval)).pending =
          (evalFan (run c0 pre).fans (run c0 pre).active
            { pending := (run c0 pre).pending, toRefresh := false, sent := [], calls := [] }
            (fid, eval)).pending := rfl
      rw [hstep] at h
      rcases evalFan_pending_cases (run c0 pre).fans (run c0 pre).active
          { pending := (run c0 pre).pending, toRefresh := false, sent := [], calls := [] }
          fid eval with hc | hc | ⟨hc, sa, hsa, hne⟩
      · rw [hc] at h
        exact keep h
      · rw [hc, mget_mdelete] at h
        by_cases hf : fid = f
        · simp [hf] at h
        · simp only [hf, if_false] at h
          exact keep h
      · rw [hc, mget_mset] at h
        by_cases hf : fid = f
        · subst hf
          simp only [if_true, Option.some.injEq] at h
          subst h
          exact ⟨pre, [], sa, rfl, hsa, hne⟩
        · simp only [hf, if_false] at h
          exact keep h

/-- C10: for a fan that has an active entry, an evaluation whose PWM equals the active PWM
only removes the fan's pending record: no event is sent, `SetPWM` is not called, the flag
`toRefresh` keeps its value (a batch made of this entry alone sends no refresh descriptor),
and the pending records of the other fans stay. -/
theorem evalFan_equal_pwm (c : Controller) (st : EvalState) (fid : Openfan.Fan)
    (eval sa : Evaluation) (hact : mget c.active fid = some sa) (heq : eval.PWM = sa.PWM) :
    evalFan c.fans c.active st (fid, eval) = { st with pending := mdelete st.pending fid } ∧
      mget (evalFan c.fans c.active st (fid, eval)).pending fid = none ∧
      (∀ f, f ≠ fid → mget (evalFan c.fans c.active st (fid, eval)).pending f =
        mget st.pending f) ∧
      (evalFan c.fans c.active st (fid, eval)).sent = st.sent ∧
      (evalFan c.fans c.active st (fid, eval)).calls = st.calls ∧
      (evalFan c.fans c.active st (fid, eval)).toRefresh = st.toRefresh ∧
      (evalBatch c [(fid, eval)]).1.sent = [] ∧
      (evalBatch c [(fid, eval)]).1.calls = [] ∧
      (evalBatch c [(fid, eval)]).2 = none := by
  have h : ∀ st : EvalState,
      evalFan c.fans c.active st (fid, eval) = { st with pending := mdelete st.pending fid } := by
    intro st
    simp [evalFan, hact, heq]
  refine ⟨h st, ?_, ?_, ?_, ?_, ?_, ?_, ?_, ?_⟩
  · rw [h st]
    simp [mget_mdelete]
  · intro f hf
    rw [h st]
    have hf' : ¬ fid = f := fun e => hf e.symm
    simp [mget_mdelete, hf']
  · rw [h st]
  · rw [h st]
  · rw [h st]
  · simp [evalBatch, h]
  · simp [evalBatch, h]
  · simp [evalBatch, h]

/-- C9: in any run of the control loop from the state `New` leaves, if the fan has ramp-up
duration `D > 0` and handling an entry calls `SetPWM` with a PWM above the fan's active PWM,
then an entry for that fan was handled earlier which differed from the active PWM of that
moment and whose timestamp is at least `D` before that of the entry now applied. -/
theorem rampup_needs_elapsed_delay (cfg : Config) (pre : List Action) (fid : Openfan.Fan)
    (eval sa : Evaluation)
    (hD : 0 < fanSetUp (New cfg).fans fid)
    (hact : mget (run (New cfg) pre).active fid = some sa)
    (hup : sa.PWM < eval.PWM)
    (hcmd : (fid, eval.PWM) ∈ callsOf (run (New cfg) pre) fid eval) :
    ∃ pre1 pre2 e' sa', pre = pre1 ++ Action.entry fid e' :: pre2 ∧
      mget (run (New cfg) pre1).active fid = some sa' ∧ e'.PWM ≠ sa'.PWM ∧
      fanSetUp (New cfg).fans fid ≤ eval.EvaluedAt - e'.EvaluedAt := by
  have hne : ¬ eval.PWM = sa.PWM := by omega
  have hdiff : ¬ eval.PWM - sa.PWM < 0 := by omega
  have hD' : fanSetUp (run (New cfg) pre).fans fid > 0 := by
    rw [run_fans]
    exact hD
  unfold callsOf evalFan at hcmd
  simp only [hact, hne, if_false, hdiff, hD', if_true] at hcmd
  cases hpen : mget (run (New cfg) pre).pending fid with
  | none =>
    rw [hpen] at hcmd
    simp at hcmd
  | some sp =>
    rw [hpen] at hcmd
    simp only at hcmd
    by_cases hwait : eval.EvaluedAt - sp.EvaluedAt < fanSetUp (run (New cfg) pre).fans fid
    · simp [hwait] at hcmd
    · obtain ⟨pre1, pre2, sa', hp, ha, hne'⟩ := pending_history (New cfg) rfl pre fid sp hpen
      rw [run_fans] at hwait
      exact ⟨pre1, pre2, sp, sa', hp, ha, hne', by omega⟩

/-- C10 on a state where fan 0 is active at PWM 50 with a pending record: an entry of PWM 50
drops that record and nothing else happens. -/
theorem evalFan_equal_pwm_witness :
    (evalBatch exController [(0, exEval 50 3000)]).1.pending = [(1, exEval 70 1000)] ∧
      (evalBatch exController [(0, exEval 50 3000)]).1.calls = [] ∧
      (evalBatch exController [(0, exEval 50 3000)]).2 = none :=
  have h := evalFan_equal_pwm exController
    { pending := exController.pending, toRefresh := false, sent := [], calls := [] }
    0 (exEval 50 3000) (exEval 50 0) rfl rfl
  ⟨by
      have h1 := h.1
      simp only [evalBatch, List.foldl, h1]
      decide,
    h.2.2.2.2.2.2.2.1, h.2.2.2.2.2.2.2.2⟩

/-- C9 on a run where fan 0 (ramp-up 2000 ns) is active at 50, saw 60 at time 1000 and is
applied 70 at time 3000. -/
theorem rampup_needs_elapsed_delay_witness :
    (0, (70 : Int)) ∈ callsOf (run (New exRampCfg) exRampTrace) 0 (exEval 70 3000) ∧
      ∃ pre1 pre2 e' sa', exRampTrace = pre1 ++ Action.entry 0 e' :: pre2 ∧
        mget (run (New exRampCfg) pre1).active 0 = some sa' ∧ e'.PWM ≠ sa'.PWM ∧
        fanSetUp (New exRampCfg).fans 0 ≤ (exEval 70 3000).EvaluedAt - e'.EvaluedAt :=
  ⟨by decide,
    rampup_needs_elapsed_delay exRampCfg exRampTrace 0 (exEval 70 3000) (exEval 50 0)
      (by decide) (by decide) (by decide) (by decide)⟩

/-! ## Curve shaper: the result of `Eval` -/

theorem foldlM_ok_invariant {σ α ε : Type} (f : σ → α → Except ε σ) (P : σ → Prop)
    (hf : ∀ s a s', P s → f s a = .ok s' → P s') :
    ∀ (l : List α) (s s' : σ), P s → l.foldlM f s = .ok s' → P s' := by
  intro l
  induction l with
  | nil =>
    intro s s' hP h
    simp only [List.foldlM, pure, Except.pure, Except.ok.injEq] at h
    exact h ▸ hP
  | cons a rest ih =>
    intro s s' hP h
    rw [List.foldlM_cons] at h
    cases hfa : f s a with
    | error e =>
      rw [hfa] at h
      simp [bind, Except.bind] at h
    | ok s1 =>
      rw [hfa] at h
      simp only [bind, Except.bind] at h
      exact ih s1 s' (hf s a s1 hP hfa) h

/-- The inner loop of `Eval` over the evaluators of one sensor, seen from one fan. -/
theorem mget_foldl_maxPWM (G : Openfan.Fan → (ℚ → Int) → Evaluation) :
    ∀ (m : List (Openfan.Fan × (ℚ → Int))) (pwms : List (Openfan.Fan × Evaluation))
      (fid : Openfan.Fan), (m.map Prod.fst).Nodup →
      mget (m.foldl (fun pwms fe =>
          mset pwms fe.1 (maxPWM ((mget pwms fe.1).getD Evaluation.zero) (G fe.1 fe.2))) pwms) fid =
        match mget m fid with
        | some ev => some (maxPWM ((mget pwms fid).getD Evaluation.zero) (G fid ev))
        | none => mget pwms fid := by
  intro m
  induction m with
  | nil =>
    intro pwms fid _
    simp [mget]
  | cons e rest ih =>
    intro pwms fid hn
    obtain ⟨k0, ev0⟩ := e
    simp only [List.map_cons, List.nodup_cons] at hn
    simp only [List.foldl_cons]
    rw [ih _ fid hn.2]
    by_cases h0 : k0 = fid
    · subst h0
      have hnone : mget rest k0 = none := mget_eq_none_of_not_mem hn.1
      simp [mget, hnone, mget_mset]
    · simp [mget, h0, mget_mset]

/-- The entry of a fan in the result of `Eval`: the readings are folded with `evalOne`. -/
theorem mget_Eval (s : CurveShaper) (hwf : ∀ e ∈ s.index, (e.2.map Prod.fst).Nodup)
    (now : Int) (temps : List Sensor.Temperature) (fid : Openfan.Fan) :
    mget (s.Eval now temps) fid = temps.foldl (evalOne s now fid) none := by
  have key : ∀ (temps : List Sensor.Temperature) (pwms : List (Openfan.Fan × Evaluation)),
      mget (temps.foldl (fun pwms t =>
        ((mget s.index t.ID).getD []).foldl (fun pwms fe =>
          mset pwms fe.1 (maxPWM ((mget pwms fe.1).getD Evaluation.zero)
            { ID := fe.1
              EvaluedAt := now
              Label := (mget s.labels fe.1).getD ""
              PWM := fe.2 t.Temperature
              RPM := 0
              TemperatureID := t.ID
              TemperatureName := t.Name
              Temperature := t.Temperature })) pwms) pwms) fid =
      temps.foldl (evalOne s now fid) (mget pwms fid) := by
    intro temps
    induction temps with
    | nil => intro pwms; rfl
    | cons t rest ih =>
      intro pwms
      simp only [List.foldl_cons]
      rw [ih]
      congr 1
      have hn : (((mget s.index t.ID).getD []).map Prod.fst).Nodup := by
        cases hm : mget s.index t.ID with
        | none => simp
        | some m => exact hwf _ (mem_of_mget hm)
      have := mget_foldl_maxPWM (fun fid ev =>
          { ID := fid
            EvaluedAt := now
            Label := (mget s.labels fid).getD ""
            PWM := ev t.Temperature
            RPM := 0
            TemperatureID := t.ID
            TemperatureName := t.Name
            Temperature := t.Temperature }) ((mget s.index t.ID).getD []) pwms fid hn
      rw [this]
      unfold evalOne CurveShaper.evaluator
      cases hm : mget s.index t.ID with
      | none => simp [mget]
      | some m =>
        simp only [Option.getD_some, Option.some_bind]
  exact key temps []

/-! ## Curve shaper: what the loops of `NewCurveShaper` build -/

theorem slot_mappend {κ α : Type} [DecidableEq κ] (m : List (κ × List α)) (k k' : κ) (x : α) :
    (mget (mappend m k x) k').getD [] =
      (mget m k').getD [] ++ (if k = k' then [x] else []) := by
  unfold mappend
  rw [mget_mset]
  by_cases h : k = k'
  · subst h
    simp
  · simp [h]

theorem nodup_mkeys_mappend {κ α : Type} [DecidableEq κ] {m : List (κ × List α)} (k : κ) (x : α)
    (h : (m.map Prod.fst).Nodup) : ((mappend m k x).map Prod.fst).Nodup :=
  nodup_mkeys_mset k _ h

theorem nonempty_mappend {κ α : Type} [DecidableEq κ] {m : List (κ × List α)} (k : κ) (x : α)
    (h : ∀ e ∈ m, e.2 ≠ []) : ∀ e ∈ mappend m k x, e.2 ≠ [] := by
  intro e he
  rcases mem_mset he with he | he
  · exact h e he
  · rw [he]
    simp

/-- A slot of a map that every step of a loop extends by a list depending on the element
only is extended, by the whole loop, by the concatenation of these lists. -/
theorem foldlM_slot {σ β π ε : Type} (f : σ → β → Except ε σ) (slot : σ → List π)
    (c : β → List π) (hf : ∀ m b m', f m b = .ok m' → slot m' = slot m ++ c b) :
    ∀ (l : List β) (m m' : σ), l.foldlM f m = .ok m' → slot m' = slot m ++ l.flatMap c := by
  intro l
  induction l with
  | nil =>
    intro m m' h
    simp only [List.foldlM, pure, Except.pure, Except.ok.injEq] at h
    simp [h]
  | cons b rest ih =>
    intro m m' h
    rw [List.foldlM_cons] at h
    cases hfb : f m b with
    | error e =>
      rw [hfb] at h
      simp [bind, Except.bind] at h
    | ok m1 =>
      rw [hfb] at h
      simp only [bind, Except.bind] at h
      rw [ih m1 m' h, hf m b m1 hfb]
      simp

theorem addThreshold_slot (temps : List Sensor.Temperature) (tid : Sensor.TemperatureID)
    (i : Nat) (pwm : Int) (m : List (Sensor.TemperatureID × List point)) (th : String × Int)
    (m' : List (Sensor.TemperatureID × List point)) (h : addThreshold temps i pwm m th = .ok m') :
    (mget m' tid).getD [] = (mget m tid).getD [] ++ thresholdPoints temps tid i pwm th := by
  unfold addThreshold at h
  unfold thresholdPoints
  cases hf : findID temps th.1 with
  | error e =>
    rw [hf] at h
    simp at h
  | ok tid' =>
    rw [hf] at h
    simp only [Except.ok.injEq] at h
    subst h
    by_cases hi : i = 0
    · by_cases ht : tid' = tid
      · simp [hi, ht, slot_mappend]
      · simp [hi, ht, slot_mappend]
    · by_cases ht : tid' = tid
      · simp [hi, ht, slot_mappend]
      · simp [hi, ht, slot_mappend]

theorem addCurvePoint_slot (temps : List Sensor.Temperature) (tid : Sensor.TemperatureID)
    (m : List (Sensor.TemperatureID × List point)) (ip : Nat × CurvePoint)
    (m' : List (Sensor.TemperatureID × List point)) (h : addCurvePoint temps m ip = .ok m') :
    (mget m' tid).getD [] = (mget m tid).getD [] ++ curvePointPoints temps tid ip := by
  unfold addCurvePoint at h
  unfold curvePointPoints
  refine foldlM_slot _ (fun m => (mget m tid).getD [])
    (fun e => e.2.flatMap (thresholdPoints temps tid ip.1 e.1)) ?_ ip.2 m m' h
  intro m1 e m2 h2
  exact foldlM_slot _ (fun m => (mget m tid).getD []) (thresholdPoints temps tid ip.1 e.1)
    (fun a b c hc => addThreshold_slot temps tid ip.1 e.1 a b c hc) e.2 m1 m2 h2

/-- The slice `indexp[tid]` after the first loop holds the anchor points of the sensor. -/
theorem buildPoints_slot (temps : List Sensor.Temperature) (cps : List CurvePoint)
    (tid : Sensor.TemperatureID) (indexp : List (Sensor.TemperatureID × List point))
    (h : buildPoints temps cps = .ok indexp) :
    (mget indexp tid).getD [] = sensorPoints temps cps tid := by
  unfold buildPoints at h
  have := foldlM_slot _ (fun m => (mget m tid).getD []) (curvePointPoints temps tid)
    (fun a b c hc => addCurvePoint_slot temps tid a b c hc) cps.enum [] indexp h
  simpa [sensorPoints, mget] using this

theorem addThreshold_nodup (temps : List Sensor.Temperature) (i : Nat) (pwm : Int)
    (m : List (Sensor.TemperatureID × List point)) (th : String × Int)
    (m' : List (Sensor.TemperatureID × List point)) (hm : (m.map Prod.fst).Nodup)
    (h : addThreshold temps i pwm m th = .ok m') : (m'.map Prod.fst).Nodup := by
  unfold addThreshold at h
  cases hf : findID temps th.1 with
  | error e =>
    rw [hf] at h
    simp at h
  | ok tid' =>
    rw [hf] at h
    simp only [Except.ok.injEq] at h
    subst h
    apply nodup_mkeys_mappend
    split
    · exact nodup_mkeys_mappend _ _ hm
    · exact hm

theorem buildPoints_nodup (temps : List Sensor.Temperature) (cps : List CurvePoint)
    (indexp : List (Sensor.TemperatureID × List point))
    (h : buildPoints temps cps = .ok indexp) : (indexp.map Prod.fst).Nodup := by
  unfold buildPoints at h
  refine foldlM_ok_invariant _ (fun m => (m.map Prod.fst).Nodup) ?_ cps.enum [] indexp
    (by simp) h
  intro m ip m' hm h1
  unfold addCurvePoint at h1
  refine foldlM_ok_invariant _ (fun m => (m.map Prod.fst).Nodup) ?_ ip.2 m m' hm h1
  intro m1 e m2 hm1 h2
  exact foldlM_ok_invariant _ (fun m => (m.map Prod.fst).Nodup)
    (fun a b c ha hc => addThreshold_nodup temps ip.1 e.1 a b c ha hc) e.2 m1 m2 hm1 h2

theorem closePoints_nil : closePoints [] = [] := rfl

theorem mget_closeCurves (m : List (Sensor.TemperatureID × List point))
    (tid : Sensor.TemperatureID) :
    mget (closeCurves m) tid = (mget m tid).map closePoints := by
  induction m with
  | nil => rfl
  | cons e rest ih =>
    obtain ⟨k0, v0⟩ := e
    by_cases h : k0 = tid
    · simp [closeCurves, mget, h]
    · have ih' : mget (List.map (fun e => (e.1, closePoints e.2)) rest) tid =
          (mget rest tid).map closePoints := ih
      simp [closeCurves, mget, h, ih']

theorem slot_closeCurves (m : List (Sensor.TemperatureID × List point))
    (tid : Sensor.TemperatureID) :
    (mget (closeCurves m) tid).getD [] = closePoints ((mget m tid).getD []) := by
  rw [mget_closeCurves]
  cases mget m tid <;> simp [closePoints_nil]

theorem mkeys_closeCurves (m : List (Sensor.TemperatureID × List point)) :
    (closeCurves m).map Prod.fst = m.map Prod.fst := by
  simp [closeCurves, List.map_map, Function.comp_def]

theorem foldl_invariant {σ α : Type} (f : σ → α → σ) (P : σ → Prop)
    (hf : ∀ s a, P s → P (f s a)) : ∀ (l : List α) (s : σ), P s → P (l.foldl f s) := by
  intro l
  induction l with
  | nil => intro s h; exact h
  | cons a rest ih => intro s h; exact ih (f s a) (hf s a h)

theorem foldl_slot {σ β π : Type} (f : σ → β → σ) (slot : σ → List π) (c : β → List π)
    (hf : ∀ m b, slot (f m b) = slot m ++ c b) :
    ∀ (l : List β) (m : σ), slot (l.foldl f m) = slot m ++ l.flatMap c := by
  intro l
  induction l with
  | nil => intro m; simp
  | cons b rest ih =>
    intro m
    simp only [List.foldl_cons]
    rw [ih, hf]
    simp

theorem flatMap_key {π γ : Type} (tid : Sensor.TemperatureID) (g : List π → List γ)
    (hg : g [] = []) : ∀ (m : List (Sensor.TemperatureID × List π)), (m.map Prod.fst).Nodup →
      m.flatMap (fun e => if e.1 = tid then g e.2 else []) = g ((mget m tid).getD []) := by
  intro m
  induction m with
  | nil => intro _; simp [mget, hg]
  | cons e rest ih =>
    intro hn
    obtain ⟨k0, v0⟩ := e
    simp only [List.map_cons, List.nodup_cons] at hn
    by_cases h : k0 = tid
    · subst h
      have hnone : mget rest k0 = none := mget_eq_none_of_not_mem hn.1
      have := ih hn.2
      rw [hnone] at this
      simp [mget, this, hg]
    · simp [mget, h, ih hn.2]

theorem buildSegments_step_slot (tid : Sensor.TemperatureID)
    (indexs : List (Sensor.TemperatureID × List segment)) (e : Sensor.TemperatureID × List point) :
    (mget ((e.2.zip e.2.tail).foldl
        (fun indexs pp => mappend indexs e.1 (mkSegment pp.1 pp.2)) indexs) tid).getD [] =
      (mget indexs tid).getD [] ++ (if e.1 = tid then segmentsOf e.2 else []) := by
  have := foldl_slot (fun indexs (pp : point × point) => mappend indexs e.1 (mkSegment pp.1 pp.2))
    (fun m => (mget m tid).getD [])
    (fun pp => if e.1 = tid then [mkSegment pp.1 pp.2] else [])
    (fun m b => slot_mappend m e.1 tid _) (e.2.zip e.2.tail) indexs
  rw [this]
  have hsing : ∀ l : List (point × point),
      (l.flatMap fun pp => [mkSegment pp.1 pp.2]) = l.map (fun pp => mkSegment pp.1 pp.2) := by
    intro l
    induction l with
    | nil => rfl
    | cons a rest ih => simp [List.flatMap_cons, ih]
  by_cases h : e.1 = tid
  · simp only [h, if_true, segmentsOf, hsing]
  · simp [h]

/-- The slice `indexs[tid]` after the third loop holds the segments between the
consecutive points of `indexp[tid]`. -/
theorem buildSegments_slot (m : List (Sensor.TemperatureID × List point))
    (hn : (m.map Prod.fst).Nodup) (tid : Sensor.TemperatureID) :
    (mget (buildSegments m) tid).getD [] = segmentsOf ((mget m tid).getD []) := by
  unfold buildSegments
  have := foldl_slot (fun indexs (e : Sensor.TemperatureID × List point) =>
      (e.2.zip e.2.tail).foldl (fun indexs pp => mappend indexs e.1 (mkSegment pp.1 pp.2)) indexs)
    (fun m => (mget m tid).getD [])
    (fun e => if e.1 = tid then segmentsOf e.2 else [])
    (fun m b => buildSegments_step_slot tid m b) m []
  rw [this, flatMap_key tid segmentsOf rfl m hn]
  simp [mget]

theorem buildSegments_nodup (m : List (Sensor.TemperatureID × List point)) :
    ((buildSegments m).map Prod.fst).Nodup := by
  unfold buildSegments
  refine foldl_invariant _
    (fun (indexs : List (Sensor.TemperatureID × List segment)) => (indexs.map Prod.fst).Nodup)
    ?_ m [] (by simp)
  intro indexs e h
  exact foldl_invariant _
    (fun (indexs : List (Sensor.TemperatureID × List segment)) => (indexs.map Prod.fst).Nodup)
    (fun a b ha => nodup_mkeys_mappend _ _ ha) _ indexs h

theorem buildSegments_nonempty (m : List (Sensor.TemperatureID × List point)) :
    ∀ e ∈ buildSegments m, e.2 ≠ [] := by
  unfold buildSegments
  refine foldl_invariant _
    (fun (indexs : List (Sensor.TemperatureID × List segment)) => ∀ e ∈ indexs, e.2 ≠ [])
    ?_ m [] (by simp)
  intro indexs e h
  exact foldl_invariant _
    (fun (indexs : List (Sensor.TemperatureID × List segment)) => ∀ e ∈ indexs, e.2 ≠ [])
    (fun a b ha => nonempty_mappend _ _ ha) _ indexs h

/-- The entry `indexs[tid]` after the third loop: present exactly when the sensor has at
least one segment. -/
theorem mget_buildSegments (m : List (Sensor.TemperatureID × List point))
    (hn : (m.map Prod.fst).Nodup) (tid : Sensor.TemperatureID) :
    (segmentsOf ((mget m tid).getD []) = [] ∧ mget (buildSegments m) tid = none) ∨
      (segmentsOf ((mget m tid).getD []) ≠ [] ∧
        mget (buildSegments m) tid = some (segmentsOf ((mget m tid).getD []))) := by
  have hslot := buildSegments_slot m hn tid
  cases hg : mget (buildSegments m) tid with
  | none =>
    rw [hg] at hslot
    exact Or.inl ⟨hslot.symm, rfl⟩
  | some segs =>
    rw [hg] at hslot
    simp only [Option.getD_some] at hslot
    have hne : segs ≠ [] := buildSegments_nonempty m _ (mem_of_mget hg)
    exact Or.inr ⟨hslot ▸ hne, by rw [hslot]⟩

theorem evaluator_setIndex_step (index : List (Sensor.TemperatureID × List (Openfan.Fan × (ℚ → Int))))
    (fid : Openfan.Fan) (k : Sensor.TemperatureID) (E : ℚ → Int) (tid : Sensor.TemperatureID)
    (fid' : Openfan.Fan) :
    (mget (mset index k (mset ((mget index k).getD []) fid E)) tid).bind (fun m => mget m fid') =
      if k = tid ∧ fid = fid' then some E else (mget index tid).bind (fun m => mget m fid') := by
  rw [mget_mset]
  by_cases hk : k = tid
  · subst hk
    simp only [if_true, Option.some_bind, mget_mset, true_and]
    by_cases hf : fid = fid'
    · simp [hf]
    · simp only [hf, if_false]
      cases mget index k <;> simp [mget]
  · simp [hk]

/-- The evaluator of another fan is untouched by the fourth loop. -/
theorem evaluator_setIndex_ne (fid fid' : Openfan.Fan) (hne : fid ≠ fid')
    (tid : Sensor.TemperatureID) :
    ∀ (indexs : List (Sensor.TemperatureID × List segment))
      (index : List (Sensor.TemperatureID × List (Openfan.Fan × (ℚ → Int)))),
      (mget (setIndex index fid indexs) tid).bind (fun m => mget m fid') =
        (mget index tid).bind (fun m => mget m fid') := by
  intro indexs
  induction indexs with
  | nil => intro index; rfl
  | cons e rest ih =>
    intro index
    show (mget (setIndex _ fid rest) tid).bind _ = _
    rw [ih, evaluator_setIndex_step]
    simp [hne]

/-- The evaluator of the fan after the fourth loop: that of the segments of the sensor
when `indexs` has an entry for it, the former one otherwise. -/
theorem evaluator_setIndex_self (fid : Openfan.Fan) (tid : Sensor.TemperatureID) :
    ∀ (indexs : List (Sensor.TemperatureID × List segment))
      (index : List (Sensor.TemperatureID × List (Openfan.Fan × (ℚ → Int)))),
      (indexs.map Prod.fst).Nodup →
      (mget (setIndex index fid indexs) tid).bind (fun m => mget m fid) =
        match mget indexs tid with
        | some segs => some (evalSegments segs)
        | none => (mget index tid).bind (fun m => mget m fid) := by
  intro indexs
  induction indexs with
  | nil => intro index _; rfl
  | cons e rest ih =>
    intro index hn
    obtain ⟨k0, segs0⟩ := e
    simp only [List.map_cons, List.nodup_cons] at hn
    show (mget (setIndex _ fid rest) tid).bind _ = _
    rw [ih _ hn.2, evaluator_setIndex_step]
    by_cases h : k0 = tid
    · subst h
      rw [mget_eq_none_of_not_mem hn.1]
      simp [mget]
    · simp [mget, h]

theorem setIndex_wf (fid : Openfan.Fan) :
    ∀ (indexs : List (Sensor.TemperatureID × List segment))
      (index : List (Sensor.TemperatureID × List (Openfan.Fan × (ℚ → Int)))),
      (∀ e ∈ index, (e.2.map Prod.fst).Nodup) →
      ∀ e ∈ setIndex index fid indexs, (e.2.map Prod.fst).Nodup := by
  intro indexs index h
  unfold setIndex
  refine foldl_invariant _ (fun index => ∀ e ∈ index, (e.2.map Prod.fst).Nodup) ?_ indexs index h
  intro index e hidx e' he'
  rcases mem_mset he' with he' | he'
  · exact hidx e' he'
  · rw [he']
    apply nodup_mkeys_mset
    cases hm : mget index e.1 with
    | none => simp
    | some inner => exact hidx _ (mem_of_mget hm)

/-- What one iteration of the loop over the fans does to the evaluators: those of the other
fans stay, and the fan gets, for every sensor with at least one segment, the evaluator of
these segments. -/
theorem addFan_evaluator (temps : List Sensor.Temperature) (s : CurveShaper) (fan : Fan)
    (s' : CurveShaper) (h : addFan temps s fan = .ok s') (tid : Sensor.TemperatureID) :
    (∀ fid', fan.ID ≠ fid' → s'.evaluator tid fid' = s.evaluator tid fid') ∧
      ((sensorSegments temps fan.CurvePoints tid = [] ∧
          s'.evaluator tid fan.ID = s.evaluator tid fan.ID) ∨
        (sensorSegments temps fan.CurvePoints tid ≠ [] ∧
          s'.evaluator tid fan.ID =
            some (evalSegments (sensorSegments temps fan.CurvePoints tid)))) := by
  unfold addFan at h
  cases hb : buildPoints temps fan.CurvePoints with
  | error e =>
    rw [hb] at h
    simp at h
  | ok indexp =>
    rw [hb] at h
    simp only [Except.ok.injEq] at h
    subst h
    have hn : ((closeCurves indexp).map Prod.fst).Nodup := by
      rw [mkeys_closeCurves]
      exact buildPoints_nodup temps _ indexp hb
    have hslot : (mget (closeCurves indexp) tid).getD [] =
        closePoints (sensorPoints temps fan.CurvePoints tid) := by
      rw [slot_closeCurves, buildPoints_slot temps _ tid indexp hb]
    constructor
    · intro fid' hne
      exact evaluator_setIndex_ne fan.ID fid' hne tid _ _
    · have hself := evaluator_setIndex_self fan.ID tid (buildSegments (closeCurves indexp))
        s.index (buildSegments_nodup _)
      unfold CurveShaper.evaluator sensorSegments
      simp only
      rw [hself, ← hslot]
      rcases mget_buildSegments (closeCurves indexp) hn tid with ⟨h1, h2⟩ | ⟨h1, h2⟩
      · exact Or.inl ⟨h1, by rw [h2]⟩
      · exact Or.inr ⟨h1, by rw [h2]⟩

theorem addFan_wf (temps : List Sensor.Temperature) (s : CurveShaper) (fan : Fan)
    (s' : CurveShaper) (hs : ∀ e ∈ s.index, (e.2.map Prod.fst).Nodup)
    (h : addFan temps s fan = .ok s') : ∀ e ∈ s'.index, (e.2.map Prod.fst).Nodup := by
  unfold addFan at h
  cases hb : buildPoints temps fan.CurvePoints with
  | error e =>
    rw [hb] at h
    simp at h
  | ok indexp =>
    rw [hb] at h
    simp only [Except.ok.injEq] at h
    subst h
    exact setIndex_wf fan.ID _ s.index hs

/-- In the index of a shaper `NewCurveShaper` returns, no inner map holds a fan twice. -/
theorem NewCurveShaper_wf (cfg : Config) (temps : List Sensor.Temperature) (s : CurveShaper)
    (h : NewCurveShaper cfg temps = .ok s) : ∀ e ∈ s.index, (e.2.map Prod.fst).Nodup := by
  unfold NewCurveShaper at h
  refine foldlM_ok_invariant _ (fun s : CurveShaper => ∀ e ∈ s.index, (e.2.map Prod.fst).Nodup)
    ?_ cfg.FanSettings _ s (by simp) h
  intro s1 nf s2 h1 h2
  exact addFan_wf temps s1 nf.2 s2 h1 h2

theorem foldlM_addFan_origin (temps : List Sensor.Temperature) (tid : Sensor.TemperatureID)
    (fid : Openfan.Fan) (ev : ℚ → Int) :
    ∀ (l : List (String × Fan)) (s0 s : CurveShaper),
      l.foldlM (fun s nf => addFan temps s nf.2) s0 = .ok s →
      s.evaluator tid fid = some ev →
      s0.evaluator tid fid = some ev ∨
        ∃ nf ∈ l, nf.2.ID = fid ∧ sensorSegments temps nf.2.CurvePoints tid ≠ [] ∧
          ev = evalSegments (sensorSegments temps nf.2.CurvePoints tid) := by
  intro l
  induction l with
  | nil =>
    intro s0 s h hev
    simp only [List.foldlM, pure, Except.pure, Except.ok.injEq] at h
    exact Or.inl (h ▸ hev)
  | cons nf rest ih =>
    intro s0 s h hev
    rw [List.foldlM_cons] at h
    cases ha : addFan temps s0 nf.2 with
    | error e =>
      rw [ha] at h
      simp [bind, Except.bind] at h
    | ok s1 =>
      rw [ha] at h
      simp only [bind, Except.bind] at h
      rcases ih s1 s h hev with h1 | ⟨nf', hmem, hid, hne, hE⟩
      · obtain ⟨hother, hself⟩ := addFan_evaluator temps s0 nf.2 s1 ha tid
        by_cases hf : nf.2.ID = fid
        · subst hf
          rcases hself with ⟨_, h2⟩ | ⟨hne, h2⟩
          · exact Or.inl (h2 ▸ h1)
          · rw [h2] at h1
            simp only [Option.some.injEq] at h1
            exact Or.inr ⟨nf, List.mem_cons_self _ _, rfl, hne, h1.symm⟩
        · exact Or.inl (hother fid hf ▸ h1)
      · exact Or.inr ⟨nf', List.mem_cons_of_mem _ hmem, hid, hne, hE⟩

/-- Every evaluator in the index of a shaper `NewCurveShaper` returns is the evaluator of
the segments of that sensor for some configured fan of that id. -/
theorem NewCurveShaper_evaluator_origin (cfg : Config) (temps : List Sensor.Temperature)
    (s : CurveShaper) (h : NewCurveShaper cfg temps = .ok s) (tid : Sensor.TemperatureID)
    (fid : Openfan.Fan) (ev : ℚ → Int) (hev : s.evaluator tid fid = some ev) :
    ∃ nf ∈ cfg.FanSettings, nf.2.ID = fid ∧
      sensorSegments temps nf.2.CurvePoints tid ≠ [] ∧
      ev = evalSegments (sensorSegments temps nf.2.CurvePoints tid) := by
  rcases foldlM_addFan_origin temps tid fid ev cfg.FanSettings _ s h hev with h0 | h1
  · simp [CurveShaper.evaluator, mget] at h0
  · exact h1

theorem foldlM_addFan_of_fan (temps : List Sensor.Temperature) (tid : Sensor.TemperatureID)
    (fid : Openfan.Fan) (cps : List CurvePoint) (hne : sensorSegments temps cps tid ≠ []) :
    ∀ (l : List (String × Fan)) (s0 s : CurveShaper),
      l.foldlM (fun s nf => addFan temps s nf.2) s0 = .ok s →
      (∀ nf ∈ l, nf.2.ID = fid → nf.2.CurvePoints = cps) →
      ((∃ nf ∈ l, nf.2.ID = fid) ∧
          s.evaluator tid fid = some (evalSegments (sensorSegments temps cps tid))) ∨
        ((∀ nf ∈ l, nf.2.ID ≠ fid) ∧ s.evaluator tid fid = s0.evaluator tid fid) := by
  intro l
  induction l with
  | nil =>
    intro s0 s h _
    simp only [List.foldlM, pure, Except.pure, Except.ok.injEq] at h
    exact Or.inr ⟨by simp, by rw [h]⟩
  | cons nf rest ih =>
    intro s0 s h hall
    rw [List.foldlM_cons] at h
    cases ha : addFan temps s0 nf.2 with
    | error e =>
      rw [ha] at h
      simp [bind, Except.bind] at h
    | ok s1 =>
      rw [ha] at h
      simp only [bind, Except.bind] at h
      have hall' : ∀ nf' ∈ rest, nf'.2.ID = fid → nf'.2.CurvePoints = cps :=
        fun nf' hm => hall nf' (List.mem_cons_of_mem _ hm)
      obtain ⟨hother, hself⟩ := addFan_evaluator temps s0 nf.2 s1 ha tid
      rcases ih s1 s h hall' with ⟨⟨nf', hm, hid⟩, hE⟩ | ⟨hnone, hE⟩
      · exact Or.inl ⟨⟨nf', List.mem_cons_of_mem _ hm, hid⟩, hE⟩
      · by_cases hf : nf.2.ID = fid
        · have hcps := hall nf (List.mem_cons_self _ _) hf
          subst hf
          rw [hcps] at hself
          rcases hself with ⟨h1, _⟩ | ⟨_, h2⟩
          · exact absurd h1 hne
          · exact Or.inl ⟨⟨nf, List.mem_cons_self _ _, rfl⟩, by rw [hE, h2]⟩
        · refine Or.inr ⟨?_, by rw [hE, hother fid hf]⟩
          intro nf' hm
          rcases List.mem_cons.mp hm with h1 | h1
          · rw [h1]; exact hf
          · exact hnone nf' h1

/-- For a configured fan whose id no fan of another curve shares, and a sensor with at least
one segment in its curve, the index holds the evaluator of these segments. -/
theorem NewCurveShaper_evaluator_of_fan (cfg : Config) (temps : List Sensor.Temperature)
    (s : CurveShaper) (h : NewCurveShaper cfg temps = .ok s) (nf : String × Fan)
    (hmem : nf ∈ cfg.FanSettings)
    (huniq : ∀ nf' ∈ cfg.FanSettings, nf'.2.ID = nf.2.ID → nf'.2.CurvePoints = nf.2.CurvePoints)
    (tid : Sensor.TemperatureID) (hne : sensorSegments temps nf.2.CurvePoints tid ≠ []) :
    s.evaluator tid nf.2.ID =
      some (evalSegments (sensorSegments temps nf.2.CurvePoints tid)) := by
  rcases foldlM_addFan_of_fan temps tid nf.2.ID nf.2.CurvePoints hne cfg.FanSettings _ s h huniq
    with ⟨_, hE⟩ | ⟨hnone, _⟩
  · exact hE
  · exact absurd rfl (hnone nf hmem)

/-! ## Truncation of a float to an int -/

/-- Truncation toward zero is the floor of a non-negative value and the ceiling of a
negative one. -/
theorem truncate_eq (x : ℚ) : truncate x = if 0 ≤ x then ⌊x⌋ else ⌈x⌉ := by
  unfold truncate
  by_cases h : 0 ≤ x
  · rw [if_pos h, Rat.floor_def]
    exact Int.tdiv_eq_ediv (Rat.num_nonneg.mpr h) (Int.natCast_nonneg _)
  · rw [if_neg h]
    have hneg : 0 ≤ -x := by linarith
    have h1 : (-x.num).tdiv (x.den : Int) = (-x.num) / (x.den : Int) := by
      apply Int.tdiv_eq_ediv _ (Int.natCast_nonneg _)
      have := Rat.num_nonneg.mpr hneg
      rwa [Rat.neg_num] at this
    have h2 : ⌊-x⌋ = (-x.num) / (x.den : Int) := by
      rw [Rat.floor_def, Rat.neg_num, Rat.neg_den]
    have h3 : x.num.tdiv (x.den : Int) = -((-x.num).tdiv (x.den : Int)) := by
      rw [Int.neg_tdiv, neg_neg]
    rw [h3, h1, ← h2, Int.floor_neg, neg_neg]

theorem truncate_intCast (n : Int) : truncate (n : ℚ) = n := by
  rw [truncate_eq]
  split <;> simp

theorem truncate_mono {x y : ℚ} (h : x ≤ y) : truncate x ≤ truncate y := by
  rw [truncate_eq, truncate_eq]
  by_cases hx : 0 ≤ x
  · have hy : 0 ≤ y := le_trans hx h
    rw [if_pos hx, if_pos hy]
    exact Int.floor_mono h
  · rw [if_neg hx]
    by_cases hy : 0 ≤ y
    · rw [if_pos hy]
      have h1 : ⌈x⌉ ≤ 0 := by
        rw [Int.ceil_le]
        push_neg at hx
        simpa using hx.le
      have h2 : 0 ≤ ⌊y⌋ := Int.floor_nonneg.mpr hy
      omega
    · rw [if_neg hy]
      exact Int.ceil_mono h

theorem truncate_le_of_le {x : ℚ} {n : Int} (h : x ≤ n) : truncate x ≤ n := by
  have := truncate_mono h
  rwa [truncate_intCast] at this

theorem le_truncate_of_le {x : ℚ} {n : Int} (h : (n : ℚ) ≤ x) : n ≤ truncate x := by
  have := truncate_mono h
  rwa [truncate_intCast] at this

/-! ## Curve shaper: range of the PWM -/

theorem PWMFromTempSegment_le (temp1 pwm1 temp2 pwm2 temp : ℚ) :
    PWMFromTempSegment temp1 pwm1 temp2 pwm2 temp ≤ 100 := by
  unfold PWMFromTempSegment
  exact min_le_right _ _

theorem segmentsOf_eval_le (points : List point) :
    ∀ sg ∈ segmentsOf points, ∀ t, sg.eval t ≤ 100 := by
  intro sg hsg t
  unfold segmentsOf at hsg
  obtain ⟨pp, _, rfl⟩ := List.mem_map.mp hsg
  exact PWMFromTempSegment_le _ _ _ _ _

/-- An evaluator never yields more than 100. -/
theorem evalSegments_le (segs : List segment) (h : ∀ sg ∈ segs, ∀ t, sg.eval t ≤ 100) (t : ℚ) :
    evalSegments segs t ≤ 100 := by
  unfold evalSegments
  cases hf : segs.reverse.find? (fun s => decide (t ≥ s.temperature)) with
  | none => simp
  | some sg =>
    have hmem : sg ∈ segs := by
      have := List.mem_of_find?_eq_some hf
      simpa using this
    simp only
    apply truncate_le_of_le
    exact_mod_cast h sg hmem t

theorem evalOne_range (s : CurveShaper) (now : Int) (fid : Openfan.Fan)
    (hle : ∀ tid ev, s.evaluator tid fid = some ev → ∀ t, ev t ≤ 100)
    (acc : Option Evaluation) (t : Sensor.Temperature)
    (hacc : ∀ e, acc = some e → 0 ≤ e.PWM ∧ e.PWM ≤ 100) :
    ∀ e, evalOne s now fid acc t = some e → 0 ≤ e.PWM ∧ e.PWM ≤ 100 := by
  intro e he
  unfold evalOne at he
  cases hev : s.evaluator t.ID fid with
  | none =>
    rw [hev] at he
    exact hacc e he
  | some ev =>
    rw [hev] at he
    simp only [Option.some.injEq] at he
    have h100 := hle t.ID ev hev t.Temperature
    have hprev : 0 ≤ (acc.getD Evaluation.zero).PWM ∧ (acc.getD Evaluation.zero).PWM ≤ 100 := by
      cases acc with
      | none => simp [Evaluation.zero]
      | some a => exact hacc a rfl
    unfold maxPWM at he
    split at he
    · rw [← he]
      exact hprev
    · rename_i hgt
      rw [← he]
      simp only at hgt ⊢
      omega

theorem foldl_evalOne_range (s : CurveShaper) (now : Int) (fid : Openfan.Fan)
    (hle : ∀ tid ev, s.evaluator tid fid = some ev → ∀ t, ev t ≤ 100) :
    ∀ (temps : List Sensor.Temperature) (acc : Option Evaluation),
      (∀ e, acc = some e → 0 ≤ e.PWM ∧ e.PWM ≤ 100) →
      ∀ e, temps.foldl (evalOne s now fid) acc = some e → 0 ≤ e.PWM ∧ e.PWM ≤ 100 := by
  intro temps
  induction temps with
  | nil => intro acc hacc e he; exact hacc e he
  | cons t rest ih =>
    intro acc hacc e he
    exact ih _ (evalOne_range s now fid hle acc t hacc) e he

theorem Eval_nodup (s : CurveShaper) (now : Int) (temps : List Sensor.Temperature) :
    ((s.Eval now temps).map Prod.fst).Nodup := by
  unfold CurveShaper.Eval
  refine foldl_invariant _
    (fun (pwms : List (Openfan.Fan × Evaluation)) => (pwms.map Prod.fst).Nodup) ?_ temps []
    (by simp)
  intro pwms t h
  exact foldl_invariant _
    (fun (pwms : List (Openfan.Fan × Evaluation)) => (pwms.map Prod.fst).Nodup)
    (fun a b ha => nodup_mkeys_mset _ _ ha) _ pwms h

/-- C7: every Evaluation `Eval` returns, for a shaper `NewCurveShaper` built and any list of
readings, has a PWM in `0..100`, so the guard of `SetPWM` lets it through. -/
theorem Eval_pwm_range (cfg : Config) (catalog : List Sensor.Temperature) (s : CurveShaper)
    (h : NewCurveShaper cfg catalog = .ok s) (now : Int) (temps : List Sensor.Temperature) :
    ∀ fe ∈ s.Eval now temps, 0 ≤ fe.2.PWM ∧ fe.2.PWM ≤ 100 ∧
      ∃ req, Openfan.SetPWMRequest fe.1 fe.2.PWM = .ok req := by
  intro fe hfe
  have hget : mget (s.Eval now temps) fe.1 = some fe.2 :=
    mget_of_mem (Eval_nodup s now temps) hfe
  rw [mget_Eval s (NewCurveShaper_wf cfg catalog s h)] at hget
  have hle : ∀ tid ev, s.evaluator tid fe.1 = some ev → ∀ t, ev t ≤ 100 := by
    intro tid ev hev t
    obtain ⟨nf, _, _, _, hE⟩ := NewCurveShaper_evaluator_origin cfg catalog s h tid fe.1 ev hev
    rw [hE]
    exact evalSegments_le _ (segmentsOf_eval_le _) t
  have hr := foldl_evalOne_range s now fe.1 hle temps none (by simp) fe.2 hget
  refine ⟨hr.1, hr.2, ?_⟩
  have hguard : ¬ (fe.2.PWM < 0 ∨ fe.2.PWM > 100) := by omega
  simp [Openfan.SetPWMRequest, hguard]

/-! ## Curve shaper: unknown sensor names -/

/-- A loop whose step fails exactly on the bad elements, whatever the state, fails when
the list holds a bad element and succeeds otherwise. -/
theorem foldlM_error_or_ok {σ α ε : Type} (f : σ → α → Except ε σ) (bad : α → Prop)
    (P : ε → Prop) (hbad : ∀ s a, bad a → ∃ e, f s a = .error e ∧ P e)
    (hgood : ∀ s a, ¬ bad a → ∃ s', f s a = .ok s') :
    ∀ (l : List α) (s : σ),
      ((∃ a ∈ l, bad a) ∧ ∃ e, l.foldlM f s = .error e ∧ P e) ∨
        ((∀ a ∈ l, ¬ bad a) ∧ ∃ s', l.foldlM f s = .ok s') := by
  intro l
  induction l with
  | nil =>
    intro s
    exact Or.inr ⟨by simp, s, rfl⟩
  | cons a rest ih =>
    intro s
    by_cases ha : bad a
    · obtain ⟨e, he, hP⟩ := hbad s a ha
      refine Or.inl ⟨⟨a, List.mem_cons_self _ _, ha⟩, e, ?_, hP⟩
      rw [List.foldlM_cons, he]
      rfl
    · obtain ⟨s1, hs1⟩ := hgood s a ha
      have hstep : (a :: rest).foldlM f s = rest.foldlM f s1 := by
        rw [List.foldlM_cons, hs1]
        rfl
      rcases ih s1 with ⟨⟨b, hb, hbb⟩, e, he, hP⟩ | ⟨hall, s', hs'⟩
      · exact Or.inl ⟨⟨b, List.mem_cons_of_mem _ hb, hbb⟩, e, by rw [hstep, he], hP⟩
      · refine Or.inr ⟨?_, s', by rw [hstep, hs']⟩
        intro b hb
        rcases List.mem_cons.mp hb with h1 | h1
        · rw [h1]; exact ha
        · exact hall b h1

theorem findID_cases (temps : List Sensor.Temperature) (name : String) :
    ((∀ t ∈ temps, t.Name ≠ name) ∧ findID temps name = .error .ErrNotFoundTemp) ∨
      ((∃ t ∈ temps, t.Name = name) ∧ ∃ tid, findID temps name = .ok tid) := by
  unfold findID
  cases hf : temps.find? (fun t => decide (t.Name = name)) with
  | none =>
    left
    refine ⟨?_, rfl⟩
    intro t ht hname
    have := List.find?_eq_none.mp hf t ht
    simp [hname] at this
  | some t =>
    right
    refine ⟨⟨t, List.mem_of_find?_eq_some hf, ?_⟩, t.ID, rfl⟩
    have := List.find?_some hf
    simpa using this

theorem addThreshold_cases (temps : List Sensor.Temperature) (i : Nat) (pwm : Int)
    (m : List (Sensor.TemperatureID × List point)) (th : String × Int) :
    ((∀ t ∈ temps, t.Name ≠ th.1) →
        ∃ e, addThreshold temps i pwm m th = .error e ∧ e.Is .ErrNotFoundTemp = true) ∧
      (¬ (∀ t ∈ temps, t.Name ≠ th.1) → ∃ m', addThreshold temps i pwm m th = .ok m') := by
  unfold addThreshold
  rcases findID_cases temps th.1 with ⟨hbad, hf⟩ | ⟨⟨t, ht, hname⟩, tid, hf⟩
  · rw [hf]
    refine ⟨fun _ => ⟨_, rfl, ?_⟩, fun h => absurd hbad h⟩
    simp [Error.Is]
  · rw [hf]
    refine ⟨fun h => absurd hname (h t ht), fun _ => ⟨_, rfl⟩⟩

/-- The first loop of `NewCurveShaper` fails, with an error wrapping `ErrNotFoundTemp`, when
a threshold of the curve names a sensor absent from the catalog, and succeeds otherwise. -/
theorem buildPoints_cases (temps : List Sensor.Temperature) (cps : List CurvePoint) :
    ((∃ p ∈ cps, ∃ e ∈ p, ∃ th ∈ e.2, ∀ t ∈ temps, t.Name ≠ th.1) ∧
        ∃ err, buildPoints temps cps = .error err ∧ err.Is .ErrNotFoundTemp = true) ∨
      ((∀ p ∈ cps, ∀ e ∈ p, ∀ th ∈ e.2, ∃ t ∈ temps, t.Name = th.1) ∧
        ∃ m, buildPoints temps cps = .ok m) := by
  have hinner : ∀ (i : Nat) (e : Int × List (String × Int))
      (m : List (Sensor.TemperatureID × List point)),
      ((∃ th ∈ e.2, ∀ t ∈ temps, t.Name ≠ th.1) ∧
          ∃ err, e.2.foldlM (addThreshold temps i e.1) m = .error err ∧
            err.Is .ErrNotFoundTemp = true) ∨
        ((∀ th ∈ e.2, ¬ ∀ t ∈ temps, t.Name ≠ th.1) ∧
          ∃ m', e.2.foldlM (addThreshold temps i e.1) m = .ok m') := by
    intro i e m
    exact foldlM_error_or_ok (addThreshold temps i e.1) (fun th => ∀ t ∈ temps, t.Name ≠ th.1)
      (fun err => err.Is .ErrNotFoundTemp = true)
      (fun s a h => (addThreshold_cases temps i e.1 s a).1 h)
      (fun s a h => (addThreshold_cases temps i e.1 s a).2 h) e.2 m
  have hpoint : ∀ (ip : Nat × CurvePoint) (m : List (Sensor.TemperatureID × List point)),
      ((∃ e ∈ ip.2, ∃ th ∈ e.2, ∀ t ∈ temps, t.Name ≠ th.1) ∧
          ∃ err, addCurvePoint temps m ip = .error err ∧ err.Is .ErrNotFoundTemp = true) ∨
        ((∀ e ∈ ip.2, ¬ ∃ th ∈ e.2, ∀ t ∈ temps, t.Name ≠ th.1) ∧
          ∃ m', addCurvePoint temps m ip = .ok m') := by
    intro ip m
    unfold addCurvePoint
    refine foldlM_error_or_ok _
      (fun (e : Int × List (String × Int)) => ∃ th ∈ e.2, ∀ t ∈ temps, t.Name ≠ th.1)
      (fun (err : Error) => err.Is .ErrNotFoundTemp = true) ?_ ?_ ip.2 m
    · intro s e hbad
      rcases hinner ip.1 e s with ⟨_, h⟩ | ⟨hall, _⟩
      · exact h
      · obtain ⟨th, hth, hb⟩ := hbad
        exact absurd hb (hall th hth)
    · intro s e hgood
      rcases hinner ip.1 e s with ⟨hb, _⟩ | ⟨_, h⟩
      · exact absurd hb hgood
      · exact h
  have hall := foldlM_error_or_ok (addCurvePoint temps)
    (fun ip : Nat × CurvePoint => ∃ e ∈ ip.2, ∃ th ∈ e.2, ∀ t ∈ temps, t.Name ≠ th.1)
    (fun err => err.Is .ErrNotFoundTemp = true)
    (fun s ip hbad => by
      rcases hpoint ip s with ⟨_, h⟩ | ⟨hg, _⟩
      · exact h
      · obtain ⟨e, he, hb⟩ := hbad
        exact absurd hb (hg e he))
    (fun s ip hgood => by
      rcases hpoint ip s with ⟨hb, _⟩ | ⟨_, h⟩
      · exact absurd hb hgood
      · exact h) cps.enum []
  have hsnd : ∀ p, p ∈ cps ↔ ∃ ip ∈ cps.enum, ip.2 = p := by
    intro p
    have : p ∈ cps ↔ p ∈ cps.enum.map Prod.snd := by rw [List.enum_map_snd]
    rw [this, List.mem_map]
  unfold buildPoints
  rcases hall with ⟨⟨ip, hip, e, he, th, hth, hb⟩, herr⟩ | ⟨hgood, hok⟩
  · exact Or.inl ⟨⟨ip.2, (hsnd ip.2).mpr ⟨ip, hip, rfl⟩, e, he, th, hth, hb⟩, herr⟩
  · refine Or.inr ⟨?_, hok⟩
    intro p hp e he th hth
    obtain ⟨ip, hip, rfl⟩ := (hsnd p).mp hp
    by_contra hcon
    push_neg at hcon
    exact hgood ip hip ⟨e, he, th, hth, hcon⟩

theorem addFan_cases (temps : List Sensor.Temperature) (s : CurveShaper) (fan : Fan) :
    ((∃ p ∈ fan.CurvePoints, ∃ e ∈ p, ∃ th ∈ e.2, ∀ t ∈ temps, t.Name ≠ th.1) ∧
        ∃ err, addFan temps s fan = .error err ∧ err.Is .ErrNotFoundTemp = true) ∨
      ((∀ p ∈ fan.CurvePoints, ∀ e ∈ p, ∀ th ∈ e.2, ∃ t ∈ temps, t.Name = th.1) ∧
        ∃ s', addFan temps s fan = .ok s') := by
  unfold addFan
  rcases buildPoints_cases temps fan.CurvePoints with ⟨hb, err, he, hP⟩ | ⟨hg, m, hm⟩
  · rw [he]
    exact Or.inl ⟨hb, err, rfl, hP⟩
  · rw [hm]
    exact Or.inr ⟨hg, _, rfl⟩

/-- The loop of `NewCurveShaper` over the fans fails, with an error wrapping
`ErrNotFoundTemp`, when some threshold names a sensor absent from the catalog, and succeeds
otherwise. -/
theorem NewCurveShaper_cases (cfg : Config) (catalog : List Sensor.Temperature) :
    ((∃ nf ∈ cfg.FanSettings, ∃ p ∈ nf.2.CurvePoints, ∃ e ∈ p, ∃ th ∈ e.2,
          ∀ t ∈ catalog, t.Name ≠ th.1) ∧
        ∃ err, NewCurveShaper cfg catalog = .error err ∧ err.Is .ErrNotFoundTemp = true) ∨
      ((∀ nf ∈ cfg.FanSettings, ∀ p ∈ nf.2.CurvePoints, ∀ e ∈ p, ∀ th ∈ e.2,
          ∃ t ∈ catalog, t.Name = th.1) ∧
        ∃ s, NewCurveShaper cfg catalog = .ok s) := by
  have hall := foldlM_error_or_ok (fun (s : CurveShaper) (nf : String × Fan) => addFan catalog s nf.2)
    (fun nf => ∃ p ∈ nf.2.CurvePoints, ∃ e ∈ p, ∃ th ∈ e.2, ∀ t ∈ catalog, t.Name ≠ th.1)
    (fun err => err.Is .ErrNotFoundTemp = true)
    (fun s nf hbad => by
      rcases addFan_cases catalog s nf.2 with ⟨_, h⟩ | ⟨hg, _⟩
      · exact h
      · obtain ⟨p, hp, e, he, th, hth, hb⟩ := hbad
        obtain ⟨t, ht, hname⟩ := hg p hp e he th hth
        exact absurd hname (hb t ht))
    (fun s nf hgood => by
      rcases addFan_cases catalog s nf.2 with ⟨hb, _⟩ | ⟨_, h⟩
      · exact absurd hb hgood
      · exact h) cfg.FanSettings { labels := [], index := [] }
  have hdef : NewCurveShaper cfg catalog =
      cfg.FanSettings.foldlM (fun s nf => addFan catalog s nf.2) { labels := [], index := [] } :=
    rfl
  rw [hdef]
  rcases hall with hbad | ⟨hgood, hok⟩
  · exact Or.inl hbad
  · refine Or.inr ⟨?_, hok⟩
    intro nf hnf p hp e he th hth
    by_contra hcon
    push_neg at hcon
    exact hgood nf hnf ⟨p, hp, e, he, th, hth, hcon⟩

/-- C8: `NewCurveShaper` returns an error wrapping `ErrNotFoundTemp` if and only if some
sensor name used in some fan's curve points is the `Name` of no entry of the catalog, and
it returns a shaper (no error) if and only if every name used is in the catalog. -/
theorem NewCurveShaper_not_found_iff (cfg : Config) (catalog : List Sensor.Temperature) :
    ((∃ nf ∈ cfg.FanSettings, ∃ p ∈ nf.2.CurvePoints, ∃ e ∈ p, ∃ th ∈ e.2,
          ∀ t ∈ catalog, t.Name ≠ th.1) ↔
        ∃ err, NewCurveShaper cfg catalog = .error err ∧ err.Is .ErrNotFoundTemp = true) ∧
      ((∀ nf ∈ cfg.FanSettings, ∀ p ∈ nf.2.CurvePoints, ∀ e ∈ p, ∀ th ∈ e.2,
          ∃ t ∈ catalog, t.Name = th.1) ↔
        ∃ s, NewCurveShaper cfg catalog = .ok s) := by
  rcases NewCurveShaper_cases cfg catalog with ⟨hbad, err, herr, hP⟩ | ⟨hgood, s, hs⟩
  · refine ⟨⟨fun _ => ⟨err, herr, hP⟩, fun _ => hbad⟩, ⟨fun h => ?_, fun h => ?_⟩⟩
    · obtain ⟨nf, hnf, p, hp, e, he, th, hth, hb⟩ := hbad
      obtain ⟨t, ht, hname⟩ := h nf hnf p hp e he th hth
      exact absurd hname (hb t ht)
    · obtain ⟨s, hs⟩ := h
      rw [herr] at hs
      exact absurd hs (by simp)
  · refine ⟨⟨fun h => ?_, fun h => ?_⟩, ⟨fun _ => ⟨s, hs⟩, fun _ => hgood⟩⟩
    · obtain ⟨nf, hnf, p, hp, e, he, th, hth, hb⟩ := h
      obtain ⟨t, ht, hname⟩ := hgood nf hnf p hp e he th hth
      exact absurd hname (hb t ht)
    · obtain ⟨err, herr, _⟩ := h
      rw [hs] at herr
      exact absurd herr (by simp)

/-! ## Curve shaper: evaluation of a list of segments -/

theorem segmentsOf_cons_cons (a b : point) (rest : List point) :
    segmentsOf (a :: b :: rest) = mkSegment a b :: segmentsOf (b :: rest) := by
  simp [segmentsOf]

theorem segmentsOf_singleton (a : point) : segmentsOf [a] = [] := by
  simp [segmentsOf]

/-- Every segment starts at the temperature of one of the points. -/
theorem segmentsOf_start_mem (points : List point) :
    ∀ sg ∈ segmentsOf points, ∃ a ∈ points, sg.temperature = a.temperature := by
  intro sg hsg
  unfold segmentsOf at hsg
  obtain ⟨pp, hpp, rfl⟩ := List.mem_map.mp hsg
  exact ⟨pp.1, (List.of_mem_zip hpp).1, rfl⟩

/-- When a later segment starts at or below `t`, the first segment is not reached. -/
theorem evalSegments_cons_hit (sg : segment) (segs : List segment) (t : ℚ)
    (h : ∃ s ∈ segs, s.temperature ≤ t) :
    evalSegments (sg :: segs) t = evalSegments segs t := by
  unfold evalSegments
  rw [List.reverse_cons, List.find?_append]
  cases hf : segs.reverse.find? (fun s => decide (t ≥ s.temperature)) with
  | none =>
    obtain ⟨s, hs, hle⟩ := h
    have := List.find?_eq_none.mp hf s (List.mem_reverse.mpr hs)
    simp at this
    exact absurd hle (not_le.mpr this)
  | some s => rfl

/-- When no later segment starts at or below `t`, the first segment decides. -/
theorem evalSegments_cons_miss (sg : segment) (segs : List segment) (t : ℚ)
    (h : ¬ ∃ s ∈ segs, s.temperature ≤ t) :
    evalSegments (sg :: segs) t =
      if sg.temperature ≤ t then truncate (sg.eval t) else 100 := by
  unfold evalSegments
  rw [List.reverse_cons, List.find?_append]
  have hf : segs.reverse.find? (fun s => decide (t ≥ s.temperature)) = none := by
    rw [List.find?_eq_none]
    intro s hs hcon
    exact h ⟨s, List.mem_reverse.mp hs, by simpa using hcon⟩
  rw [hf]
  by_cases hsg : sg.temperature ≤ t
  · simp [List.find?, hsg]
  · simp [List.find?, hsg]

/-- The fail-safe: when no segment starts at or below `t`, the evaluator yields 100. -/
theorem evalSegments_miss (segs : List segment) (t : ℚ)
    (h : ¬ ∃ s ∈ segs, s.temperature ≤ t) : evalSegments segs t = 100 := by
  unfold evalSegments
  have hf : segs.reverse.find? (fun s => decide (t ≥ s.temperature)) = none := by
    rw [List.find?_eq_none]
    intro s hs hcon
    exact h ⟨s, List.mem_reverse.mp hs, by simpa using hcon⟩
  rw [hf]

/-- Between two anchors of different temperatures the segment is the line through them,
capped at 100. -/
theorem mkSegment_eval_slope (a b : point) (h : a.temperature ≠ b.temperature) (t : ℚ) :
    (mkSegment a b).eval t =
      min ((a.pwm : ℚ) + ((b.pwm : ℚ) - a.pwm) / (b.temperature - a.temperature) *
        (t - a.temperature)) 100 := by
  simp only [mkSegment, PWMFromTempSegment, h, if_false]
  congr 1
  ring

/-- Between two anchors of the same temperature the segment is the line through `(1, pwm1)`
and `(2, pwm2)`, capped at 100. -/
theorem mkSegment_eval_vertical (a b : point) (h : a.temperature = b.temperature) (t : ℚ) :
    (mkSegment a b).eval t = min ((a.pwm : ℚ) + ((b.pwm : ℚ) - a.pwm) * (t - 1)) 100 := by
  simp only [mkSegment, PWMFromTempSegment, h, if_true]
  congr 1
  norm_num
  ring

theorem closePoints_cases (points : List point) :
    closePoints points = points ∨
      ∃ last, points.getLast? = some last ∧ last.pwm < 100 ∧
        closePoints points = points ++ [⟨last.temperature, 100⟩] := by
  unfold closePoints
  cases h : points.getLast? with
  | none => exact Or.inl rfl
  | some last =>
    by_cases hp : last.pwm < 100
    · exact Or.inr ⟨last, rfl, hp, by simp [hp]⟩
    · exact Or.inl (by simp [hp])

theorem closePoints_temperature_mem (points : List point) :
    ∀ a ∈ closePoints points, ∃ b ∈ points, a.temperature = b.temperature := by
  intro a ha
  rcases closePoints_cases points with h | ⟨last, hlast, _, h⟩
  · rw [h] at ha
    exact ⟨a, ha, rfl⟩
  · rw [h] at ha
    rcases List.mem_append.mp ha with ha | ha
    · exact ⟨a, ha, rfl⟩
    · simp only [List.mem_singleton] at ha
      exact ⟨last, List.mem_of_getLast?_eq_some hlast, by rw [ha]⟩

/-- C7 on the curve `30%: {cpu: 0, gpu: 0}` with both sensors at 0.5 degrees: the entry of
fan 3 exists and its PWM is in range. -/
theorem Eval_pwm_range_witness :
    mget ((shaperOf (exCfg exZeroCurve) exCatalog).Eval 0 [cpuAt (1 / 2), gpuAt (1 / 2)]) 3 ≠ none ∧
      ∀ fe ∈ (shaperOf (exCfg exZeroCurve) exCatalog).Eval 0 [cpuAt (1 / 2), gpuAt (1 / 2)],
        0 ≤ fe.2.PWM ∧ fe.2.PWM ≤ 100 ∧ ∃ req, Openfan.SetPWMRequest fe.1 fe.2.PWM = .ok req :=
  ⟨by decide!,
    Eval_pwm_range (exCfg exZeroCurve) exCatalog (shaperOf (exCfg exZeroCurve) exCatalog) rfl 0
      [cpuAt (1 / 2), gpuAt (1 / 2)]⟩

/-! ## Curve shaper: a fan governed by two sensors -/

/-- The entry of a fan after a single reading of a sensor it has an evaluator for. -/
theorem mget_Eval_single (s : CurveShaper) (hwf : ∀ e ∈ s.index, (e.2.map Prod.fst).Nodup)
    (now : Int) (r : Sensor.Temperature) (fid : Openfan.Fan) (ev : ℚ → Int)
    (hev : s.evaluator r.ID fid = some ev) (h0 : 0 ≤ ev r.Temperature) :
    ∃ e, mget (s.Eval now [r]) fid = some e ∧ e.PWM = ev r.Temperature ∧
      e.TemperatureID = r.ID ∧ e.TemperatureName = r.Name ∧ e.Temperature = r.Temperature := by
  rw [mget_Eval s hwf]
  simp only [List.foldl, evalOne, hev, Option.getD_none]
  have hgt : ¬ (Evaluation.zero.PWM > ev r.Temperature) := by
    simp only [Evaluation.zero]
    omega
  refine ⟨_, rfl, ?_⟩
  simp only [maxPWM, hgt, if_false, and_self]

/-- For a fan with evaluators for the sensors of two readings, at least one of the two curve
values being non-negative, the entry `Eval` returns for the fan has the maximum of the two
curve values as PWM, and its `TemperatureID`, `TemperatureName` and `Temperature` are those
of a reading whose curve value is that maximum. -/
theorem Eval_two_sensors (cfg : Config) (catalog : List Sensor.Temperature) (s : CurveShaper)
    (h : NewCurveShaper cfg catalog = .ok s) (now : Int) (fid : Openfan.Fan)
    (r1 r2 : Sensor.Temperature) (ev1 ev2 : ℚ → Int)
    (h1 : s.evaluator r1.ID fid = some ev1) (h2 : s.evaluator r2.ID fid = some ev2)
    (hnn : 0 ≤ ev1 r1.Temperature ∨ 0 ≤ ev2 r2.Temperature) :
    ∃ e, mget (s.Eval now [r1, r2]) fid = some e ∧
      e.PWM = max (ev1 r1.Temperature) (ev2 r2.Temperature) ∧
      ((e.TemperatureID = r1.ID ∧ e.TemperatureName = r1.Name ∧
          e.Temperature = r1.Temperature ∧ ev1 r1.Temperature = e.PWM) ∨
        (e.TemperatureID = r2.ID ∧ e.TemperatureName = r2.Name ∧
          e.Temperature = r2.Temperature ∧ ev2 r2.Temperature = e.PWM)) := by
  rw [mget_Eval s (NewCurveShaper_wf cfg catalog s h)]
  simp only [List.foldl, evalOne, h1, h2, Option.getD_none, Option.getD_some]
  refine ⟨_, rfl, ?_⟩
  by_cases ha : Evaluation.zero.PWM > ev1 r1.Temperature
  · have ha' : (0 : Int) > ev1 r1.Temperature := ha
    have hb : ¬ (Evaluation.zero.PWM > ev2 r2.Temperature) := by
      simp only [Evaluation.zero]
      omega
    simp only [maxPWM, ha, hb, if_true, if_false, and_self, and_true]
    refine ⟨?_, Or.inr trivial⟩
    rw [max_eq_right]
    omega
  · by_cases hb : ev1 r1.Temperature > ev2 r2.Temperature
    · simp only [maxPWM, ha, hb, if_true, if_false, and_self, and_true]
      refine ⟨?_, Or.inl trivial⟩
      rw [max_eq_left]
      omega
    · simp only [maxPWM, ha, hb, if_false, and_self, and_true]
      refine ⟨?_, Or.inr trivial⟩
      rw [max_eq_right]
      omega

/-- The maximum of two sensors on the curve `20%: {cpu: 30}`, `50%: {cpu: 50, gpu: 60}`,
`100%: {cpu: 70, gpu: 80}` with `cpu` at 40 and `gpu` at 70 degrees: the curve values are 35
and 75, and the entry of the fan reports 75 on `gpu`. -/
theorem Eval_two_sensors_witness :
    evaluatorAt (shaperOf (exCfg exTwoSensorCurve) exCatalog) 1 3 40 = some 35 ∧
      evaluatorAt (shaperOf (exCfg exTwoSensorCurve) exCatalog) 2 3 70 = some 75 ∧
      ∃ e, mget ((shaperOf (exCfg exTwoSensorCurve) exCatalog).Eval 0 [cpuAt 40, gpuAt 70]) 3 =
          some e ∧ e.PWM = 75 ∧ e.TemperatureName = "gpu" :=
  ⟨by decide!, by decide!, by
    obtain ⟨ev1, h1⟩ : ∃ ev, (shaperOf (exCfg exTwoSensorCurve) exCatalog).evaluator
        (cpuAt 40).ID 3 = some ev := Option.isSome_iff_exists.mp (by decide!)
    obtain ⟨ev2, h2⟩ : ∃ ev, (shaperOf (exCfg exTwoSensorCurve) exCatalog).evaluator
        (gpuAt 70).ID 3 = some ev := Option.isSome_iff_exists.mp (by decide!)
    have v1 : ev1 40 = 35 := by
      have : evaluatorAt (shaperOf (exCfg exTwoSensorCurve) exCatalog) 1 3 40 = some 35 := by
        decide!
      have h1' : (shaperOf (exCfg exTwoSensorCurve) exCatalog).evaluator 1 3 = some ev1 := h1
      simpa [evaluatorAt, h1'] using this
    have v2 : ev2 70 = 75 := by
      have : evaluatorAt (shaperOf (exCfg exTwoSensorCurve) exCatalog) 2 3 70 = some 75 := by
        decide!
      have h2' : (shaperOf (exCfg exTwoSensorCurve) exCatalog).evaluator 2 3 = some ev2 := h2
      simpa [evaluatorAt, h2'] using this
    obtain ⟨e, he, hpwm, hattr⟩ := Eval_two_sensors (exCfg exTwoSensorCurve) exCatalog
      (shaperOf (exCfg exTwoSensorCurve) exCatalog) rfl 0 3 (cpuAt 40) (gpuAt 70) ev1 ev2 h1 h2
      (Or.inl (by
        show (0 : Int) ≤ ev1 40
        omega))
    have hv1 : ev1 (cpuAt 40).Temperature = 35 := v1
    have hv2 : ev2 (gpuAt 70).Temperature = 75 := v2
    rw [hv1, hv2] at hpwm
    refine ⟨e, he, by simpa using hpwm, ?_⟩
    rcases hattr with ⟨_, _, _, h35⟩ | ⟨_, hname, _, _⟩
    · rw [hv1] at h35
      rw [← h35] at hpwm
      simp at hpwm
    · exact hname⟩

/-- C3 on the accepted curve `30%: {cpu: 0, gpu: 0}` with both sensors at 0.5 degrees: both
curve values are -5 (the closing segment is evaluated as the line through 1 and 2 degrees),
and the entry `Eval` returns for fan 3 is the zero Evaluation it started from, of PWM 0, fan
id 0, sensor id 0 and empty sensor name: neither the maximum of the two values nor the name
of one of the two sensors.  The values are the same in exact arithmetic and in `float64`,
where no operation rounds on this input. -/
theorem Eval_two_sensors_zero_entry :
    acceptedCurve exZeroCurve = true ∧
      evaluatorAt (shaperOf (exCfg exZeroCurve) exCatalog) 1 3 (1 / 2) = some (-5) ∧
      evaluatorAt (shaperOf (exCfg exZeroCurve) exCatalog) 2 3 (1 / 2) = some (-5) ∧
      mget ((shaperOf (exCfg exZeroCurve) exCatalog).Eval 0 [cpuAt (1 / 2), gpuAt (1 / 2)]) 3 =
        some { ID := 0, EvaluedAt := 0, Label := "", PWM := 0, RPM := 0, TemperatureID := 0,
               TemperatureName := "", Temperature := 0 } ∧
      evaluatorAt (shaperOf64 (exCfg exZeroCurve) exCatalog) 1 3 (1 / 2) = some (-5) ∧
      evaluatorAt (shaperOf64 (exCfg exZeroCurve) exCatalog) 2 3 (1 / 2) = some (-5) ∧
      mget ((shaperOf64 (exCfg exZeroCurve) exCatalog).Eval 0 [cpuAt (1 / 2), gpuAt (1 / 2)]) 3 =
        some { ID := 0, EvaluedAt := 0, Label := "", PWM := 0, RPM := 0, TemperatureID := 0,
               TemperatureName := "", Temperature := 0 } ∧
      (0 : Int) ≠ max (-5) (-5) := by
  refine ⟨by decide, by decide!, by decide!, by decide!, by decide!, by decide!, by decide!,
    by decide⟩

/-! ## Curve shaper: anchors of a sensor -/

/-- Every anchor point of a sensor comes from a threshold entry that names the sensor: it
carries the PWM of the entry, and its temperature is the threshold, or 0 for the start
anchor of an entry of the first curve point. -/
theorem mem_sensorPoints (temps : List Sensor.Temperature) (cps : List CurvePoint)
    (tid : Sensor.TemperatureID) (a : point) (ha : a ∈ sensorPoints temps cps tid) :
    ∃ ip ∈ cps.enum, ∃ e ∈ ip.2, ∃ th ∈ e.2, findID temps th.1 = .ok tid ∧ a.pwm = e.1 ∧
      (a.temperature = (th.2 : ℚ) ∨ (ip.1 = 0 ∧ a.temperature = 0)) := by
  unfold sensorPoints at ha
  obtain ⟨ip, hip, ha⟩ := List.mem_flatMap.mp ha
  unfold curvePointPoints at ha
  obtain ⟨e, he, ha⟩ := List.mem_flatMap.mp ha
  obtain ⟨th, hth, ha⟩ := List.mem_flatMap.mp ha
  refine ⟨ip, hip, e, he, th, hth, ?_⟩
  unfold thresholdPoints at ha
  cases hf : findID temps th.1 with
  | error err =>
    rw [hf] at ha
    simp at ha
  | ok tid' =>
    rw [hf] at ha
    simp only at ha
    by_cases ht : tid' = tid
    · subst ht
      simp only [if_true] at ha
      by_cases hi : ip.1 = 0
      · simp only [hi, if_true, List.mem_cons, List.mem_singleton, List.not_mem_nil,
          or_false] at ha
        rcases ha with ha | ha
        · rw [ha]
          exact ⟨rfl, rfl, Or.inr ⟨hi, rfl⟩⟩
        · rw [ha]
          exact ⟨rfl, rfl, Or.inl rfl⟩
      · simp only [hi, if_false, List.mem_singleton] at ha
        rw [ha]
        exact ⟨rfl, rfl, Or.inl rfl⟩
    · simp [ht] at ha

/-- For a configured fan of a shaper `NewCurveShaper` built, `fanAnchors` is the list of
the anchor points of the sensor. -/
theorem fanAnchors_of_ok (cfg : Config) (catalog : List Sensor.Temperature) (s : CurveShaper)
    (h : NewCurveShaper cfg catalog = .ok s) (nf : String × Fan) (hmem : nf ∈ cfg.FanSettings)
    (tid : Sensor.TemperatureID) :
    fanAnchors catalog nf.2 tid = sensorPoints catalog nf.2.CurvePoints tid := by
  have hall : ∀ nf ∈ cfg.FanSettings, ∀ p ∈ nf.2.CurvePoints, ∀ e ∈ p, ∀ th ∈ e.2,
      ∃ t ∈ catalog, t.Name = th.1 := by
    rcases NewCurveShaper_cases cfg catalog with ⟨_, err, herr, _⟩ | ⟨hgood, _⟩
    · rw [h] at herr
      exact absurd herr (by simp)
    · exact hgood
  unfold fanAnchors
  rcases buildPoints_cases catalog nf.2.CurvePoints with
    ⟨⟨p, hp, e, he, th, hth, hb⟩, _⟩ | ⟨_, m, hm⟩
  · obtain ⟨t, ht, hname⟩ := hall nf hmem p hp e he th hth
    exact absurd hname (hb t ht)
  · rw [hm]
    exact buildPoints_slot catalog _ tid m hm

/-! ## Curve shaper: the fail-safe below the anchors -/

/-- C6, amended: for a fan with an evaluator for the sensor of a reading, when the reading
is below every threshold the fan's curve sets for that sensor and, if the sensor is named
in the first curve point, also below 0 (the start anchor), the evaluator yields the
fail-safe 100 and so does the entry `Eval` returns for the fan on that single reading. -/
theorem Eval_below_all_anchors (cfg : Config) (catalog : List Sensor.Temperature)
    (s : CurveShaper) (h : NewCurveShaper cfg catalog = .ok s) (now : Int) (fid : Openfan.Fan)
    (r : Sensor.Temperature) (ev : ℚ → Int) (hev : s.evaluator r.ID fid = some ev)
    (hcold : ∀ nf ∈ cfg.FanSettings, nf.2.ID = fid → ∀ ip ∈ nf.2.CurvePoints.enum,
      ∀ e ∈ ip.2, ∀ th ∈ e.2, findID catalog th.1 = .ok r.ID →
        r.Temperature < (th.2 : ℚ) ∧ (ip.1 = 0 → r.Temperature < 0)) :
    ev r.Temperature = 100 ∧
      ∃ e, mget (s.Eval now [r]) fid = some e ∧ e.PWM = 100 ∧ e.TemperatureID = r.ID := by
  have h100 : ev r.Temperature = 100 := by
    obtain ⟨nf, hnf, hid, _, hE⟩ := NewCurveShaper_evaluator_origin cfg catalog s h r.ID fid ev hev
    rw [hE]
    apply evalSegments_miss
    rintro ⟨sg, hsg, hle⟩
    obtain ⟨a, ha, hsa⟩ := segmentsOf_start_mem _ sg hsg
    obtain ⟨b, hb, hab⟩ := closePoints_temperature_mem _ a ha
    obtain ⟨ip, hip, e, he, th, hth, hfind, _, htemp⟩ := mem_sensorPoints catalog _ r.ID b hb
    have hc := hcold nf hnf hid ip hip e he th hth hfind
    rw [hsa, hab] at hle
    rcases htemp with htemp | ⟨hi, htemp⟩
    · rw [htemp] at hle
      exact absurd hle (not_le.mpr hc.1)
    · rw [htemp] at hle
      exact absurd hle (not_le.mpr (hc.2 hi))
  refine ⟨h100, ?_⟩
  obtain ⟨e, he, hpwm, hid, _⟩ := mget_Eval_single s (NewCurveShaper_wf cfg catalog s h) now r fid
    ev hev (by rw [h100]; decide)
  exact ⟨e, he, by rw [hpwm, h100], hid⟩

/-- C6, amended, on the curve `20%: {cpu: 30}`, `50%: {cpu: 50, gpu: 60}`,
`100%: {cpu: 70, gpu: 80}`: the sensor `gpu` is not named in the first point, and a reading
of 59 degrees, below its thresholds 60 and 80, gives PWM 100. -/
theorem Eval_below_all_anchors_witness :
    ∃ e, mget ((shaperOf (exCfg exTwoSensorCurve) exCatalog).Eval 0 [gpuAt 59]) 3 = some e ∧
      e.PWM = 100 ∧ e.TemperatureID = 2 := by
  obtain ⟨ev, hev⟩ : ∃ ev, (shaperOf (exCfg exTwoSensorCurve) exCatalog).evaluator
      (gpuAt 59).ID 3 = some ev := Option.isSome_iff_exists.mp (by decide!)
  refine (Eval_below_all_anchors (exCfg exTwoSensorCurve) exCatalog
    (shaperOf (exCfg exTwoSensorCurve) exCatalog) rfl 0 3 (gpuAt 59) ev hev ?_).2
  intro nf hnf _ ip hip e he th hth hfind
  simp only [exCfg, List.mem_singleton] at hnf
  subst hnf
  simp only [exTwoSensorCurve, List.enum, List.enumFrom, List.mem_cons, List.mem_singleton,
    List.not_mem_nil, or_false] at hip
  rcases hip with rfl | rfl | rfl <;>
    simp only [List.mem_cons, List.mem_singleton, List.not_mem_nil, or_false] at he <;>
    rcases he with rfl <;>
    simp only [List.mem_cons, List.mem_singleton, List.not_mem_nil, or_false] at hth
  · subst hth
    exact absurd hfind (by simp [findID, exCatalog, gpuAt])
  · rcases hth with rfl | rfl
    · exact absurd hfind (by simp [findID, exCatalog, gpuAt])
    · exact ⟨by norm_num [gpuAt], by decide⟩
  · rcases hth with rfl | rfl
    · exact absurd hfind (by simp [findID, exCatalog, gpuAt])
    · exact ⟨by norm_num [gpuAt], by decide⟩

/-- C6 as stated fails on the curve `20%: {cpu: 30}`, `50%: {cpu: 60}`: a reading of 20
degrees is below both thresholds of `cpu`, yet it evaluates to PWM 20, on the flat start of
the curve between the anchor at 0 degrees and the first point.  And on the curve
`20%: {cpu: 30}`, `100%: {cpu: 60, gpu: 70}` the sensor `gpu`, with its single anchor, has no
evaluator: a reading of 50 degrees, below its threshold 70, leaves the fan without entry. -/
theorem Eval_below_all_anchors_counterexample :
    (acceptedCurve exTwoPointCurve = true ∧ (cpuAt 20).Temperature < 30 ∧
        (cpuAt 20).Temperature < 60 ∧
        evaluatorAt (shaperOf (exCfg exTwoPointCurve) exCatalog) 1 3 20 = some 20 ∧
        (mget ((shaperOf (exCfg exTwoPointCurve) exCatalog).Eval 0 [cpuAt 20]) 3).map
          (fun e => e.PWM) = some 20) ∧
      (acceptedCurve exSingleAnchorCurve = true ∧ (gpuAt 50).Temperature < 70 ∧
        evaluatorAt (shaperOf (exCfg exSingleAnchorCurve) exCatalog) 2 3 50 = none ∧
        mget ((shaperOf (exCfg exSingleAnchorCurve) exCatalog).Eval 0 [gpuAt 50]) 3 = none) := by
  refine ⟨⟨by decide, by norm_num [cpuAt], by norm_num [cpuAt], by decide!, by decide!⟩,
    ⟨by decide, by norm_num [gpuAt], by decide!, by decide!⟩⟩

/-! ## Curve shaper: the last segment of a list -/

theorem segmentsOf_append_two (l : List point) (y x : point) :
    segmentsOf (l ++ [y, x]) = segmentsOf (l ++ [y]) ++ [mkSegment y x] := by
  induction l with
  | nil => simp [segmentsOf]
  | cons c l' ih =>
    cases l' with
    | nil => simp [segmentsOf]
    | cons d rest =>
      rw [List.cons_append, List.cons_append, segmentsOf_cons_cons, List.cons_append,
        List.cons_append, segmentsOf_cons_cons]
      rw [List.cons_append] at ih
      rw [ih]
      rfl

/-- The last segment decides as soon as it starts at or below `t`. -/
theorem evalSegments_append_last (l : List segment) (sg : segment) (t : ℚ)
    (h : sg.temperature ≤ t) : evalSegments (l ++ [sg]) t = truncate (sg.eval t) := by
  unfold evalSegments
  simp [List.reverse_append, List.find?, h]

/-! ## Curve shaper: monotonicity of an evaluator -/

theorem mkSegment_eval_mono (a b : point) (ht : a.temperature ≤ b.temperature)
    (hp : a.pwm ≤ b.pwm) {t t' : ℚ} (htt : t ≤ t') :
    (mkSegment a b).eval t ≤ (mkSegment a b).eval t' := by
  have hpq : (0 : ℚ) ≤ (b.pwm : ℚ) - a.pwm := by
    have : (a.pwm : ℚ) ≤ b.pwm := by exact_mod_cast hp
    linarith
  by_cases hv : a.temperature = b.temperature
  · rw [mkSegment_eval_vertical a b hv, mkSegment_eval_vertical a b hv]
    apply min_le_min _ (le_refl _)
    have : ((b.pwm : ℚ) - a.pwm) * (t - 1) ≤ ((b.pwm : ℚ) - a.pwm) * (t' - 1) :=
      mul_le_mul_of_nonneg_left (by linarith) hpq
    linarith
  · rw [mkSegment_eval_slope a b hv, mkSegment_eval_slope a b hv]
    apply min_le_min _ (le_refl _)
    have hlt : a.temperature < b.temperature := lt_of_le_of_ne ht hv
    have hs : (0 : ℚ) ≤ ((b.pwm : ℚ) - a.pwm) / (b.temperature - a.temperature) :=
      div_nonneg hpq (by linarith)
    have : ((b.pwm : ℚ) - a.pwm) / (b.temperature - a.temperature) * (t - a.temperature) ≤
        ((b.pwm : ℚ) - a.pwm) / (b.temperature - a.temperature) * (t' - a.temperature) :=
      mul_le_mul_of_nonneg_left (by linarith) hs
    linarith

/-- At or above its first anchor, and at or above 1 degree, a segment yields at least the
PWM of its first anchor (capped at 100). -/
theorem mkSegment_eval_ge (a b : point) (ht : a.temperature ≤ b.temperature)
    (hp : a.pwm ≤ b.pwm) {t : ℚ} (hat : a.temperature ≤ t) (h1 : 1 ≤ t) :
    min (a.pwm : ℚ) 100 ≤ (mkSegment a b).eval t := by
  have hpq : (0 : ℚ) ≤ (b.pwm : ℚ) - a.pwm := by
    have : (a.pwm : ℚ) ≤ b.pwm := by exact_mod_cast hp
    linarith
  by_cases hv : a.temperature = b.temperature
  · rw [mkSegment_eval_vertical a b hv]
    apply min_le_min _ (le_refl _)
    have : (0 : ℚ) ≤ ((b.pwm : ℚ) - a.pwm) * (t - 1) := mul_nonneg hpq (by linarith)
    linarith
  · rw [mkSegment_eval_slope a b hv]
    apply min_le_min _ (le_refl _)
    have hlt : a.temperature < b.temperature := lt_of_le_of_ne ht hv
    have hs : (0 : ℚ) ≤ ((b.pwm : ℚ) - a.pwm) / (b.temperature - a.temperature) :=
      div_nonneg hpq (by linarith)
    have : (0 : ℚ) ≤
        ((b.pwm : ℚ) - a.pwm) / (b.temperature - a.temperature) * (t - a.temperature) :=
      mul_nonneg hs (by linarith)
    linarith

/-- Strictly below its second anchor a segment yields at most the PWM of that anchor
(capped at 100). -/
theorem mkSegment_eval_le_next (a b : point) (hp : a.pwm ≤ b.pwm) {t : ℚ}
    (hat : a.temperature ≤ t) (htb : t < b.temperature) :
    (mkSegment a b).eval t ≤ min (b.pwm : ℚ) 100 := by
  have hpq : (0 : ℚ) ≤ (b.pwm : ℚ) - a.pwm := by
    have : (a.pwm : ℚ) ≤ b.pwm := by exact_mod_cast hp
    linarith
  have hlt : a.temperature < b.temperature := lt_of_le_of_lt hat htb
  rw [mkSegment_eval_slope a b (ne_of_lt hlt)]
  apply min_le_min _ (le_refl _)
  have hd : (0 : ℚ) < b.temperature - a.temperature := by linarith
  have hs : (0 : ℚ) ≤ ((b.pwm : ℚ) - a.pwm) / (b.temperature - a.temperature) :=
    div_nonneg hpq hd.le
  have h1 : ((b.pwm : ℚ) - a.pwm) / (b.temperature - a.temperature) * (t - a.temperature) ≤
      ((b.pwm : ℚ) - a.pwm) / (b.temperature - a.temperature) *
        (b.temperature - a.temperature) :=
    mul_le_mul_of_nonneg_left (by linarith) hs
  rw [div_mul_cancel₀ _ (ne_of_gt hd)] at h1
  linarith

theorem segmentsOf_start_ge_head (b : point) (rest : List point)
    (hs : (b :: rest).Pairwise (fun a b => a.temperature ≤ b.temperature ∧ a.pwm ≤ b.pwm)) :
    ∀ sg ∈ segmentsOf (b :: rest), b.temperature ≤ sg.temperature := by
  intro sg hsg
  obtain ⟨c, hc, hsc⟩ := segmentsOf_start_mem _ sg hsg
  rw [hsc]
  rcases List.mem_cons.mp hc with h | h
  · rw [h]
  · exact ((List.pairwise_cons.mp hs).1 c h).1

/-- Lower bound: on sorted anchors, at or above 1 degree, a reading that reaches a segment
evaluates to at least the PWM of the first anchor (capped at 100). -/
theorem evalSegments_ge_head :
    ∀ (rest : List point) (a : point) (t : ℚ),
      (a :: rest).Pairwise (fun a b => a.temperature ≤ b.temperature ∧ a.pwm ≤ b.pwm) →
      1 ≤ t → (∃ sg ∈ segmentsOf (a :: rest), sg.temperature ≤ t) →
      min a.pwm 100 ≤ evalSegments (segmentsOf (a :: rest)) t := by
  intro rest
  induction rest with
  | nil =>
    intro a t _ _ hhit
    rw [segmentsOf_singleton] at hhit
    simp at hhit
  | cons b rest' ih =>
    intro a t hs h1 hhit
    have hab := (List.pairwise_cons.mp hs).1 b (List.mem_cons_self _ _)
    have hs' := (List.pairwise_cons.mp hs).2
    rw [segmentsOf_cons_cons] at hhit ⊢
    by_cases hlater : ∃ sg ∈ segmentsOf (b :: rest'), sg.temperature ≤ t
    · rw [evalSegments_cons_hit _ _ _ hlater]
      have := ih b t hs' h1 hlater
      have hmin : min a.pwm 100 ≤ min b.pwm 100 := min_le_min hab.2 (le_refl _)
      omega
    · rw [evalSegments_cons_miss _ _ _ hlater]
      have hat : (mkSegment a b).temperature ≤ t := by
        obtain ⟨sg, hsg, hle⟩ := hhit
        rcases List.mem_cons.mp hsg with h | h
        · rw [← h]; exact hle
        · exact absurd ⟨sg, h, hle⟩ hlater
      rw [if_pos hat]
      apply le_truncate_of_le
      have := mkSegment_eval_ge a b hab.1 hab.2 hat h1
      push_cast
      exact this

/-- On anchors sorted by temperature and by PWM, each temperature being 0 or at least 1,
the evaluator is non-decreasing from the first anchor on. -/
theorem evalSegments_mono :
    ∀ (rest : List point) (a : point) (t t' : ℚ),
      (a :: rest).Pairwise (fun a b => a.temperature ≤ b.temperature ∧ a.pwm ≤ b.pwm) →
      (∀ c ∈ a :: rest, c.temperature = 0 ∨ 1 ≤ c.temperature) →
      a.temperature ≤ t → t ≤ t' →
      evalSegments (segmentsOf (a :: rest)) t ≤ evalSegments (segmentsOf (a :: rest)) t' := by
  intro rest
  induction rest with
  | nil =>
    intro a t t' _ _ _ _
    rw [segmentsOf_singleton]
    simp [evalSegments]
  | cons b rest' ih =>
    intro a t t' hs hg hat htt
    have hab := (List.pairwise_cons.mp hs).1 b (List.mem_cons_self _ _)
    have hs' := (List.pairwise_cons.mp hs).2
    have hg' : ∀ c ∈ b :: rest', c.temperature = 0 ∨ 1 ≤ c.temperature :=
      fun c hc => hg c (List.mem_cons_of_mem _ hc)
    rw [segmentsOf_cons_cons]
    by_cases hlater : ∃ sg ∈ segmentsOf (b :: rest'), sg.temperature ≤ t
    · have hlater' : ∃ sg ∈ segmentsOf (b :: rest'), sg.temperature ≤ t' := by
        obtain ⟨sg, hsg, hle⟩ := hlater
        exact ⟨sg, hsg, le_trans hle htt⟩
      rw [evalSegments_cons_hit _ _ _ hlater, evalSegments_cons_hit _ _ _ hlater']
      obtain ⟨sg, hsg, hle⟩ := hlater
      have hbt : b.temperature ≤ t := le_trans (segmentsOf_start_ge_head b rest' hs' sg hsg) hle
      exact ih b t t' hs' hg' hbt htt
    · rw [evalSegments_cons_miss _ _ _ hlater]
      have hsg1 : (mkSegment a b).temperature ≤ t := hat
      rw [if_pos hsg1]
      by_cases hlater' : ∃ sg ∈ segmentsOf (b :: rest'), sg.temperature ≤ t'
      · rw [evalSegments_cons_hit _ _ _ hlater']
        have htb : t < b.temperature := by
          cases rest' with
          | nil =>
            rw [segmentsOf_singleton] at hlater'
            simp at hlater'
          | cons c rest'' =>
            by_contra hcon
            push_neg at hcon
            apply hlater
            exact ⟨mkSegment b c, by rw [segmentsOf_cons_cons]; exact List.mem_cons_self _ _, hcon⟩
        have h1 : 1 ≤ t' := by
          obtain ⟨sg, hsg, hle⟩ := hlater'
          have hb1 : b.temperature ≤ t' :=
            le_trans (segmentsOf_start_ge_head b rest' hs' sg hsg) hle
          have ha0 : 0 ≤ a.temperature := by
            rcases hg a (List.mem_cons_self _ _) with h | h
            · rw [h]
            · linarith
          rcases hg b (List.mem_cons_of_mem _ (List.mem_cons_self _ _)) with h | h
          · linarith
          · linarith
        have hlow := evalSegments_ge_head rest' b t' hs' h1 hlater'
        have hup : truncate ((mkSegment a b).eval t) ≤ min b.pwm 100 := by
          apply truncate_le_of_le
          have := mkSegment_eval_le_next a b hab.2 hat htb
          push_cast
          exact this
        omega
      · rw [evalSegments_cons_miss _ _ _ hlater']
        have hsg2 : (mkSegment a b).temperature ≤ t' := le_trans hat htt
        rw [if_pos hsg2]
        exact truncate_mono (mkSegment_eval_mono a b hab.1 hab.2 htt)

theorem pairwise_getLast {α : Type} (R : α → α → Prop) (l : List α) (last : α)
    (hlast : l.getLast? = some last) (hp : l.Pairwise R) : ∀ a ∈ l, a = last ∨ R a last := by
  intro a ha
  have hne : l ≠ [] := List.ne_nil_of_mem ha
  have hl : l = l.dropLast ++ [last] := by
    have h1 := List.dropLast_append_getLast hne
    have h2 : l.getLast hne = last := by
      rw [List.getLast?_eq_getLast _ hne] at hlast
      exact Option.some.inj hlast
    rw [h2] at h1
    exact h1.symm
  rw [hl] at ha hp
  rcases List.mem_append.mp ha with h | h
  · exact Or.inr ((List.pairwise_append.mp hp).2.2 a h last (List.mem_singleton_self _))
  · exact Or.inl (List.mem_singleton.mp h)

theorem closePoints_sorted (points : List point)
    (hs : points.Pairwise (fun a b => a.temperature ≤ b.temperature ∧ a.pwm ≤ b.pwm)) :
    (closePoints points).Pairwise
      (fun a b => a.temperature ≤ b.temperature ∧ a.pwm ≤ b.pwm) := by
  rcases closePoints_cases points with h | ⟨last, hlast, hlt, h⟩
  · rw [h]
    exact hs
  · rw [h, List.pairwise_append]
    refine ⟨hs, List.pairwise_singleton _ _, ?_⟩
    intro a ha c hc
    simp only [List.mem_singleton] at hc
    rw [hc]
    rcases pairwise_getLast _ points last hlast hs a ha with h1 | h1
    · rw [h1]
      exact ⟨le_refl _, by simp only; omega⟩
    · exact ⟨h1.1, by simp only; omega⟩

theorem closePoints_head (a : point) (rest : List point) :
    ∃ rest', closePoints (a :: rest) = a :: rest' := by
  rcases closePoints_cases (a :: rest) with h | ⟨last, _, _, h⟩
  · exact ⟨rest, h⟩
  · exact ⟨rest ++ [⟨last.temperature, 100⟩], by rw [h]; rfl⟩

/-- The temperature of an anchor point of a sensor is an integer. -/
theorem sensorPoints_temperature_int (temps : List Sensor.Temperature) (cps : List CurvePoint)
    (tid : Sensor.TemperatureID) :
    ∀ a ∈ sensorPoints temps cps tid, ∃ n : Int, a.temperature = (n : ℚ) := by
  intro a ha
  obtain ⟨ip, _, e, _, th, _, _, _, htemp⟩ := mem_sensorPoints temps cps tid a ha
  rcases htemp with h | ⟨_, h⟩
  · exact ⟨th.2, h⟩
  · exact ⟨0, by rw [h]; simp⟩

/-- C5, amended: take the evaluator of a fan and a sensor, the anchors of the sensor in the
fan's curve (the start anchor at 0 degrees when the sensor is named in the first curve point,
then the configured pairs in order) having non-decreasing PWM values, non-decreasing
temperatures and no temperature below 0.  Then for all temperatures `t ≤ t'`, `t` being at
or above some anchor (a colder reading takes the fail-safe 100), the PWM computed at `t` is
at most the PWM computed at `t'`. -/
theorem evaluator_monotone (cfg : Config) (catalog : List Sensor.Temperature) (s : CurveShaper)
    (h : NewCurveShaper cfg catalog = .ok s) (tid : Sensor.TemperatureID) (fid : Openfan.Fan)
    (ev : ℚ → Int) (hev : s.evaluator tid fid = some ev)
    (hsorted : ∀ nf ∈ cfg.FanSettings, nf.2.ID = fid →
      (fanAnchors catalog nf.2 tid).Pairwise
        (fun a b => a.temperature ≤ b.temperature ∧ a.pwm ≤ b.pwm))
    (hnonneg : ∀ nf ∈ cfg.FanSettings, nf.2.ID = fid →
      ∀ a ∈ fanAnchors catalog nf.2 tid, 0 ≤ a.temperature)
    (t t' : ℚ) (htt : t ≤ t')
    (hstart : ∀ nf ∈ cfg.FanSettings, nf.2.ID = fid →
      ∃ a ∈ fanAnchors catalog nf.2 tid, a.temperature ≤ t) :
    ev t ≤ ev t' := by
  obtain ⟨nf, hnf, hid, _, hE⟩ := NewCurveShaper_evaluator_origin cfg catalog s h tid fid ev hev
  have hfa := fanAnchors_of_ok cfg catalog s h nf hnf tid
  have hs := hsorted nf hnf hid
  have hn := hnonneg nf hnf hid
  obtain ⟨a0, ha0, ha0t⟩ := hstart nf hnf hid
  rw [hfa] at hs hn ha0
  rw [hE]
  unfold sensorSegments
  obtain ⟨a, rest, hpts⟩ := List.exists_cons_of_ne_nil (List.ne_nil_of_mem ha0)
  obtain ⟨rest', hclose⟩ := closePoints_head a rest
  have hsc := closePoints_sorted _ hs
  have hgrid : ∀ c ∈ closePoints (sensorPoints catalog nf.2.CurvePoints tid),
      c.temperature = 0 ∨ 1 ≤ c.temperature := by
    intro c hc
    obtain ⟨b, hb, hcb⟩ := closePoints_temperature_mem _ c hc
    obtain ⟨n, hn'⟩ := sensorPoints_temperature_int catalog _ tid b hb
    have h0 := hn b hb
    rw [hcb, hn'] at *
    have h0' : (0 : Int) ≤ n := by exact_mod_cast h0
    by_cases hz : n = 0
    · left
      rw [hz]
      simp
    · right
      have : (1 : Int) ≤ n := by omega
      exact_mod_cast this
  have hhead : a.temperature ≤ t := by
    rw [hpts] at hs ha0
    rcases List.mem_cons.mp ha0 with h1 | h1
    · rw [← h1]; exact ha0t
    · exact le_trans ((List.pairwise_cons.mp hs).1 a0 h1).1 ha0t
  rw [hpts, hclose] at hsc hgrid ⊢
  exact evalSegments_mono rest' a t t' hsc hgrid hhead htt

/-- C5, amended, on the curve `20%: {cpu: 30}`, `50%: {cpu: 50, gpu: 60}`,
`100%: {cpu: 70, gpu: 80}` and the sensor `cpu`: the PWM at 40 degrees, 35, is at most the
PWM at 60 degrees, 75. -/
theorem evaluator_monotone_witness :
    evaluatorAt (shaperOf (exCfg exTwoSensorCurve) exCatalog) 1 3 40 = some 35 ∧
      evaluatorAt (shaperOf (exCfg exTwoSensorCurve) exCatalog) 1 3 60 = some 75 ∧
      ∀ ev, (shaperOf (exCfg exTwoSensorCurve) exCatalog).evaluator 1 3 = some ev →
        ev 40 ≤ ev 60 :=
  ⟨by decide!, by decide!, fun ev hev =>
    evaluator_monotone (exCfg exTwoSensorCurve) exCatalog
      (shaperOf (exCfg exTwoSensorCurve) exCatalog) rfl 1 3 ev hev
      (by
        intro nf hnf _
        simp only [exCfg, List.mem_singleton] at hnf
        subst hnf
        decide!)
      (by
        intro nf hnf _
        simp only [exCfg, List.mem_singleton] at hnf
        subst hnf
        decide!)
      40 60 (by norm_num)
      (by
        intro nf hnf _
        simp only [exCfg, List.mem_singleton] at hnf
        subst hnf
        decide!)⟩

/-- C5 as stated fails on three curves with non-decreasing PWM values.  Below the first
anchor the fail-safe applies: on `20%: {cpu: 30}`, `50%: {cpu: 50, gpu: 60}`,
`100%: {cpu: 70, gpu: 80}` the sensor `gpu` gives 100 at 59 degrees and 50 at 60 degrees.
With decreasing thresholds a segment slopes down: on `20%: {cpu: 60}`, `100%: {cpu: 40}`
the PWM is 20 at 60 degrees and 0 at 65 degrees.  With thresholds below zero the closing
step undercuts the segment before it: on `10%: {cpu: 5}`, `20%: {cpu: 10, gpu: -10}`,
`50%: {cpu: 20, gpu: -5}` the sensor `gpu` gives 44 at -6 degrees and -250 at -5 degrees. -/
theorem evaluator_monotone_counterexample :
    (acceptedCurve exTwoSensorCurve = true ∧
        evaluatorAt (shaperOf (exCfg exTwoSensorCurve) exCatalog) 2 3 59 = some 100 ∧
        evaluatorAt (shaperOf (exCfg exTwoSensorCurve) exCatalog) 2 3 60 = some 50) ∧
      (acceptedCurve exUnorderedCurve = true ∧
        evaluatorAt (shaperOf (exCfg exUnorderedCurve) exCatalog) 1 3 60 = some 20 ∧
        evaluatorAt (shaperOf (exCfg exUnorderedCurve) exCatalog) 1 3 65 = some 0) ∧
      (acceptedCurve exNegativeCurve = true ∧
        evaluatorAt (shaperOf (exCfg exNegativeCurve) exCatalog) 2 3 (-6) = some 44 ∧
        evaluatorAt (shaperOf (exCfg exNegativeCurve) exCatalog) 2 3 (-5) = some (-250)) := by
  refine ⟨⟨by decide, by decide!, by decide!⟩, ⟨by decide, by decide!, by decide!⟩,
    ⟨by decide, by decide!, by decide!⟩⟩

/-! ## Device transport: the request -/

namespace Openfan

theorem store_append (pre : List Char) (x v : Char) (rest : List Char) :
    store (pre ++ x :: rest) pre.length v = some (pre ++ v :: rest) := by
  have hlt : pre.length < (pre ++ x :: rest).length := by simp
  simp only [store, hlt, if_true]
  congr 1
  induction pre with
  | nil => rfl
  | cons a pre ih =>
    simp only [List.cons_append, List.length_cons, List.set_cons_succ]
    rw [ih (by simp)]

theorem storeAll_append (payload : List Char) :
    ∀ (pre mid post : List Char), mid.length = payload.length →
      storeAll (pre ++ mid ++ post) pre.length payload = some (pre ++ payload ++ post) := by
  induction payload with
  | nil =>
    intro pre mid post h
    have : mid = [] := List.length_eq_zero.mp h
    simp [storeAll, this]
  | cons b payload ih =>
    intro pre mid post h
    cases mid with
    | nil => simp at h
    | cons m mid =>
      have hlen : mid.length = payload.length := by simpa using h
      have h1 : pre ++ m :: mid ++ post = pre ++ m :: (mid ++ post) := by simp
      have h2 := ih (pre ++ [b]) mid post hlen
      have h3 : pre ++ [b] ++ mid ++ post = pre ++ b :: (mid ++ post) := by simp
      have h4 : (pre ++ [b]).length = pre.length + 1 := by simp
      have h5 : pre ++ [b] ++ payload ++ post = pre ++ b :: payload ++ post := by simp
      rw [h3, h4, h5] at h2
      simp only [storeAll, h1, store_append, Option.some_bind, h2]

theorem exists_split_at (l : List Char) (n : Nat) (h : n ≤ l.length) :
    ∃ pre post, l = pre ++ post ∧ pre.length = n :=
  ⟨l.take n, l.drop n, (List.take_append_drop n l).symm, by simp [h]⟩

theorem frame_eq (wbuf : List Char) (command : Command) (payload : List Char)
    (h : payload.length + 5 ≤ wbuf.length) :
    ∃ w, frame wbuf command payload =
      some (w, '>' :: (f2x command).1 :: (f2x command).2 :: (payload ++ ['\r', '\n'])) ∧
      w.length = wbuf.length := by
  obtain ⟨hd, r1, rfl, hhd⟩ := exists_split_at wbuf 3 (by omega)
  obtain ⟨a, b, c, rfl⟩ := List.length_eq_three.mp hhd
  obtain ⟨mid, r2, rfl, hmid⟩ := exists_split_at r1 payload.length (by simp at h; omega)
  obtain ⟨tl, post, rfl, htl⟩ := exists_split_at r2 2 (by simp at h; omega)
  obtain ⟨x, y, rfl⟩ := List.length_eq_two.mp htl
  have s0 := store_append [] a '>' (b :: c :: (mid ++ ([x, y] ++ post)))
  have s1 := store_append ['>'] b (f2x command).1 (c :: (mid ++ ([x, y] ++ post)))
  have s2 := store_append ['>', (f2x command).1] c (f2x command).2 (mid ++ ([x, y] ++ post))
  have s3 := storeAll_append payload ['>', (f2x command).1, (f2x command).2] mid
    ([x, y] ++ post) hmid
  have s4 := store_append (['>', (f2x command).1, (f2x command).2] ++ payload) x '\r'
    (y :: post)
  have s5 := store_append (['>', (f2x command).1, (f2x command).2] ++ payload ++ ['\r']) y '\n'
    post
  have e4 : (['>', (f2x command).1, (f2x command).2] ++ payload).length =
      5 + payload.length - 2 := by simp; omega
  have e5 : (['>', (f2x command).1, (f2x command).2] ++ payload ++ ['\r']).length =
      5 + payload.length - 1 := by simp; omega
  rw [e4] at s4
  rw [e5] at s5
  simp only [List.nil_append, List.length_nil, List.singleton_append, List.length_singleton,
    List.cons_append, List.length_cons, List.append_assoc] at s0 s1 s2 s3 s4 s5
  refine ⟨'>' :: (f2x command).1 :: (f2x command).2 :: (payload ++ '\r' :: '\n' :: post), ?_, ?_⟩
  · simp only [frame, CommRequestCharacter, CommAltEndCharacter, CommEndCharacter,
      List.cons_append, List.nil_append, List.append_assoc, s0, s1, s2, s3, s4, s5,
      Option.some_bind]
    have hl : 5 + payload.length ≤
        ('>' :: (f2x command).1 :: (f2x command).2 ::
          (payload ++ '\r' :: '\n' :: post)).length := by simp; omega
    rw [if_pos hl]
    have ht : ('>' :: (f2x command).1 :: (f2x command).2 ::
          (payload ++ '\r' :: '\n' :: post)).take (5 + payload.length) =
        '>' :: (f2x command).1 :: (f2x command).2 :: (payload ++ ['\r', '\n']) := by
      have : 5 + payload.length = (3 + payload.length + 1) + 1 := by omega
      have e : '>' :: (f2x command).1 :: (f2x command).2 ::
          (payload ++ '\r' :: '\n' :: post) =
          ('>' :: (f2x command).1 :: (f2x command).2 :: (payload ++ ['\r', '\n'])) ++ post := by
        simp
      rw [e, List.take_left']
      simp; omega
    rw [ht]
  · simp [hmid]

end Openfan

namespace Openfan

theorem Run_written_of_frame (c : Controller) (port : Port) (command : Command)
    (payload w req : List Char) (h : frame c.wbuf command payload = some (w, req)) :
    (Run c port command payload).written = some req := by
  unfold Run
  rw [h]
  cases port.writeErr with
  | some e => rfl
  | none =>
    simp only
    cases receive (c.rbuf.length + 1) port.reads c.rbuf 0 0 0 with
    | panic => rfl
    | error e => rfl
    | ok v => rfl

theorem Open_wbuf_length : Open.wbuf.length = 128 := List.length_replicate _ _

theorem Open_rbuf_length : Open.rbuf.length = 4096 := List.length_replicate _ _

/-- C12: for every command code `c` (a `uint8`) and every payload of `N ≤ 123` bytes, the
slice `Run` hands to `serial.Write` is `'>'`, the two upper-case hexadecimal digits of `c`,
the payload unchanged, `'\r'`, `'\n'`: `N + 5` bytes. This holds whatever the 128-byte write
buffer held before and whatever the port does afterwards. -/
theorem Run_written (c : Controller) (port : Port) (command : Command) (payload : List Char)
    (hc : command < 256) (hw : c.wbuf.length = 128) (hN : payload.length ≤ 123) :
    (Run c port command payload).written =
        some ('>' :: hexDigitUpper (command / 16) :: hexDigitUpper (command % 16) ::
          (payload ++ ['\r', '\n'])) ∧
      ('>' :: hexDigitUpper (command / 16) :: hexDigitUpper (command % 16) ::
          (payload ++ ['\r', '\n'])).length = payload.length + 5 := by
  obtain ⟨w, hf, _⟩ := frame_eq c.wbuf command payload (by omega)
  rw [f2x_digits command hc] at hf
  exact ⟨Run_written_of_frame c port command payload w _ hf, by simp⟩

/-- C12 for the request of `SetPWM` on fan 3 at 78 percent: `>0203C7\r\n`, nine bytes. -/
theorem Run_written_witness :
    (Run Open ⟨none, []⟩ CommandFanSetPWM ['0', '3', 'C', '7']).written =
        some ['>', '0', '2', '0', '3', 'C', '7', '\r', '\n'] ∧
      ['>', '0', '2', '0', '3', 'C', '7', '\r', '\n'].length = 4 + 5 :=
  Run_written Open ⟨none, []⟩ CommandFanSetPWM ['0', '3', 'C', '7'] (by decide)
    Open_wbuf_length (by decide)

end Openfan

/-! ## Device transport: the response -/

namespace Openfan

theorem receive_chunks (short : List Char) (rest : List (Except Error (List Char)))
    (hshort : short.length < 128) :
    ∀ (fulls : List (List Char)) (fuel : Nat) (pre tail : List Char) (n i : Nat),
      (∀ ch ∈ fulls, ch.length = 128) → n * i = pre.length → 128 * i = pre.length →
      128 * fulls.length + 128 ≤ tail.length → fulls.length < fuel →
      receive fuel ((fulls ++ [short]).map Except.ok ++ rest) (pre ++ tail) n i pre.length =
        .ok (pre ++ (fulls.flatten ++ short) ++ tail.drop (fulls.flatten ++ short).length,
          pre.length + (fulls.flatten ++ short).length) := by
  intro fulls
  induction fulls with
  | nil =>
    intro fuel pre tail n i _ hni _ htail hfuel
    obtain ⟨fuel, rfl⟩ : ∃ f, fuel = f + 1 := ⟨fuel - 1, by simp at hfuel; omega⟩
    have hb : ¬ (CommRxBufferLenASCII + pre.length > (pre ++ tail).length) := by
      simp [CommRxBufferLenASCII] at htail ⊢; omega
    have ht : List.take CommRxBufferLenASCII short = short :=
      List.take_of_length_le (by simp [CommRxBufferLenASCII]; omega)
    have hs : short.length < CommRxBufferLenASCII := hshort
    simp only [receive, List.nil_append, List.map_cons, List.map_nil, List.singleton_append,
      List.headD_cons, hni, hb, if_false, ht, hs, if_true, List.take_left', List.drop_append,
      List.flatten_nil]
  | cons ch fulls ih =>
    intro fuel pre tail n i hfull hni hi htail hfuel
    obtain ⟨fuel, rfl⟩ : ∃ f, fuel = f + 1 := ⟨fuel - 1, by omega⟩
    have hch : ch.length = 128 := hfull ch (List.mem_cons_self _ _)
    have hb : ¬ (CommRxBufferLenASCII + pre.length > (pre ++ tail).length) := by
      simp [CommRxBufferLenASCII] at htail ⊢; omega
    have ht : List.take CommRxBufferLenASCII ch = ch :=
      List.take_of_length_le (by simp [CommRxBufferLenASCII]; omega)
    have hn : ¬ (ch.length < CommRxBufferLenASCII) := by simp [CommRxBufferLenASCII, hch]
    have h2 := ih fuel (pre ++ ch) (tail.drop ch.length) ch.length (i + 1)
      (fun c hc => hfull c (List.mem_cons_of_mem _ hc))
      (by simp [hch]; omega) (by simp [hch]; omega)
      (by simp [hch] at htail ⊢; omega) (by simp at hfuel; omega)
    rw [List.length_append] at h2
    simp only [receive, List.cons_append, List.map_cons, List.headD_cons, List.tail_cons, hni]
    rw [if_neg hb]
    simp only [ht, hn, if_false, List.take_left', List.drop_append]
    rw [h2]
    simp [List.drop_drop, Nat.add_assoc, Nat.add_comm]
    omega

theorem IndexByte_append (c : Char) (tail : List Char) :
    ∀ data : List Char, c ∈ data →
      ∃ k : Nat, IndexByte (data ++ tail) c = (k : Int) ∧ k < data.length ∧
        data.drop k = data.dropWhile (fun b => b != c) := by
  intro data
  induction data with
  | nil => intro h; simp at h
  | cons x data ih =>
    intro h
    by_cases hx : x = c
    · exact ⟨0, by simp [IndexByte, hx], by simp, by simp [List.dropWhile, hx]⟩
    · have hmem : c ∈ data := by
        rcases List.mem_cons.mp h with h | h
        · exact absurd h.symm hx
        · exact h
      obtain ⟨k, hk, hlt, hd⟩ := ih hmem
      refine ⟨k + 1, ?_, by simp; omega, ?_⟩
      · have : ¬ ((k : Int) < 0) := by omega
        have e : IndexByte (x :: (data ++ tail)) c =
            if x = c then 0
            else if IndexByte (data ++ tail) c < 0 then -1
            else IndexByte (data ++ tail) c + 1 := rfl
        rw [List.cons_append, e, if_neg hx, hk, if_neg this]
        push_cast; rfl
      · simp only [List.drop_succ_cons, List.dropWhile_cons, hd]
        simp [hx]

theorem trimLeft_final : ∀ (fuel : Nat) (s : List Char), trimLeft fuel s <:+ s := by
  intro fuel
  induction fuel with
  | zero => intro s; exact List.suffix_refl s
  | succ fuel ih =>
    intro s
    unfold trimLeft
    split_ifs
    · exact List.suffix_refl s
    · exact (ih _).trans (List.drop_suffix _ _)

theorem trimRight_initial : ∀ (fuel : Nat) (s : List Char), trimRight fuel s <+: s := by
  intro fuel
  induction fuel with
  | zero => intro s; exact List.prefix_refl s
  | succ fuel ih =>
    intro s
    unfold trimRight
    split_ifs
    · exact List.prefix_refl s
    · exact (ih _).trans ( List.take_prefix _ _)

theorem TrimSpace_contiguous (s : List Char) : TrimSpace s <:+: s :=
  (trimRight_initial _ _).isInfix.trans (trimLeft_final _ _).isInfix

end Openfan

namespace Openfan

theorem extract_received (data tail : List Char) (hlt : '<' ∈ data) :
    extract (data ++ tail) data.length =
      .ok (TrimSpace
        (if (data.dropWhile (fun b => b != '<')).length > 4
          then (data.dropWhile (fun b => b != '<')).drop 4
          else data.dropWhile (fun b => b != '<'))) := by
  obtain ⟨k, hk, hklt, hd⟩ := IndexByte_append '<' tail data hlt
  have h1 : ¬ ((k : Int) < 0 ∨ (k : Int) > ((data ++ tail).length : Nat)) := by
    simp only [List.length_append]; push_cast; omega
  have h2 : ¬ ((k : Int) > (data.length : Nat) ∨ data.length > (data ++ tail).length) := by
    simp only [List.length_append]; omega
  simp only [extract, CommResponseCharacter, hk, h1, h2, if_false, List.take_left',
    Int.toNat_ofNat, hd]

/-- C13 (amended): when `Run` has written its request and the device then delivers fewer
than 4096 bytes containing a `'<'` (any number of full 128-byte reads followed by one
shorter read), `Run` returns the bytes from the first `'<'` to the end of the received data,
without their first four bytes when there are more than four of them, and with the leading
and trailing white space trimmed. The result is a contiguous part of the bytes from the
first `'<'` on: no byte located before it appears in the result. This holds whatever the
buffers held before. -/
theorem Run_response (c : Controller) (port : Port) (command : Command)
    (payload : List Char) (fulls : List (List Char)) (short : List Char)
    (rest : List (Except Error (List Char)))
    (hw : c.wbuf.length = 128) (hr : c.rbuf.length = 4096) (hN : payload.length ≤ 123)
    (hwrite : port.writeErr = none)
    (hreads : port.reads = (fulls ++ [short]).map Except.ok ++ rest)
    (hfull : ∀ ch ∈ fulls, ch.length = 128) (hshort : short.length < 128)
    (htotal : (fulls.flatten ++ short).length < 4096)
    (hlt : '<' ∈ fulls.flatten ++ short) :
    (Run c port command payload).result =
        .ok (TrimSpace
          (if ((fulls.flatten ++ short).dropWhile (fun b => b != '<')).length > 4
            then ((fulls.flatten ++ short).dropWhile (fun b => b != '<')).drop 4
            else (fulls.flatten ++ short).dropWhile (fun b => b != '<'))) ∧
      TrimSpace
          (if ((fulls.flatten ++ short).dropWhile (fun b => b != '<')).length > 4
            then ((fulls.flatten ++ short).dropWhile (fun b => b != '<')).drop 4
            else (fulls.flatten ++ short).dropWhile (fun b => b != '<')) <:+:
        (fulls.flatten ++ short).dropWhile (fun b => b != '<') := by
  constructor
  · obtain ⟨w, hf, _⟩ := frame_eq c.wbuf command payload (by omega)
    have hsum : (fulls.flatten ++ short).length = 128 * fulls.length + short.length := by
      rw [List.length_append, List.length_flatten]
      congr 1
      clear hreads htotal hlt
      induction fulls with
      | nil => rfl
      | cons ch fulls ih =>
        have := hfull ch (List.mem_cons_self _ _)
        have := ih (fun c hc => hfull c (List.mem_cons_of_mem _ hc))
        simp only [List.map_cons, List.sum_cons, List.length_cons]
        omega
    have hrec := receive_chunks short rest hshort fulls (c.rbuf.length + 1) [] c.rbuf 0 0
      hfull (by simp) (by simp) (by omega) (by omega)
    simp only [List.nil_append, List.length_nil, Nat.zero_add] at hrec
    unfold Run
    rw [hf]
    simp only [hwrite, hreads, hrec]
    exact extract_received _ _ hlt
  · split_ifs
    · exact (TrimSpace_contiguous _).trans (List.drop_suffix _ _).isInfix
    · exact TrimSpace_contiguous _

end Openfan

namespace Openfan

theorem receive_overflow (rest : List (Except Error (List Char))) :
    ∀ (fulls : List (List Char)) (fuel : Nat) (pre tail : List Char) (n i : Nat),
      (∀ ch ∈ fulls, ch.length = 128) → n * i = pre.length → 128 * i = pre.length →
      tail.length = 128 * fulls.length → fulls.length < fuel →
      receive fuel (fulls.map Except.ok ++ rest) (pre ++ tail) n i pre.length = .panic := by
  intro fulls
  induction fulls with
  | nil =>
    intro fuel pre tail n i _ hni _ htail hfuel
    obtain ⟨fuel, rfl⟩ : ∃ f, fuel = f + 1 := ⟨fuel - 1, by simp at hfuel; omega⟩
    have hb : CommRxBufferLenASCII + pre.length > (pre ++ tail).length := by
      simp [CommRxBufferLenASCII] at htail ⊢; simp [htail]
    simp only [receive, hni, hb, if_true]
  | cons ch fulls ih =>
    intro fuel pre tail n i hfull hni hi htail hfuel
    obtain ⟨fuel, rfl⟩ : ∃ f, fuel = f + 1 := ⟨fuel - 1, by omega⟩
    have hch : ch.length = 128 := hfull ch (List.mem_cons_self _ _)
    have hb : ¬ (CommRxBufferLenASCII + pre.length > (pre ++ tail).length) := by
      simp [CommRxBufferLenASCII] at htail ⊢; omega
    have ht : List.take CommRxBufferLenASCII ch = ch :=
      List.take_of_length_le (by simp [CommRxBufferLenASCII]; omega)
    have hn : ¬ (ch.length < CommRxBufferLenASCII) := by simp [CommRxBufferLenASCII, hch]
    have h2 := ih fuel (pre ++ ch) (tail.drop ch.length) ch.length (i + 1)
      (fun c hc => hfull c (List.mem_cons_of_mem _ hc))
      (by simp [hch]; omega) (by simp [hch]; omega)
      (by simp [hch] at htail ⊢; omega) (by simp at hfuel; omega)
    rw [List.length_append] at h2
    simp only [receive, List.cons_append, List.map_cons, List.headD_cons, List.tail_cons, hni]
    rw [if_neg hb]
    simp only [ht, hn, if_false, List.take_left', List.drop_append]
    exact h2

theorem Run_overflow (c : Controller) (port : Port) (command : Command)
    (payload : List Char) (fulls : List (List Char)) (rest : List (Except Error (List Char)))
    (hw : c.wbuf.length = 128) (hr : c.rbuf.length = 4096) (hN : payload.length ≤ 123)
    (hwrite : port.writeErr = none) (hreads : port.reads = fulls.map Except.ok ++ rest)
    (hfull : ∀ ch ∈ fulls, ch.length = 128) (hlen : fulls.length = 32) :
    (Run c port command payload).result = .panic := by
  obtain ⟨w, hf, _⟩ := frame_eq c.wbuf command payload (by omega)
  have hrec := receive_overflow rest fulls (c.rbuf.length + 1) [] c.rbuf 0 0
    hfull (by simp) (by simp) (by omega) (by omega)
  simp only [List.nil_append, List.length_nil] at hrec
  unfold Run
  rw [hf]
  simp only [hwrite, hreads, hrec]

/-- C13 (amended) on a diagnostic line followed by the response `<00|00:0064`: the bytes
contain a `'<'` and `Run` returns `00:0064`. -/
theorem Run_response_witness :
    '<' ∈ exHeaderReply ∧
      (Run Open (exPort exHeaderReply) CommandFanAllGetRPM []).result =
        .ok ['0', '0', ':', '0', '0', '6', '4'] :=
  ⟨by decide,
    (Run_response Open (exPort exHeaderReply) CommandFanAllGetRPM [] [] exHeaderReply []
      Open_wbuf_length Open_rbuf_length (by decide) rfl rfl (by simp) (by decide) (by decide)
      (by decide)).1⟩

/-- C13 as stated fails twice. A response of four bytes, `<02|`, is returned whole although
its first four bytes removed leave nothing; and 4096 received bytes, which contain a `'<'`,
make `Run` panic instead of returning. -/
theorem Run_response_counterexample :
    ('<' ∈ exShortReply ∧
      (Run Open (exPort exShortReply) CommandFanAllGetRPM []).result = .ok exShortReply ∧
      TrimSpace ((exShortReply.dropWhile (fun b => b != '<')).drop 4) = [] ∧
      exShortReply ≠ []) ∧
    ('<' ∈ (List.replicate 32 (List.replicate 128 '<')).flatten ∧
      (Run Open exLongPort CommandFanAllGetRPM []).result = .panic) := by
  refine ⟨⟨by decide, by decide!, by decide, by decide⟩, ?_, ?_⟩
  · decide!
  · exact Run_overflow Open exLongPort CommandFanAllGetRPM []
      (List.replicate 32 (List.replicate 128 '<')) [] Open_wbuf_length Open_rbuf_length
      (by decide) rfl (by simp [exLongPort]) (by
        intro ch hch
        rw [(List.mem_replicate.mp hch).2]
        exact List.length_replicate _ _) (List.length_replicate _ _)

end Openfan

/-! ## All-fan RPM parser -/

namespace Openfan

theorem Split_ne_nil (sep : Char) : ∀ s : List Char, Split s sep ≠ [] := by
  intro s
  induction s with
  | nil => simp [Split]
  | cons c s ih =>
    unfold Split
    split_ifs
    · simp
    · split <;> simp

theorem Split_cons_ne (sep c : Char) (s : List Char) (h : c ≠ sep) :
    ∃ p ps, Split s sep = p :: ps ∧ Split (c :: s) sep = (c :: p) :: ps := by
  cases hs : Split s sep with
  | nil => exact absurd hs (Split_ne_nil sep s)
  | cons p ps => exact ⟨p, ps, rfl, by simp [Split, h, hs]⟩

theorem Split_no_sep (sep : Char) : ∀ s : List Char, sep ∉ s → Split s sep = [s] := by
  intro s
  induction s with
  | nil => intro _; rfl
  | cons c s ih =>
    intro h
    have hc : c ≠ sep := fun e => h (e ▸ List.mem_cons_self _ _)
    have hs : sep ∉ s := fun e => h (List.mem_cons_of_mem _ e)
    obtain ⟨p, ps, h1, h2⟩ := Split_cons_ne sep c s hc
    rw [h2]
    rw [ih hs] at h1
    injection h1 with h1 h3
    rw [← h1, ← h3]

theorem Split_append_sep (sep : Char) (rest : List Char) :
    ∀ a : List Char, sep ∉ a → Split (a ++ sep :: rest) sep = a :: Split rest sep := by
  intro a
  induction a with
  | nil => intro _; simp [Split]
  | cons c a ih =>
    intro h
    have hc : c ≠ sep := fun e => h (e ▸ List.mem_cons_self _ _)
    have hs : sep ∉ a := fun e => h (List.mem_cons_of_mem _ e)
    obtain ⟨p, ps, h1, h2⟩ := Split_cons_ne sep c (a ++ sep :: rest) hc
    rw [List.cons_append, h2]
    rw [ih hs] at h1
    injection h1 with h1 h3
    rw [← h1, ← h3]

theorem Split_length (sep : Char) :
    ∀ s : List Char, (Split s sep).length = s.count sep + 1 := by
  intro s
  induction s with
  | nil => rfl
  | cons c s ih =>
    by_cases hc : c = sep
    · subst hc
      simp [Split, ih]
    · obtain ⟨p, ps, h1, h2⟩ := Split_cons_ne sep c s hc
      rw [h2, List.count_cons_of_ne (Ne.symm hc), ← ih, h1]
      rfl

theorem Split_joinItems :
    ∀ parts : List (List Char), (∀ p ∈ parts, ';' ∉ p) →
      Split (joinItems parts) ';' = if parts = [] then [[]] else parts := by
  intro parts
  induction parts with
  | nil => intro _; rfl
  | cons p parts ih =>
    intro h
    cases parts with
    | nil => simpa [joinItems] using Split_no_sep ';' p (h p (List.mem_cons_self _ _))
    | cons q rest =>
      have h2 := ih (fun x hx => h x (List.mem_cons_of_mem _ hx))
      simp only [joinItems, reduceCtorEq, if_false] at h2 ⊢
      rw [Split_append_sep ';' _ p (h p (List.mem_cons_self _ _)), h2]

theorem digitVal_hex (c : Char) (h : isHexDigit c) :
    digitVal c = some (hexDigitValue c) ∧ hexDigitValue c < 16 ∧ c ≠ ':' ∧ c ≠ ';' := by
  have h58 : c ≠ ':' := by
    rintro rfl
    revert h; decide
  have h59 : c ≠ ';' := by
    rintro rfl
    revert h; decide
  refine ⟨?_, ?_, h58, h59⟩
  · unfold isHexDigit at h
    unfold digitVal hexDigitValue
    generalize c.toNat = n at h
    rcases h with ⟨h1, h2⟩ | ⟨h1, h2⟩ | ⟨h1, h2⟩ <;> interval_cases n <;> decide
  · unfold isHexDigit at h
    unfold hexDigitValue
    generalize c.toNat = n at h
    rcases h with ⟨h1, h2⟩ | ⟨h1, h2⟩ | ⟨h1, h2⟩ <;> interval_cases n <;> decide

theorem hexFold_ge (s : List Char) :
    ∀ n : Nat, n ≤ s.foldl (fun n c => 16 * n + hexDigitValue c) n := by
  induction s with
  | nil => intro n; exact Nat.le_refl n
  | cons c s ih =>
    intro n
    exact Nat.le_trans (by omega) (ih (16 * n + hexDigitValue c))

theorem parseDigits_hex (bitSize : Nat) (hb : bitSize ≤ 32) :
    ∀ (s : List Char) (n : Nat), (∀ c ∈ s, isHexDigit c) →
      s.foldl (fun n c => 16 * n + hexDigitValue c) n < 2 ^ bitSize →
      s.foldlM (parseDigit 16 bitSize) n =
        .ok (s.foldl (fun n c => 16 * n + hexDigitValue c) n) := by
  intro s
  induction s with
  | nil => intro n _ _; rfl
  | cons c s ih =>
    intro n hs hlt
    obtain ⟨hd, h16, _, _⟩ := digitVal_hex c (hs c (List.mem_cons_self _ _))
    have hge := hexFold_ge s (16 * n + hexDigitValue c)
    simp only [List.foldl_cons] at hlt
    have hpow : 2 ^ bitSize ≤ 2 ^ 32 := Nat.pow_le_pow_right (by decide) hb
    have hpos : 0 < 2 ^ bitSize := Nat.pow_pos (by decide)
    have h1 : ¬ (hexDigitValue c ≥ 16) := by omega
    have h2 : ¬ (n ≥ (2 ^ 64 - 1) / 16 + 1) := by
      have : (2 ^ 64 - 1) / 16 + 1 = 1152921504606846976 := by norm_num
      have : (2 : Nat) ^ 32 = 4294967296 := by norm_num
      omega
    have h3 : ¬ (n * 16 + hexDigitValue c > 2 ^ bitSize - 1) := by omega
    have hstep : parseDigit 16 bitSize n c = .ok (16 * n + hexDigitValue c) := by
      simp only [parseDigit, hd, h1, h2, h3, if_false]
      rw [Nat.mul_comm]
    rw [List.foldlM_cons, hstep]
    exact ih _ (fun x hx => hs x (List.mem_cons_of_mem _ hx)) hlt

theorem ParseUint_hex (s : List Char) (bitSize : Nat) (hb : bitSize ≤ 32)
    (hs : isHexNumber s) (hlt : hexValue s < 2 ^ bitSize) :
    ParseUint s 16 bitSize = .ok (hexValue s) := by
  unfold ParseUint
  rw [if_neg hs.1]
  exact parseDigits_hex bitSize hb s 0 hs.2 hlt

end Openfan

namespace Openfan

theorem isHexNumber_no_sep (s : List Char) (h : isHexNumber s) : ':' ∉ s ∧ ';' ∉ s :=
  ⟨fun hm => (digitVal_hex _ (h.2 _ hm)).2.2.1 rfl,
    fun hm => (digitVal_hex _ (h.2 _ hm)).2.2.2 rfl⟩

theorem rpmItem_pair (rpms : List (Fan × Nat)) (index value : List Char)
    (h : (RPMItem.pair index value).wellFormed) :
    rpmItem rpms (RPMItem.pair index value).render =
      .ok (mset rpms (hexValue index) (hexValue value)) := by
  obtain ⟨hi, hi256, hv, hv65536⟩ := h
  have hs : Split (index ++ ':' :: value) ':' = [index, value] := by
    rw [Split_append_sep ':' value index (isHexNumber_no_sep index hi).1,
      Split_no_sep ':' value (isHexNumber_no_sep value hv).1]
  have hk := ParseUint_hex index 8 (by decide) hi hi256
  have hval := ParseUint_hex value 16 (by decide) hv hv65536
  simp [rpmItem, RPMItem.render, hs, hk, hval]

theorem rpmItem_other (rpms : List (Fan × Nat)) (text : List Char)
    (h : (RPMItem.other text).wellFormed) :
    rpmItem rpms (RPMItem.other text).render = .ok rpms := by
  have hl : (Split text ':').length ≠ 2 := by
    rw [Split_length]
    have := h.2
    omega
  simp [rpmItem, RPMItem.render, hl]

theorem render_no_sep (it : RPMItem) (h : it.wellFormed) : ';' ∉ it.render := by
  cases it with
  | pair index value =>
    obtain ⟨hi, _, hv, _⟩ := h
    simp only [RPMItem.render, List.mem_append, List.mem_cons, not_or]
    exact ⟨(isHexNumber_no_sep index hi).2, by decide, (isHexNumber_no_sep value hv).2⟩
  | other text => exact h.1

theorem rpmItems_fold :
    ∀ (items : List RPMItem), (∀ it ∈ items, it.wellFormed) →
      ∀ rpms : List (Fan × Nat), ∃ m,
        (items.map RPMItem.render).foldlM rpmItem rpms = .ok m ∧
          ∀ k, mget m k = items.foldl (expectedStep k) (mget rpms k) := by
  intro items
  induction items with
  | nil => intro _ rpms; exact ⟨rpms, rfl, fun _ => rfl⟩
  | cons it items ih =>
    intro h rpms
    have hit := h it (List.mem_cons_self _ _)
    have htl := fun x hx => h x (List.mem_cons_of_mem _ hx)
    cases it with
    | pair index value =>
      obtain ⟨m, hm, hk⟩ := ih htl (mset rpms (hexValue index) (hexValue value))
      refine ⟨m, ?_, ?_⟩
      · rw [List.map_cons, List.foldlM_cons, rpmItem_pair rpms index value hit]
        exact hm
      · intro k
        rw [hk k, mget_mset]
        rfl
    | other text =>
      obtain ⟨m, hm, hk⟩ := ih htl rpms
      refine ⟨m, ?_, ?_⟩
      · rw [List.map_cons, List.foldlM_cons, rpmItem_other rpms text hit]
        exact hm
      · intro k
        rw [hk k]
        rfl

theorem parseRPMs_items (items : List RPMItem) (h : ∀ it ∈ items, it.wellFormed) :
    ∃ m, parseRPMs (joinItems (items.map RPMItem.render)) = .ok m ∧
      ∀ k, mget m k = expectedRPM items k := by
  have hsplit := Split_joinItems (items.map RPMItem.render) (by
    intro p hp
    obtain ⟨it, hit, rfl⟩ := List.mem_map.mp hp
    exact render_no_sep it (h it hit))
  unfold parseRPMs
  rw [hsplit]
  cases items with
  | nil => exact ⟨[], by simp [rpmItem, Split], fun _ => rfl⟩
  | cons it items =>
    rw [if_neg (by simp)]
    exact rpmItems_fold (it :: items) h []

/-- C15: when the payload `Run` returns is a `';'`-separated list of items, each one either
`INDEX:VALUE` (`INDEX` a hexadecimal number below 256, `VALUE` one below 65536) or a text
that does not contain exactly one `':'` (such as the empty item after a trailing `';'`),
`RPMs` returns without error a map in which every key `k` holds the `VALUE` of the last item
whose `INDEX` is `k`, and no key without such an item is present: the other items are
skipped. -/
theorem RPMs_decodes (c : Controller) (port : Port) (items : List RPMItem)
    (hitems : ∀ it ∈ items, it.wellFormed)
    (hrun : (Run c port CommandFanAllGetRPM []).result =
      .ok (joinItems (items.map RPMItem.render))) :
    ∃ m, RPMs c port = .ok m ∧ ∀ k, mget m k = expectedRPM items k := by
  obtain ⟨m, hm, hk⟩ := parseRPMs_items items hitems
  exact ⟨m, by simp only [RPMs, hrun, hm], hk⟩

end Openfan

namespace Openfan

/-- C15 on the response `<00|00:0064;0a:0FA0;x;00:01F4;`: the items are well formed, `Run`
returns their `';'`-separated list, and `RPMs` returns the map of fan 0 to 0x1F4 (the
last value of the repeated key) and fan 10 to 0xFA0. -/
theorem RPMs_decodes_witness :
    (∀ it ∈ exItems, it.wellFormed) ∧
      (Run Open (exPort exItemsReply) CommandFanAllGetRPM []).result =
        .ok (joinItems (exItems.map RPMItem.render)) ∧
      RPMs Open (exPort exItemsReply) = .ok [(0, 0x1F4), (10, 0xFA0)] ∧
      ∃ m, RPMs Open (exPort exItemsReply) = .ok m ∧ ∀ k, mget m k = expectedRPM exItems k :=
  ⟨by decide, by decide!, by decide!,
    RPMs_decodes Open (exPort exItemsReply) exItems (by decide) (by decide!)⟩

/-- C14 (amended): on the received bytes `noisy debug\r\n<00:0064\r\n` the transport strips
the diagnostic line and the four bytes `<00:`, so `Run` returns `0064`, in which the all-fan
RPM parser finds no item `INDEX:VALUE`: `RPMs` returns an empty map. On
`noisy debug\r\n<00|00:0064\r\n`, where the four-byte header `<00|` precedes the item,
`Run` returns `00:0064` and the parser decodes fan key 0x00 to value 0x64. -/
theorem RPMs_noisy_example :
    ((Run Open (exPort exNoisyReply) CommandFanAllGetRPM []).result =
        .ok ['0', '0', '6', '4'] ∧
      RPMs Open (exPort exNoisyReply) = .ok []) ∧
    ((Run Open (exPort exHeaderReply) CommandFanAllGetRPM []).result =
        .ok ['0', '0', ':', '0', '0', '6', '4'] ∧
      RPMs Open (exPort exHeaderReply) = .ok [(0x00, 0x64)]) := by
  refine ⟨⟨?_, ?_⟩, ?_, ?_⟩ <;> decide!

/-- C14 as stated fails: on the received bytes `noisy debug\r\n<00:0064\r\n`, `RPMs` returns
a map without the fan key 0x00. -/
theorem RPMs_noisy_counterexample :
    RPMs Open (exPort exNoisyReply) = .ok [] ∧ mget ([] : List (Fan × Nat)) 0x00 = none := by
  refine ⟨?_, rfl⟩
  decide!

/-- C11: `SetPWM` and `SetAllPWM` return `ErrInvalidPWM` exactly when the percent is below 0
or above 100, and exactly then no exchange with the device takes place: nothing is framed,
written or read, whatever the port would have done. -/
theorem SetPWM_invalid_iff (c : Controller) (port : Port) (f : Fan) (pwm : Int) :
    ((SetPWM c port f pwm).2 = .error .OpenfanErrInvalidPWM ↔ (pwm < 0 ∨ pwm > 100)) ∧
    ((SetPWM c port f pwm).1 = none ↔ (pwm < 0 ∨ pwm > 100)) ∧
    ((SetAllPWM c port pwm).2 = .error .OpenfanErrInvalidPWM ↔ (pwm < 0 ∨ pwm > 100)) ∧
    ((SetAllPWM c port pwm).1 = none ↔ (pwm < 0 ∨ pwm > 100)) := by
  by_cases h : pwm < 0 ∨ pwm > 100
  · simp [SetPWM, SetPWMRequest, SetAllPWM, SetAllPWMRequest, h]
  · simp only [SetPWM, SetPWMRequest, SetAllPWM, SetAllPWMRequest, h, if_false, iff_false,
      reduceCtorEq, not_false_eq_true, true_and, and_true]
    constructor
    · cases (Run c port CommandFanSetPWM
        [(f2x f).1, (f2x f).2, (f2x (toUint8 (toDevicePWM pwm))).1,
          (f2x (toUint8 (toDevicePWM pwm))).2]).result with
      | panic => simp
      | error e => simp
      | ok response =>
        simp only [SetPWMReply]
        split_ifs
        · simp
        · cases ParseUint ((Split response ':').getD 1 []) 16 8 <;> simp
    · cases (Run c port CommandFanSetAllPWM
        [(f2x (toUint8 (toDevicePWM pwm))).1, (f2x (toUint8 (toDevicePWM pwm))).2]).result with
      | panic => simp
      | error e => simp
      | ok response =>
        simp only [SetAllPWMReply]
        cases ParseUint response 16 8 <;> simp

end Openfan

/-! ## Event stream decoding -/

theorem readLoop_plain :
    ∀ (bytes : List Char), '\n' ∉ bytes → ∀ (room : Nat) (rest : List ReadResult)
      (taken : Nat) (buf : List Char), bytes.length ≤ room →
      readLoop room (delivers bytes ++ rest) taken buf 0 =
        readLoop (room - bytes.length) rest (taken + bytes.length) (buf ++ bytes) 0 := by
  intro bytes
  induction bytes with
  | nil => intro _ room rest taken buf _; simp [delivers]
  | cons b bytes ih =>
    intro h room rest taken buf hlen
    have hb : b ≠ '\n' := fun e => h (e ▸ List.mem_cons_self _ _)
    have hbs : '\n' ∉ bytes := fun e => h (List.mem_cons_of_mem _ e)
    obtain ⟨room, rfl⟩ : ∃ r, room = r + 1 := ⟨room - 1, by simp at hlen; omega⟩
    have h2 := ih hbs room rest (taken + 1) (buf ++ [b]) (by simp at hlen; omega)
    simp only [delivers] at h2
    simp only [delivers, List.map_cons, List.cons_append, readLoop, List.headD_cons,
      Option.isSome_some, if_true, Option.getD_some, hb, if_false, List.tail_cons,
      Nat.zero_ne_add_one, OfNat.zero_ne_ofNat, h2, List.length_cons, List.append_assoc,
      List.singleton_append]
    congr 1
    · omega
    · omega

theorem readLoop_two_lf (room : Nat) (rest : List ReadResult) (taken : Nat)
    (buf : List Char) :
    readLoop (room + 2) (delivers ['\n', '\n'] ++ rest) taken buf 0 =
      .ret buf none (taken + 2) := by
  simp [delivers, readLoop]

theorem readLoop_lf_panic (rest : List ReadResult) (taken : Nat) (buf : List Char) :
    readLoop 1 (delivers ['\n', '\n'] ++ rest) taken buf 0 = .panic := by
  simp [delivers, readLoop]

theorem ReadSSE_overflow (payload : List Char) (rest : List ReadResult)
    (hnolf : '\n' ∉ payload) (hlen : payload.length = 524287) :
    ReadSSE (delivers (payload ++ ['\n', '\n']) ++ rest) = .panic := by
  have h := readLoop_plain payload hnolf 524288 (delivers ['\n', '\n'] ++ rest) 0 []
    (by omega)
  have hd : delivers (payload ++ ['\n', '\n']) ++ rest =
      delivers payload ++ (delivers ['\n', '\n'] ++ rest) := by simp [delivers]
  have hroom : 524288 - payload.length = 1 := by omega
  rw [hroom] at h
  unfold ReadSSE
  rw [hd]
  exact h.trans (readLoop_lf_panic _ _ _)

/-- C16 (amended): for every payload without line feed of at most 524286 bytes (with its two
line feeds it fits in the buffer of 512 KiB), `ReadSSE` on a stream whose reads deliver the
payload and then two line feeds, one byte per read and each with a nil error (whatever the
later reads do), returns exactly the payload and a nil error, having taken
`len(payload) + 2` bytes from the stream. -/
theorem ReadSSE_frame (payload : List Char) (rest : List ReadResult)
    (hnolf : '\n' ∉ payload) (hlen : payload.length ≤ 524286) :
    ReadSSE (delivers (payload ++ ['\n', '\n']) ++ rest) =
      .ret payload none (payload.length + 2) := by
  have h := readLoop_plain payload hnolf 524288 (delivers ['\n', '\n'] ++ rest) 0 []
    (by omega)
  have hd : delivers (payload ++ ['\n', '\n']) ++ rest =
      delivers payload ++ (delivers ['\n', '\n'] ++ rest) := by simp [delivers]
  obtain ⟨room, hroom⟩ : ∃ r, 524288 - payload.length = r + 2 :=
    ⟨524286 - payload.length, by omega⟩
  rw [hroom, readLoop_two_lf] at h
  unfold ReadSSE
  rw [hd]
  simpa using h

/-- C16 on the stream `AB\n\n` followed by `C`: `ReadSSE` returns `AB`, a nil error, and has
taken four bytes. -/
theorem ReadSSE_frame_witness :
    ReadSSE (delivers (['A', 'B'] ++ ['\n', '\n']) ++ delivers ['C']) =
      .ret ['A', 'B'] none 4 :=
  ReadSSE_frame ['A', 'B'] (delivers ['C']) (by decide) (by decide)

/-- C16 as stated fails in three ways. A payload of 524287 bytes without line feed is
shorter than the 524288 bytes of the buffer, and `ReadSSE` panics on the read of the second
line feed, past the end of the buffer. On a stream that delivers `AB\n\n` with the second
line feed and `io.EOF` in the same read, `ReadSSE` returns `AB\n` and the error. On a stream
whose second read delivers no byte and no error, `ReadSSE` returns `A`, a zero byte, `B`. -/
theorem ReadSSE_frame_counterexample :
    ('\n' ∉ List.replicate 524287 'A' ∧
      (List.replicate 524287 'A').length < 512 <<< 10 ∧
      ReadSSE (delivers (List.replicate 524287 'A' ++ ['\n', '\n'])) = .panic) ∧
    ReadSSE (delivers ['A', 'B', '\n'] ++ [⟨some '\n', some ioEOF⟩]) =
      .ret ['A', 'B', '\n'] (some ioEOF) 4 ∧
    ReadSSE (delivers ['A'] ++ [⟨none, none⟩] ++ delivers ['B', '\n', '\n']) =
      .ret ['A', Char.ofNat 0, 'B'] none 4 := by
  have hnolf : '\n' ∉ List.replicate 524287 'A' := fun h =>
    absurd (List.mem_replicate.mp h).2 (by decide)
  refine ⟨⟨hnolf, ?_, ?_⟩, by decide, by decide⟩
  · rw [List.length_replicate]; decide
  · have h := ReadSSE_overflow (List.replicate 524287 'A') [] hnolf (List.length_replicate _ _)
    rw [List.append_nil] at h
    exact h

theorem readLoop_error (e : Error) (rest : List ReadResult) :
    ∀ (bytes : List Char) (room taken : Nat) (buf : List Char) (lf : Nat),
      ¬ (['\n', '\n'] <:+: bytes) → lf ≤ 1 → (lf = 1 → bytes.head? ≠ some '\n') →
      bytes.length < room →
      readLoop room (delivers bytes ++ ⟨none, some e⟩ :: rest) taken buf lf =
        .ret (buf ++ bytes) (some e) (taken + bytes.length) := by
  intro bytes
  induction bytes with
  | nil =>
    intro room taken buf lf _ _ _ hroom
    obtain ⟨room, rfl⟩ : ∃ r, room = r + 1 := ⟨room - 1, by simp at hroom; omega⟩
    simp [delivers, readLoop]
  | cons b bytes ih =>
    intro room taken buf lf hinf hlf hhead hroom
    obtain ⟨room, rfl⟩ : ∃ r, room = r + 1 := ⟨room - 1, by simp at hroom; omega⟩
    have hinf' : ¬ (['\n', '\n'] <:+: bytes) := fun h =>
      hinf (h.trans (List.suffix_cons b bytes).isInfix)
    have hroom' : bytes.length < room := by simp at hroom; omega
    by_cases hb : b = '\n'
    · subst hb
      have hlf0 : lf = 0 := by
        rcases Nat.lt_or_ge lf 1 with h | h
        · omega
        · exact absurd rfl (hhead (by omega))
      subst hlf0
      have hnext : bytes.head? ≠ some '\n' := by
        intro h
        cases bytes with
        | nil => simp at h
        | cons c bytes =>
          simp only [List.head?_cons, Option.some.injEq] at h
          subst h
          exact hinf ⟨[], bytes, by simp⟩
      have h2 := ih room (taken + 1) (buf ++ ['\n']) 1 hinf' (by omega) (fun _ => hnext) hroom'
      simp only [delivers] at h2
      simp only [delivers, List.map_cons, List.cons_append, readLoop, List.headD_cons,
        Option.isSome_some, if_true, Option.getD_some, List.tail_cons, h2, List.length_cons,
        List.append_assoc, List.singleton_append]
      simp
      omega
    · have h2 := ih room (taken + 1) (buf ++ [b]) 0 hinf' (by omega) (by simp) hroom'
      simp only [delivers] at h2
      simp only [delivers, List.map_cons, List.cons_append, readLoop, List.headD_cons,
        Option.isSome_some, if_true, Option.getD_some, hb, if_false, List.tail_cons, h2,
        List.length_cons, List.append_assoc, List.singleton_append]
      simp
      omega

/-- When the reader reports its error with no byte, after bytes that fit in the buffer and
hold no two consecutive line feeds, `ReadSSE` returns that error and exactly these bytes. -/
theorem ReadSSE_error_without_byte (bytes : List Char) (e : Error) (rest : List ReadResult)
    (hinf : ¬ (['\n', '\n'] <:+: bytes)) (hlen : bytes.length < 524288) :
    ReadSSE (delivers bytes ++ ⟨none, some e⟩ :: rest) =
      .ret bytes (some e) bytes.length := by
  have h := readLoop_error e rest bytes 524288 0 [] 0 hinf (by omega) (by omega) hlen
  simpa [ReadSSE] using h

/-- C17 on a reader that delivers `A`, then `B` together with `io.EOF` (a reader may return
its last byte and the error in the same call): no two line feeds were read, the bytes read
are `AB` and two bytes were taken from the stream, yet `ReadSSE` returns only `A` with the
error. -/
theorem ReadSSE_error_with_byte :
    ReadSSE [⟨some 'A', none⟩, ⟨some 'B', some ioEOF⟩] = .ret ['A'] (some ioEOF) 2 := by
  decide

/-! ## Control actor: when a changed PWM is applied -/

/-- C18 (amended): for a fan with an active entry whose PWM differs from the new
evaluation's, let `D` be the ramp-up duration when the new PWM is higher and the ramp-down
duration when it is lower. The entry is applied (update-eval emitted, `SetPWM` called with
the new PWM, refresh requested) if and only if `D` is not positive, or a pending record
exists for the fan and `new.EvaluedAt - pending.EvaluedAt ≥ D`. When it is not applied,
nothing is emitted or sent, a missing pending record is set to the new evaluation and an
existing one is left unchanged. -/
theorem evalFan_applied_iff (fans : List (Openfan.Fan × Fan))
    (active : List (Openfan.Fan × Evaluation)) (st : EvalState) (fid : Openfan.Fan)
    (eval sa : Evaluation) (hact : mget active fid = some sa) (hne : eval.PWM ≠ sa.PWM) :
    (((evalFan fans active st (fid, eval)).sent =
          st.sent ++ [{ name := eventUpdateEval, eval := eval }] ∧
        (evalFan fans active st (fid, eval)).calls = st.calls ++ [(fid, eval.PWM)] ∧
        (evalFan fans active st (fid, eval)).toRefresh = true) ↔
      ((if sa.PWM < eval.PWM then fanSetUp fans fid else fanSetDown fans fid) ≤ 0 ∨
        ∃ sp, mget st.pending fid = some sp ∧
          eval.EvaluedAt - sp.EvaluedAt ≥
            (if sa.PWM < eval.PWM then fanSetUp fans fid else fanSetDown fans fid))) ∧
    (¬ ((if sa.PWM < eval.PWM then fanSetUp fans fid else fanSetDown fans fid) ≤ 0 ∨
        ∃ sp, mget st.pending fid = some sp ∧
          eval.EvaluedAt - sp.EvaluedAt ≥
            (if sa.PWM < eval.PWM then fanSetUp fans fid else fanSetDown fans fid)) →
      (evalFan fans active st (fid, eval)).sent = st.sent ∧
      (evalFan fans active st (fid, eval)).calls = st.calls ∧
      (evalFan fans active st (fid, eval)).pending =
        match mget st.pending fid with
        | none => mset st.pending fid eval
        | some _ => st.pending) := by
  have hD : (if sa.PWM < eval.PWM then fanSetUp fans fid else fanSetDown fans fid) =
      (if eval.PWM - sa.PWM < 0 then fanSetDown fans fid else fanSetUp fans fid) := by
    by_cases h : sa.PWM < eval.PWM
    · have : ¬ (eval.PWM - sa.PWM < 0) := by omega
      rw [if_pos h, if_neg this]
    · have : eval.PWM - sa.PWM < 0 := by omega
      rw [if_neg h, if_pos this]
  rw [hD]
  have hcalls : st.calls ≠ st.calls ++ [(fid, eval.PWM)] := by
    intro h
    have := congrArg List.length h
    simp at this
  by_cases hd :
      (if eval.PWM - sa.PWM < 0 then fanSetDown fans fid else fanSetUp fans fid) > 0
  · have hd' : ¬ ((if eval.PWM - sa.PWM < 0 then fanSetDown fans fid
        else fanSetUp fans fid) ≤ 0) := by omega
    cases hpen : mget st.pending fid with
    | none =>
      have he : evalFan fans active st (fid, eval) =
          { st with pending := mset st.pending fid eval } := by
        simp only [evalFan, hact, hne, hd, hpen, if_true, if_false]
      rw [he]
      generalize (if eval.PWM - sa.PWM < 0 then fanSetDown fans fid else fanSetUp fans fid) = D at *
      simp [hd', hcalls, hpen]
    | some sp =>
      by_cases hw : eval.EvaluedAt - sp.EvaluedAt <
          (if eval.PWM - sa.PWM < 0 then fanSetDown fans fid else fanSetUp fans fid)
      · have he : evalFan fans active st (fid, eval) = st := by
          simp only [evalFan, hact, hne, hd, hpen, hw, if_true, if_false]
        rw [he]
        have hw' : ¬ (eval.EvaluedAt - sp.EvaluedAt ≥
            (if eval.PWM - sa.PWM < 0 then fanSetDown fans fid else fanSetUp fans fid)) := by
          omega
        generalize (if eval.PWM - sa.PWM < 0 then fanSetDown fans fid else fanSetUp fans fid) = D at *
        simp [hd', hcalls, hw', hpen]
      · have he : evalFan fans active st (fid, eval) =
            applyEval { st with pending := mdelete st.pending fid } fid eval := by
          simp only [evalFan, hact, hne, hd, hpen, hw, if_true, if_false]
        rw [he]
        have hw' : eval.EvaluedAt - sp.EvaluedAt ≥
            (if eval.PWM - sa.PWM < 0 then fanSetDown fans fid else fanSetUp fans fid) := by
          omega
        generalize (if eval.PWM - sa.PWM < 0 then fanSetDown fans fid else fanSetUp fans fid) = D at *
        simp [applyEval, hw', hpen]
  · have he : evalFan fans active st (fid, eval) = applyEval st fid eval := by
      simp only [evalFan, hact, hne, hd, if_true, if_false]
    rw [he]
    have hd' : (if eval.PWM - sa.PWM < 0 then fanSetDown fans fid
        else fanSetUp fans fid) ≤ 0 := by omega
    generalize (if eval.PWM - sa.PWM < 0 then fanSetDown fans fid else fanSetUp fans fid) = D at *
    simp [applyEval, hd']

/-- C18 (amended) on fan 0, active at PWM 50 with a ramp-up duration of 2000 ns: the entry of
PWM 60 stamped 3000, with a pending record stamped 1000, is applied. -/
theorem evalFan_applied_iff_witness :
    (evalFan exRampFans [(0, exEval 50 0)] (exBatchStart [(0, exEval 60 1000)])
      (0, exEval 60 3000)).calls = [(0, 60)] :=
  ((evalFan_applied_iff exRampFans [(0, exEval 50 0)] (exBatchStart [(0, exEval 60 1000)]) 0
    (exEval 60 3000) (exEval 50 0) (by decide!) (by decide)).1.mpr
      (Or.inr ⟨exEval 60 1000, by decide!, by decide⟩)).2.1

/-- C18 as stated fails for a negative ramp duration: fan 0, active at PWM 50, has a ramp-up
duration of -1 ns and no pending record; the entry of PWM 60 is applied although the
duration is not zero and no pending record exists. -/
theorem evalFan_applied_iff_counterexample :
    mget [(0, exEval 50 0)] 0 = some (exEval 50 0) ∧
      (exEval 60 1000).PWM ≠ (exEval 50 0).PWM ∧
      (evalFan exNegativeRampFans [(0, exEval 50 0)] (exBatchStart []) (0, exEval 60 1000)).sent =
        [{ name := eventUpdateEval, eval := exEval 60 1000 }] ∧
      (evalFan exNegativeRampFans [(0, exEval 50 0)] (exBatchStart []) (0, exEval 60 1000)).calls =
        [(0, 60)] ∧
      fanSetUp exNegativeRampFans 0 = -1 ∧
      mget (exBatchStart []).pending 0 = none := by
  decide!

/-! ## Curve shaper: the flat start and the saturation past the last point -/

theorem evalSegments_flat_start (p0 : Int) (T1 t : ℚ) (rest : List point)
    (hmono : ∀ a ∈ rest, T1 ≤ a.temperature) (hp100 : p0 ≤ 100) (ht0 : 0 ≤ t)
    (ht1 : t < T1) :
    segmentsOf (closePoints (⟨0, p0⟩ :: ⟨T1, p0⟩ :: rest)) ≠ [] ∧
      evalSegments (segmentsOf (closePoints (⟨0, p0⟩ :: ⟨T1, p0⟩ :: rest))) t = p0 := by
  obtain ⟨rest', hclose, hmono'⟩ : ∃ rest', closePoints (⟨0, p0⟩ :: ⟨T1, p0⟩ :: rest) =
      ⟨0, p0⟩ :: ⟨T1, p0⟩ :: rest' ∧ ∀ a ∈ rest', T1 ≤ a.temperature := by
    rcases closePoints_cases (⟨0, p0⟩ :: ⟨T1, p0⟩ :: rest) with h | ⟨last, hlast, _, h⟩
    · exact ⟨rest, h, hmono⟩
    · refine ⟨rest ++ [⟨last.temperature, 100⟩], by rw [h]; simp, ?_⟩
      intro a ha
      rcases List.mem_append.mp ha with ha | ha
      · exact hmono a ha
      · rw [List.mem_singleton] at ha
        subst ha
        have hmem : last ∈ (⟨0, p0⟩ : point) :: ⟨T1, p0⟩ :: rest :=
          List.mem_of_getLast?_eq_some hlast
        have hlast2 : (((⟨T1, p0⟩ : point) :: rest).getLast?) = some last := by
          rw [← hlast]; rfl
        have hmem2 : last ∈ (⟨T1, p0⟩ : point) :: rest := List.mem_of_getLast?_eq_some hlast2
        rcases List.mem_cons.mp hmem2 with hl | hl
        · rw [hl]
        · exact hmono last hl
  rw [hclose, segmentsOf_cons_cons]
  refine ⟨by simp, ?_⟩
  have hmiss : ¬ ∃ sg ∈ segmentsOf (⟨T1, p0⟩ :: rest'), sg.temperature ≤ t := by
    rintro ⟨sg, hsg, hle⟩
    obtain ⟨a, ha, hsa⟩ := segmentsOf_start_mem _ sg hsg
    rw [hsa] at hle
    rcases List.mem_cons.mp ha with ha | ha
    · rw [ha] at hle
      exact absurd hle (not_le.mpr ht1)
    · exact absurd (le_trans (hmono' a ha) hle) (not_le.mpr ht1)
  rw [evalSegments_cons_miss _ _ _ hmiss]
  have hstart : (mkSegment ⟨0, p0⟩ ⟨T1, p0⟩).temperature ≤ t := ht0
  rw [if_pos hstart, mkSegment_eval_slope _ _ (by
    show (0 : ℚ) ≠ T1
    exact ne_of_lt (lt_of_le_of_lt ht0 ht1))]
  have hflat : ((p0 : ℚ) + ((p0 : ℚ) - p0) / (T1 - 0) * (t - 0)) = (p0 : ℚ) := by
    simp
  simp only [hflat]
  have hmin : min (p0 : ℚ) 100 = (p0 : ℚ) := by
    apply min_eq_left
    exact_mod_cast hp100
  rw [hmin]
  exact truncate_intCast p0

/-- C20: for a configured fan (no fan of another curve sharing its id) and a sensor whose
anchors start with the start anchor `(0, p)` and the first configured point `(T, p)`, the
sensor being named in the first curve point with PWM `p` in `0..100`, all later thresholds
being at least `T`: a single reading of the sensor at `t` with `0 ≤ t < T` gives PWM exactly
`p` for the fan. The curve is flat between 0 degrees and the first configured point. -/
theorem Eval_flat_start (cfg : Config) (catalog : List Sensor.Temperature) (s : CurveShaper)
    (h : NewCurveShaper cfg catalog = .ok s) (now : Int) (nf : String × Fan)
    (hmem : nf ∈ cfg.FanSettings)
    (huniq : ∀ nf' ∈ cfg.FanSettings, nf'.2.ID = nf.2.ID → nf'.2.CurvePoints = nf.2.CurvePoints)
    (r : Sensor.Temperature) (p0 : Int) (T1 : ℚ) (rest : List point)
    (hpts : fanAnchors catalog nf.2 r.ID = ⟨0, p0⟩ :: ⟨T1, p0⟩ :: rest)
    (hmono : ∀ a ∈ rest, T1 ≤ a.temperature)
    (hp0 : 0 ≤ p0) (hp100 : p0 ≤ 100) (ht0 : 0 ≤ r.Temperature) (ht1 : r.Temperature < T1) :
    ∃ e, mget (s.Eval now [r]) nf.2.ID = some e ∧ e.PWM = p0 ∧ e.TemperatureID = r.ID := by
  have hsp : sensorPoints catalog nf.2.CurvePoints r.ID = ⟨0, p0⟩ :: ⟨T1, p0⟩ :: rest := by
    rw [← fanAnchors_of_ok cfg catalog s h nf hmem r.ID]
    exact hpts
  have key : sensorSegments catalog nf.2.CurvePoints r.ID ≠ [] ∧
      evalSegments (sensorSegments catalog nf.2.CurvePoints r.ID) r.Temperature = p0 := by
    unfold sensorSegments
    rw [hsp]
    exact evalSegments_flat_start p0 T1 r.Temperature rest hmono hp100 ht0 ht1
  have hev := NewCurveShaper_evaluator_of_fan cfg catalog s h nf hmem huniq r.ID key.1
  obtain ⟨e, he, hpwm, hid, _⟩ := mget_Eval_single s (NewCurveShaper_wf cfg catalog s h) now r
    nf.2.ID _ hev (by rw [key.2]; exact hp0)
  exact ⟨e, he, by rw [hpwm, key.2], hid⟩


/-- C20 on the curve `20%: {cpu: 30}`, `50%: {cpu: 60}`: the anchors of `cpu` are `(0, 20)`,
`(30, 20)`, `(60, 50)`, and a reading of 12.5 degrees, between 0 and the first threshold 30,
gives the first PWM 20. -/
theorem Eval_flat_start_witness :
    fanAnchors exCatalog { ID := 3, Label := "rear", CurvePoints := exTwoPointCurve } 1 =
        [⟨0, 20⟩, ⟨30, 20⟩, ⟨60, 50⟩] ∧
      ∃ e, mget ((shaperOf (exCfg exTwoPointCurve) exCatalog).Eval 0 [cpuAt (25 / 2)]) 3 =
          some e ∧ e.PWM = 20 ∧ e.TemperatureID = 1 :=
  ⟨by decide!,
    Eval_flat_start (exCfg exTwoPointCurve) exCatalog (shaperOf (exCfg exTwoPointCurve) exCatalog)
      rfl 0 ("fan4", { ID := 3, Label := "rear", CurvePoints := exTwoPointCurve })
      (by simp [exCfg])
      (by
        intro nf' hnf' _
        simp only [exCfg, List.mem_singleton] at hnf'
        rw [hnf'])
      (cpuAt (25 / 2)) 20 30 [⟨60, 50⟩] (by decide!)
      (by
        intro a ha
        simp only [List.mem_singleton] at ha
        rw [ha]
        norm_num)
      (by decide) (by decide) (by norm_num [cpuAt]) (by norm_num [cpuAt])⟩

theorem evalSegments_past_last (before : List point) (y : point) (t : ℚ)
    (hy : y.pwm < 100) (hty : y.temperature ≤ t) (ht2 : 2 ≤ t) :
    segmentsOf (closePoints (before ++ [y])) ≠ [] ∧
      evalSegments (segmentsOf (closePoints (before ++ [y]))) t = 100 := by
  have hclose : closePoints (before ++ [y]) = before ++ [y, ⟨y.temperature, 100⟩] := by
    unfold closePoints
    rw [List.getLast?_append, List.getLast?_singleton]
    simp [hy]
  rw [hclose, segmentsOf_append_two]
  refine ⟨by simp, ?_⟩
  rw [evalSegments_append_last _ _ _ (show (mkSegment y ⟨y.temperature, 100⟩).temperature ≤ t
    from hty), mkSegment_eval_vertical y ⟨y.temperature, 100⟩ rfl]
  have hq : ((y.pwm : ℚ)) < 100 := by exact_mod_cast hy
  have hge : (100 : ℚ) ≤ (y.pwm : ℚ) + ((((100 : Int) : ℚ)) - y.pwm) * (t - 1) := by
    have h1 : (1 : ℚ) ≤ t - 1 := by linarith
    have h2 : (0 : ℚ) ≤ (100 : ℚ) - y.pwm := by linarith
    have h3 : (100 : ℚ) - y.pwm ≤ ((100 : ℚ) - y.pwm) * (t - 1) := by nlinarith
    have h4 : (((100 : Int) : ℚ)) = (100 : ℚ) := by norm_num
    rw [h4]
    linarith
  rw [min_eq_right hge]
  exact truncate_intCast 100

/-- Past the last configured point of a sensor, of PWM below 100, a reading of at least 2
degrees gives PWM 100: the saturation the closing anchor is meant to provide. -/
theorem Eval_past_last_point (cfg : Config) (catalog : List Sensor.Temperature)
    (s : CurveShaper) (h : NewCurveShaper cfg catalog = .ok s) (now : Int) (nf : String × Fan)
    (hmem : nf ∈ cfg.FanSettings)
    (huniq : ∀ nf' ∈ cfg.FanSettings, nf'.2.ID = nf.2.ID → nf'.2.CurvePoints = nf.2.CurvePoints)
    (r : Sensor.Temperature) (before : List point) (y : point)
    (hpts : fanAnchors catalog nf.2 r.ID = before ++ [y])
    (hy : y.pwm < 100) (hty : y.temperature ≤ r.Temperature) (ht2 : 2 ≤ r.Temperature) :
    ∃ e, mget (s.Eval now [r]) nf.2.ID = some e ∧ e.PWM = 100 ∧ e.TemperatureID = r.ID := by
  have hsp : sensorPoints catalog nf.2.CurvePoints r.ID = before ++ [y] := by
    rw [← fanAnchors_of_ok cfg catalog s h nf hmem r.ID]
    exact hpts
  have key : sensorSegments catalog nf.2.CurvePoints r.ID ≠ [] ∧
      evalSegments (sensorSegments catalog nf.2.CurvePoints r.ID) r.Temperature = 100 := by
    unfold sensorSegments
    rw [hsp]
    exact evalSegments_past_last before y r.Temperature hy hty ht2
  have hev := NewCurveShaper_evaluator_of_fan cfg catalog s h nf hmem huniq r.ID key.1
  obtain ⟨e, he, hpwm, hid, _⟩ := mget_Eval_single s (NewCurveShaper_wf cfg catalog s h) now r
    nf.2.ID _ hev (by rw [key.2]; decide)
  exact ⟨e, he, by rw [hpwm, key.2], hid⟩

/-- C19 on the curve `30%: {cpu: 1}`, accepted by the configuration checks: the last (and
only) configured PWM of `cpu` is 30, its last threshold 1 degree. A reading of 1.5 degrees,
above that threshold, gives PWM 65, not 100; a reading of 2 degrees gives 100. On the curve
`30%: {cpu: 0, gpu: 0}` a reading of 1 degree, above the threshold 0, gives PWM 30. -/
theorem Eval_past_low_threshold :
    acceptedCurve exLowCurve = true ∧
      fanAnchors exCatalog { ID := 3, Label := "rear", CurvePoints := exLowCurve } 1 =
        [⟨0, 30⟩, ⟨1, 30⟩] ∧
      (mget ((shaperOf (exCfg exLowCurve) exCatalog).Eval 0 [cpuAt (3 / 2)]) 3).map
        (fun e => e.PWM) = some 65 ∧
      (mget ((shaperOf (exCfg exLowCurve) exCatalog).Eval 0 [cpuAt 2]) 3).map
        (fun e => e.PWM) = some 100 ∧
      (mget ((shaperOf (exCfg exZeroCurve) exCatalog).Eval 0 [cpuAt 1]) 3).map
        (fun e => e.PWM) = some 30 := by
  refine ⟨by decide, by decide!, by decide!, by decide!, by decide!⟩

/-! ## Curve shaper: the function of one segment -/

theorem PWMFromTempSegment_vertical (t0 p1 p2 : ℚ) :
    PWMFromTempSegment t0 p1 t0 p2 = fun t => min ((p2 - p1) * (t - 1) + p1) 100 := by
  funext t
  simp only [PWMFromTempSegment, if_true]
  congr 1
  norm_num
  ring

/-- In exact arithmetic, for `t1 ≠ t2` the function `PWMFromTempSegment(t1, p1, t2, p2)` is
`t ↦ min(p1 + (p2 - p1) * (t - t1) / (t2 - t1), 100)`; it yields `min(p1, 100)` at `t1` and
`min(p2, 100)` at `t2`. With equal temperatures `t0` it is the same function as
`PWMFromTempSegment(1, p1, 2, p2)`, and that function is non-decreasing exactly when
`p2 ≥ p1`. -/
theorem PWMFromTempSegment_exact (t1 p1 t2 p2 t0 : ℚ) (h : t1 ≠ t2) :
    (∀ t, PWMFromTempSegment t1 p1 t2 p2 t =
        min (p1 + (p2 - p1) * (t - t1) / (t2 - t1)) 100) ∧
      PWMFromTempSegment t1 p1 t2 p2 t1 = min p1 100 ∧
      PWMFromTempSegment t1 p1 t2 p2 t2 = min p2 100 ∧
      PWMFromTempSegment t0 p1 t0 p2 = PWMFromTempSegment 1 p1 2 p2 ∧
      (Monotone (PWMFromTempSegment t0 p1 t0 p2) ↔ p1 ≤ p2) := by
  have hd : t2 - t1 ≠ 0 := sub_ne_zero.mpr (Ne.symm h)
  have hform : ∀ t, PWMFromTempSegment t1 p1 t2 p2 t =
      min (p1 + (p2 - p1) * (t - t1) / (t2 - t1)) 100 := by
    intro t
    simp only [PWMFromTempSegment, h, if_false]
    congr 1
    field_simp
    ring
  refine ⟨hform, ?_, ?_, ?_, ?_⟩
  · rw [hform]
    simp
  · rw [hform]
    congr 1
    field_simp
  · have h12 : (1 : ℚ) ≠ 2 := by norm_num
    funext t
    rw [PWMFromTempSegment_vertical]
    simp only [PWMFromTempSegment, h12, if_false]
    congr 1
    norm_num
    ring
  · rw [PWMFromTempSegment_vertical]
    constructor
    · intro hmono
      by_contra hlt
      have hneg : p2 - p1 < 0 := by linarith [not_le.mp hlt]
      have hne : p2 - p1 ≠ 0 := ne_of_lt hneg
      have hx := hmono (show (100 - p1) / (p2 - p1) + 1 ≤ (100 - p1) / (p2 - p1) + 1 + 1 by
        linarith)
      have e1 : (p2 - p1) * ((100 - p1) / (p2 - p1) + 1 - 1) + p1 = 100 := by
        field_simp
      have e2 : (p2 - p1) * ((100 - p1) / (p2 - p1) + 1 + 1 - 1) + p1 = 100 + (p2 - p1) := by
        field_simp
        ring
      simp only [e1, e2] at hx
      rw [min_self, min_eq_left (by linarith)] at hx
      linarith
    · intro hle t t' htt
      apply min_le_min_right
      have : (0 : ℚ) ≤ p2 - p1 := by linarith
      nlinarith [mul_le_mul_of_nonneg_left (sub_le_sub_right htt 1) this]

/-- The exact function on the segment from 30 degrees at 20 percent to 60 degrees at 50
percent, and on the step at 40 degrees between the same values. -/
theorem PWMFromTempSegment_exact_witness :
    (∀ t, PWMFromTempSegment 30 20 60 50 t = min (20 + (50 - 20) * (t - 30) / (60 - 30)) 100) ∧
      PWMFromTempSegment 30 20 60 50 30 = min 20 100 ∧
      PWMFromTempSegment 30 20 60 50 60 = min 50 100 ∧
      PWMFromTempSegment 40 20 40 50 = PWMFromTempSegment 1 20 2 50 ∧
      (Monotone (PWMFromTempSegment 40 20 40 50) ↔ (20 : ℚ) ≤ 50) :=
  PWMFromTempSegment_exact 30 20 60 50 40 (by norm_num)

/-! ## Control actor: the refresh loop -/

theorem refreshTick_ok (rpms : List (Openfan.Fan × Nat)) (e : refresh) :
    refreshTick (.ok rpms) e =
      (some { name := eventUpdateRPMs, rpms := rpms },
        if e.until_ = 0 ∨ e.current < e.until_ then
          some { e with current := (e.current + 1) % 256 }
        else none) := rfl

/-- A descriptor with `until` 0 is sent again after every successful query, with the same
interval. -/
theorem refreshTick_unbounded (rpms : List (Openfan.Fan × Nat)) (e : refresh)
    (h : e.until_ = 0) :
    (refreshTick (.ok rpms) e).2 = some { e with current := (e.current + 1) % 256 } := by
  simp [refreshTick, h]

/-- With successful queries only, a descriptor with `current ≤ until` and `until` in
`1..255` causes `until - current + 1` ticks. -/
theorem refreshTicks_bounded :
    ∀ (k : Nat) (queries : List (Except Error (List (Openfan.Fan × Nat)))) (e : refresh),
      (∀ q ∈ queries, ∃ rpms, q = .ok rpms) → e.until_ ≠ 0 → e.until_ < 256 →
      e.current + k = e.until_ → k + 1 ≤ queries.length →
      (refreshTicks queries e).length = k + 1 ∧
        ∀ t ∈ refreshTicks queries e, ∃ rpms, t = some { name := eventUpdateRPMs, rpms := rpms } := by
  intro k
  induction k with
  | zero =>
    intro queries e hok h0 _ hk hlen
    cases queries with
    | nil => simp at hlen
    | cons q queries =>
      obtain ⟨rpms, rfl⟩ := hok q (List.mem_cons_self _ _)
      have hc : ¬ (e.until_ = 0 ∨ e.current < e.until_) := by omega
      simp only [refreshTicks, refreshTick_ok, hc, if_false]
      exact ⟨rfl, by simp⟩
  | succ k ih =>
    intro queries e hok h0 h256 hk hlen
    cases queries with
    | nil => simp at hlen
    | cons q queries =>
      obtain ⟨rpms, rfl⟩ := hok q (List.mem_cons_self _ _)
      have hc : e.until_ = 0 ∨ e.current < e.until_ := Or.inr (by omega)
      have hmod : (e.current + 1) % 256 = e.current + 1 := Nat.mod_eq_of_lt (by omega)
      have h2 := ih queries { e with current := (e.current + 1) % 256 }
        (fun q hq => hok q (List.mem_cons_of_mem _ hq)) h0 h256
        (by simp only [hmod]; omega) (by simp at hlen; omega)
      simp only [refreshTicks, refreshTick_ok, hc, if_true]
      refine ⟨by simp [h2.1], ?_⟩
      intro t ht
      rcases List.mem_cons.mp ht with rfl | ht
      · exact ⟨rpms, rfl⟩
      · exact h2.2 t ht

/-- C22 on the descriptor sent after an applied change (interval 500 ms, current 0,
until 8) with twelve successful queries: it causes 9 ticks, each a query followed by an
update-rpms event, not 8. It is still sent again by the tick that receives it with
current 7, the eighth, and dropped by the ninth, which receives it with current 8. -/
theorem refreshTicks_burst_nine :
    (refreshTicks exQueries exBurst).length = 9 ∧
      (∀ t ∈ refreshTicks exQueries exBurst,
        t = some { name := eventUpdateRPMs, rpms := [(0, 1200)] }) ∧
      (refreshTick (.ok [(0, 1200)]) { exBurst with current := 7 }).2 =
        some { exBurst with current := 8 } ∧
      (refreshTick (.ok [(0, 1200)]) { exBurst with current := 8 }).2 = none := by
  refine ⟨by decide!, by decide!, by decide!, by decide!⟩

/-- C25: when the RPM query of a tick fails, the tick emits no event and the descriptor is
not sent again, whatever its `until`: after any ticks before it, the failed tick is the last
one of that descriptor, and the later query outcomes play no part. -/
theorem refreshTicks_failed_query (err : Error) (e : refresh)
    (before after : List (Except Error (List (Openfan.Fan × Nat)))) :
    refreshTick (.error err) e = (none, none) ∧
      refreshTicks (.error err :: after) e = [none] ∧
      refreshTicks (before ++ .error err :: after) e =
        refreshTicks (before ++ [.error err]) e := by
  refine ⟨rfl, rfl, ?_⟩
  induction before generalizing e with
  | nil => rfl
  | cons q before ih =>
    simp only [List.cons_append, refreshTicks]
    cases (refreshTick q e).2 with
    | none => rfl
    | some e' => exact congrArg _ (ih e')

/-! ## Control actor: a fan without active entry -/

/-- C24: for a fan without entry in `active`, the loop body of `Controller.eval` applies the
evaluation at once, whatever the configured ramp durations and the pending records are: the
update-eval event is emitted, `SetPWM` is called with the new PWM, the batch is marked for a
refresh, and the map `pending` is unchanged. -/
theorem evalFan_no_active (fans : List (Openfan.Fan × Fan))
    (active : List (Openfan.Fan × Evaluation)) (st : EvalState) (fid : Openfan.Fan)
    (eval : Evaluation) (hact : mget active fid = none) :
    (evalFan fans active st (fid, eval)).sent =
        st.sent ++ [{ name := eventUpdateEval, eval := eval }] ∧
      (evalFan fans active st (fid, eval)).calls = st.calls ++ [(fid, eval.PWM)] ∧
      (evalFan fans active st (fid, eval)).toRefresh = true ∧
      (evalFan fans active st (fid, eval)).pending = st.pending := by
  simp [evalFan, hact, applyEval]

/-- C24 on fan 0 with ramp durations of 2000 ns and 5000 ns and a pending record, when
`active` has an entry for fan 1 only: the entry of PWM 60 is applied. -/
theorem evalFan_no_active_witness :
    (evalFan exRampFans [(1, exEval 50 0)] (exBatchStart [(0, exEval 70 1000)])
        (0, exEval 60 1500)).sent = [{ name := eventUpdateEval, eval := exEval 60 1500 }] ∧
      (evalFan exRampFans [(1, exEval 50 0)] (exBatchStart [(0, exEval 70 1000)])
        (0, exEval 60 1500)).calls = [(0, 60)] ∧
      (evalFan exRampFans [(1, exEval 50 0)] (exBatchStart [(0, exEval 70 1000)])
        (0, exEval 60 1500)).toRefresh = true ∧
      (evalFan exRampFans [(1, exEval 50 0)] (exBatchStart [(0, exEval 70 1000)])
        (0, exEval 60 1500)).pending = [(0, exEval 70 1000)] :=
  evalFan_no_active exRampFans [(1, exEval 50 0)] (exBatchStart [(0, exEval 70 1000)]) 0
    (exEval 60 1500) (by decide)

/-! ## Control actor: the update-rpms event -/

/-- The loop over the readings of an update-rpms event, for readings with distinct fans (the
keys of a map): the flag is raised exactly when the uint16 test of the source holds for some
reading, against the RPM stored before the event; every listed fan gets its entry (the zero
value when it had none) with the new RPM, the other entries are unchanged. -/
theorem updateRPM_fold :
    ∀ (rpms : List (Openfan.Fan × Nat)), (rpms.map Prod.fst).Nodup →
      ∀ (active : List (Openfan.Fan × Evaluation)) (flag : Bool),
        ((rpms.foldl updateRPM (active, flag)).2 = true ↔
          (flag = true ∨ ∃ fr ∈ rpms, ((mget active fr.1).getD Evaluation.zero).RPM ≠ 0 ∧
            (fr.2 < subUint16 ((mget active fr.1).getD Evaluation.zero).RPM 5 ∨
              fr.2 > addUint16 ((mget active fr.1).getD Evaluation.zero).RPM 5))) ∧
        (∀ fr ∈ rpms, mget (rpms.foldl updateRPM (active, flag)).1 fr.1 =
          some { (mget active fr.1).getD Evaluation.zero with RPM := fr.2 }) ∧
        (∀ f, f ∉ rpms.map Prod.fst →
          mget (rpms.foldl updateRPM (active, flag)).1 f = mget active f) := by
  intro rpms
  induction rpms with
  | nil =>
    intro _ active flag
    simp
  | cons fr rpms ih =>
    intro hnodup active flag
    rw [List.map_cons, List.nodup_cons] at hnodup
    obtain ⟨hnot, hnodup'⟩ := hnodup
    have hkeep : ∀ f, f ≠ fr.1 →
        mget (mset active fr.1
          { (mget active fr.1).getD Evaluation.zero with RPM := fr.2 }) f = mget active f := by
      intro f hf
      rw [mget_mset, if_neg (Ne.symm hf)]
    obtain ⟨h1, h2, h3⟩ := ih hnodup' (updateRPM (active, flag) fr).1 (updateRPM (active, flag) fr).2
    have hrest : ∀ x ∈ rpms, x.1 ≠ fr.1 := by
      intro x hx e
      exact hnot (e ▸ List.mem_map_of_mem Prod.fst hx)
    simp only [List.foldl_cons]
    refine ⟨?_, ?_, ?_⟩
    · rw [h1]
      simp only [updateRPM, Bool.or_eq_true, Bool.and_eq_true, decide_eq_true_eq,
        List.mem_cons, exists_eq_or_imp]
      constructor
      · rintro (⟨hf | hc⟩ | ⟨x, hx, hx1, hx2⟩)
        · exact Or.inl hf
        · exact Or.inr (Or.inl hc)
        · rw [hkeep x.1 (hrest x hx)] at hx1 hx2
          exact Or.inr (Or.inr ⟨x, hx, hx1, hx2⟩)
      · rintro (hf | hc | ⟨x, hx, hx1, hx2⟩)
        · exact Or.inl (Or.inl hf)
        · exact Or.inl (Or.inr hc)
        · refine Or.inr ⟨x, hx, ?_, ?_⟩
          · rw [hkeep x.1 (hrest x hx)]; exact hx1
          · rw [hkeep x.1 (hrest x hx)]; exact hx2
    · intro x hx
      rcases List.mem_cons.mp hx with rfl | hx
      · rw [h3 x.1 hnot]
        simp [updateRPM, mget_mset]
      · rw [h2 x hx]
        simp only [updateRPM]
        rw [hkeep x.1 (hrest x hx)]
    · intro f hf
      rw [List.map_cons, List.mem_cons, not_or] at hf
      rw [h3 f hf.2]
      simp only [updateRPM]
      exact hkeep f hf.1

/-- Away from the ends of the `uint16` range the test of the source is the distance test:
for a stored RPM between 5 and 65530 it holds exactly when the new reading differs from
it by more than 5. -/
theorem tolerance_no_wrap (stored rpm : Nat) (h5 : 5 ≤ stored) (hmax : stored ≤ 65530) :
    (rpm < subUint16 stored 5 ∨ rpm > addUint16 stored 5) ↔
      (rpm + 5 < stored ∨ stored + 5 < rpm) := by
  have h1 : subUint16 stored 5 = stored - 5 := by
    unfold subUint16
    omega
  have h2 : addUint16 stored 5 = stored + 5 := by
    unfold addUint16
    omega
  rw [h1, h2]
  omega

/-- C23 on fan 0 with a stored speed of 3 RPM and a new reading of 3 RPM: the readings do
not differ, yet the event raises the change flag, because `eval.RPM - 5` wraps around to
65534 in `uint16`; the stored RPM stays 3. A stored speed of 1200 RPM with a reading of 1203
does not raise it. -/
theorem updateRPM_wraps :
    ((mget exSlowController.active 0).map (fun e => e.RPM) = some 3 ∧
      ([(0, 3)].foldl updateRPM (exSlowController.active, false)).2 = true ∧
      (mget ([(0, 3)].foldl updateRPM (exSlowController.active, false)).1 0).map
        (fun e => e.RPM) = some 3 ∧
      subUint16 3 5 = 65534) ∧
    ([(0, 1203)].foldl updateRPM ([(0, { exEval 50 0 with RPM := 1200 })], false)).2 =
      false := by
  refine ⟨⟨by decide!, by decide!, by decide!, by decide⟩, by decide!⟩

/-! ## Control actor: the keys of the map of active entries -/

/-- One event keeps the keys of `active` equal to the ids of their entries when the
readings of an update-rpms event (distinct fans) list only fans that have an entry. -/
theorem eventLoopStep_ids (c : Controller) (e : event)
    (hinv : ∀ f ev, mget c.active f = some ev → ev.ID = f)
    (hnodup : (e.rpms.map Prod.fst).Nodup)
    (hlisted : e.name = eventUpdateRPMs → ∀ fr ∈ e.rpms, (mget c.active fr.1).isSome) :
    ∀ f ev, mget (eventLoopStep c e).1.active f = some ev → ev.ID = f := by
  intro f ev hget
  unfold eventLoopStep at hget
  split_ifs at hget with h1 h2 h3
  · simp only [mget_mset] at hget
    split_ifs at hget with hf
    · rw [← Option.some.inj hget]
      exact hf
    · exact hinv f ev hget
  · obtain ⟨_, hin, hout⟩ := updateRPM_fold e.rpms hnodup c.active false
    by_cases hf : f ∈ e.rpms.map Prod.fst
    · obtain ⟨fr, hfr, rfl⟩ := List.mem_map.mp hf
      simp only at hget
      rw [hin fr hfr] at hget
      obtain ⟨old, hold⟩ := Option.isSome_iff_exists.mp (hlisted h2 fr hfr)
      rw [hold] at hget
      rw [← Option.some.inj hget]
      exact hinv fr.1 old hold
    · simp only at hget
      rw [hout f hf] at hget
      exact hinv f ev hget
  · exact hinv f ev hget
  · exact hinv f ev hget

/-- C26 as stated fails on a run that starts from empty maps: the evaluation `Eval` returns
for fan 3 is handled in an update-eval event, then an update-rpms event brings readings of
the fans 3 and 4. Fan 3 keeps an entry of id 3; fan 4, which had no entry, gets the zero
value with its RPM: the key 4 maps to an entry whose ID is 0. -/
theorem active_key_without_entry :
    (mget (run exEmptyController exActorTrace).active 3).map (fun e => (e.ID, e.RPM)) =
        some (3, 1200) ∧
      (mget (run exEmptyController exActorTrace).active 4).map (fun e => (e.ID, e.RPM)) =
        some (0, 900) := by
  refine ⟨by decide!, by decide!⟩

theorem updateRPM_ids (rpms : List (Openfan.Fan × Nat)) :
    ∀ (acc : List (Openfan.Fan × Evaluation) × Bool),
      (∀ f ev, mget acc.1 f = some ev →
        ev.ID = f ∨ ev = { Evaluation.zero with RPM := ev.RPM }) →
      ∀ f ev, mget (rpms.foldl updateRPM acc).1 f = some ev →
        ev.ID = f ∨ ev = { Evaluation.zero with RPM := ev.RPM } := by
  induction rpms with
  | nil => intro acc h; exact h
  | cons fr rpms ih =>
    intro acc h
    apply ih
    intro f ev hget
    simp only [updateRPM, mget_mset] at hget
    split_ifs at hget with hf
    · subst hf
      rw [← Option.some.inj hget]
      cases hold : mget acc.1 fr.1 with
      | none => right; simp [Evaluation.zero]
      | some old =>
        rcases h fr.1 old hold with hid | hz
        · left; simpa using hid
        · right
          simp only [Option.getD_some]
          rw [hz]
    · exact h f ev hget

theorem step_active_ids (c : Controller) (a : Action)
    (h : ∀ f ev, mget c.active f = some ev →
      ev.ID = f ∨ ev = { Evaluation.zero with RPM := ev.RPM }) :
    ∀ f ev, mget (step c a).active f = some ev →
      ev.ID = f ∨ ev = { Evaluation.zero with RPM := ev.RPM } := by
  intro f ev hget
  cases a with
  | entry fid eval => exact h f ev hget
  | event e =>
    simp only [step, eventLoopStep] at hget
    split_ifs at hget with h1 h2 h3
    · simp only [mget_mset] at hget
      split_ifs at hget with hf
      · left
        rw [← Option.some.inj hget]
        exact hf
      · exact h f ev hget
    · exact updateRPM_ids e.rpms (c.active, false) h f ev hget
    · exact h f ev hget
    · exact h f ev hget

/-- C26 (amended): after any sequence of update-eval events, update-rpms events, other
events and entries handled by `Controller.eval`, from a state where it holds (as the empty
map `New` makes), every key `f` of `active` maps to an Evaluation whose `ID` is `f`, or to
the zero Evaluation with only its RPM set: the entry update-rpms makes for a fan it lists
before any update-eval stored one. -/
theorem run_active_ids (c0 : Controller) :
    ∀ (acts : List Action),
      (∀ f ev, mget c0.active f = some ev →
        ev.ID = f ∨ ev = { Evaluation.zero with RPM := ev.RPM }) →
      ∀ f ev, mget (run c0 acts).active f = some ev →
        ev.ID = f ∨ ev = { Evaluation.zero with RPM := ev.RPM } := by
  intro acts
  induction acts generalizing c0 with
  | nil => intro h; exact h
  | cons a acts ih =>
    intro h
    exact ih (step c0 a) (step_active_ids c0 a h)

/-- C26 (amended) on the run of `exActorTrace` from empty maps: fan 4 has the zero
Evaluation with RPM 900, fan 3 an entry of id 3. -/
theorem run_active_ids_witness :
    (mget (run exEmptyController exActorTrace).active 4 =
        some { Evaluation.zero with RPM := 900 } ∧
      ((({ Evaluation.zero with RPM := 900 } : Evaluation).ID = 4) ∨
        ({ Evaluation.zero with RPM := 900 } : Evaluation) =
          { Evaluation.zero with
            RPM := ({ Evaluation.zero with RPM := 900 } : Evaluation).RPM })) :=
  ⟨by decide!,
    run_active_ids exEmptyController exActorTrace (by intro f ev h; simp [exEmptyController, mget] at h)
      4 { Evaluation.zero with RPM := 900 } (by decide!)⟩

namespace Openfan

theorem IndexByte_not_mem (c : Char) : ∀ l : List Char, c ∉ l → IndexByte l c = -1 := by
  intro l
  induction l with
  | nil => intro _; rfl
  | cons x l ih =>
    intro h
    have hx : x ≠ c := fun e => h (e ▸ List.mem_cons_self _ _)
    have hl : c ∉ l := fun e => h (List.mem_cons_of_mem _ e)
    have e : IndexByte (x :: l) c =
        if x = c then 0 else if IndexByte l c < 0 then -1 else IndexByte l c + 1 := rfl
    rw [e, if_neg hx, ih hl]
    rfl

/-- When neither the receive buffer nor the bytes the device sends in one short read hold a
`'<'`, the index of the response marker is -1 and `Run` panics. -/
theorem Run_no_marker (c : Controller) (port : Port) (command : Command)
    (payload short : List Char) (rest : List (Except Error (List Char)))
    (hw : c.wbuf.length = 128) (hr : c.rbuf.length = 4096) (hN : payload.length ≤ 123)
    (hwrite : port.writeErr = none) (hreads : port.reads = .ok short :: rest)
    (hshort : short.length < 128) (hdata : '<' ∉ short) (hbuf : '<' ∉ c.rbuf) :
    (Run c port command payload).result = .panic ∧
      IndexByte (Run c port command payload).rbuf '<' = -1 := by
  obtain ⟨w, hf, _⟩ := frame_eq c.wbuf command payload (by omega)
  have hrec := receive_chunks short rest hshort [] (c.rbuf.length + 1) [] c.rbuf 0 0
    (by simp) (by simp) (by simp) (by simp; omega) (by simp)
  simp only [List.nil_append, List.length_nil, Nat.zero_add, List.flatten_nil] at hrec
  have hnot : '<' ∉ short ++ c.rbuf.drop short.length := by
    intro h
    rcases List.mem_append.mp h with h | h
    · exact hdata h
    · exact hbuf (List.mem_of_mem_drop h)
  have hidx := IndexByte_not_mem '<' _ hnot
  have hrun : Run c port command payload =
      ⟨some ('>' :: (f2x command).1 :: (f2x command).2 :: (payload ++ ['\r', '\n'])), w,
        short ++ c.rbuf.drop short.length,
        extract (short ++ c.rbuf.drop short.length) short.length⟩ := by
    unfold Run
    rw [hf]
    simp only [List.map_cons, List.map_nil, List.cons_append, List.nil_append] at hrec
    simp only [hwrite, hreads, hrec]
  rw [hrun]
  refine ⟨?_, hidx⟩
  simp only [extract, CommResponseCharacter, hidx]
  simp

theorem Open_rbuf_no_marker : '<' ∉ Open.rbuf := fun h =>
  absurd (List.mem_replicate.mp h).2 (by decide)

/-- C27 fails in three ways. When the device stays silent (the read times out with no
byte) or sends bytes without `'<'`, the fresh buffer holds no `'<'`: the index is -1 and
`Run` panics on the slice `rbuf[:n]`. When an earlier exchange left a `'<'` at index 13 and
the device now sends six bytes without `'<'`, the index found is 13, above `l = 6`, and `Run`
panics on the slice `rbuf[n:l]`. -/
theorem Run_marker_out_of_range :
    ((Run Open (exPort []) CommandFanAllGetRPM []).result = .panic ∧
      IndexByte (Run Open (exPort []) CommandFanAllGetRPM []).rbuf '<' = -1) ∧
    ((Run Open (exPort exNoMarkerReply) CommandFanAllGetRPM []).result = .panic ∧
      IndexByte (Run Open (exPort exNoMarkerReply) CommandFanAllGetRPM []).rbuf '<' = -1) ∧
    ((Run Open (exPort exHeaderReply) CommandFanAllGetRPM []).result =
        .ok ['0', '0', ':', '0', '0', '6', '4'] ∧
      (Run exAfterFirst (exPort exLateReply) CommandFanAllGetRPM []).result = .panic ∧
      IndexByte (Run exAfterFirst (exPort exLateReply) CommandFanAllGetRPM []).rbuf '<' = 13 ∧
      exLateReply.length = 6) := by
  refine ⟨?_, ?_, by decide!, by decide!, by decide!, by decide⟩
  · exact Run_no_marker Open (exPort []) CommandFanAllGetRPM [] [] [] Open_wbuf_length
      Open_rbuf_length (by decide) rfl rfl (by decide) (by decide) Open_rbuf_no_marker
  · exact Run_no_marker Open (exPort exNoMarkerReply) CommandFanAllGetRPM [] exNoMarkerReply []
      Open_wbuf_length Open_rbuf_length (by decide) rfl rfl (by decide) (by decide)
      Open_rbuf_no_marker

end Openfan

/-! ## `float64`: rounding -/

theorem log2Fuel_eq_log : ∀ (fuel n : Nat), n ≤ fuel → log2Fuel fuel n = Nat.log 2 n := by
  intro fuel
  induction fuel with
  | zero =>
    intro n hn
    have : n = 0 := by omega
    subst this
    simp [log2Fuel]
  | succ fuel ih =>
    intro n hn
    unfold log2Fuel
    by_cases h2 : n < 2
    · rw [if_pos h2, Nat.log_of_lt h2]
    · rw [if_neg h2, ih (n / 2) (by omega)]
      exact (Nat.log_of_one_lt_of_le (by norm_num) (by omega)).symm

theorem clog_two_eq_log (n : Nat) (hn : 2 ≤ n) : Nat.clog 2 n = Nat.log 2 (n - 1) + 1 := by
  apply eq_of_forall_ge_iff
  intro k
  rw [← Nat.le_pow_iff_clog_le (by norm_num), Nat.succ_le_iff,
    ← Nat.lt_pow_iff_log_lt (by norm_num) (by omega)]
  omega

/-- The exponent of a positive rational is its logarithm in base 2, rounded down. -/
theorem exponent_eq_log (q : ℚ) (hq : 0 < q) : exponent q = Int.log 2 q := by
  unfold exponent
  by_cases h1 : 1 ≤ q
  · rw [if_pos h1, Int.log_of_one_le_right 2 h1, log2Fuel_eq_log _ _ (le_refl _)]
  · have hlt : q < 1 := not_le.mp h1
    have hinv : 1 < q⁻¹ := (one_lt_inv₀ hq).mpr hlt
    have hceil : 2 ≤ ⌈q⁻¹⌉₊ := by
      have : 1 < ⌈q⁻¹⌉₊ := Nat.lt_ceil.mpr (by exact_mod_cast hinv)
      omega
    rw [if_neg h1, Int.log_of_right_le_one 2 (le_of_lt hlt),
      log2Fuel_eq_log _ _ (Nat.sub_le _ _), clog_two_eq_log _ hceil]
    push_cast
    rfl

/-- The rounding to `float64` in terms of the logarithm in base 2. -/
theorem roundF64_eq_log (x : ℚ) :
    roundF64 x = if x = 0 then 0
      else (roundHalfEven (x / 2 ^ (Int.log 2 |x| - 52)) : ℚ) * 2 ^ (Int.log 2 |x| - 52) := by
  unfold roundF64
  by_cases hx : x = 0
  · rw [if_pos hx, if_pos hx]
  · rw [if_neg hx, if_neg hx, exponent_eq_log _ (abs_pos.mpr hx)]

theorem roundHalfEven_floor_le (q : ℚ) : ⌊q⌋ ≤ roundHalfEven q := by
  unfold roundHalfEven
  split_ifs <;> omega

theorem roundHalfEven_le_floor_succ (q : ℚ) : roundHalfEven q ≤ ⌊q⌋ + 1 := by
  unfold roundHalfEven
  split_ifs <;> omega

theorem roundHalfEven_intCast (n : Int) : roundHalfEven (n : ℚ) = n := by
  simp [roundHalfEven]

theorem roundHalfEven_mono {q q' : ℚ} (h : q ≤ q') : roundHalfEven q ≤ roundHalfEven q' := by
  have hf : ⌊q⌋ ≤ ⌊q'⌋ := Int.floor_mono h
  rcases lt_or_eq_of_le hf with hlt | heq
  · calc roundHalfEven q ≤ ⌊q⌋ + 1 := roundHalfEven_le_floor_succ q
      _ ≤ ⌊q'⌋ := hlt
      _ ≤ roundHalfEven q' := roundHalfEven_floor_le q'
  · have hfr : Int.fract q ≤ Int.fract q' := by
      unfold Int.fract
      rw [heq]
      linarith
    unfold roundHalfEven
    rw [heq]
    split_ifs <;> first | omega | (exfalso; linarith)

theorem roundHalfEven_error (q : ℚ) : |(roundHalfEven q : ℚ) - q| ≤ 1 / 2 := by
  have h0 : 0 ≤ Int.fract q := Int.fract_nonneg q
  have h1 : Int.fract q < 1 := Int.fract_lt_one q
  have hq : q = ⌊q⌋ + Int.fract q := (Int.floor_add_fract q).symm
  rw [abs_le]
  unfold roundHalfEven
  split_ifs <;> constructor <;> push_cast <;> linarith

theorem roundF64_zero : roundF64 0 = 0 := by simp [roundF64_eq_log]

theorem two_zpow_pos (k : Int) : (0 : ℚ) < 2 ^ k := zpow_pos (by norm_num) k

theorem log2_le (x : ℚ) (hx : x ≠ 0) : (2 : ℚ) ^ Int.log 2 |x| ≤ |x| := by
  have := Int.zpow_log_le_self (b := 2) (r := |x|) (by norm_num) (abs_pos.mpr hx)
  simpa using this

theorem lt_log2_succ (x : ℚ) : |x| < (2 : ℚ) ^ (Int.log 2 |x| + 1) := by
  have := Int.lt_zpow_succ_log_self (b := 2) (by norm_num) |x|
  simpa using this

/-- The scaled magnitude lies between `2 ^ 52` and `2 ^ 53`. -/
theorem scaled_bounds (x : ℚ) (hx : x ≠ 0) :
    (2 : ℚ) ^ (52 : Int) ≤ |x| / 2 ^ (Int.log 2 |x| - 52) ∧
      |x| / 2 ^ (Int.log 2 |x| - 52) < (2 : ℚ) ^ (53 : Int) := by
  have hu := two_zpow_pos (Int.log 2 |x| - 52)
  constructor
  · rw [le_div_iff₀ hu, ← zpow_add₀ (by norm_num : (2 : ℚ) ≠ 0)]
    have : (52 : Int) + (Int.log 2 |x| - 52) = Int.log 2 |x| := by ring
    rw [this]
    exact log2_le x hx
  · rw [div_lt_iff₀ hu, ← zpow_add₀ (by norm_num : (2 : ℚ) ≠ 0)]
    have : (53 : Int) + (Int.log 2 |x| - 52) = Int.log 2 |x| + 1 := by ring
    rw [this]
    exact lt_log2_succ x

theorem roundF64_pos_bounds (x : ℚ) (hx : 0 < x) :
    (2 : ℚ) ^ Int.log 2 |x| ≤ roundF64 x ∧ roundF64 x ≤ (2 : ℚ) ^ (Int.log 2 |x| + 1) := by
  have hne : x ≠ 0 := ne_of_gt hx
  have hu := two_zpow_pos (Int.log 2 |x| - 52)
  obtain ⟨h1, h2⟩ := scaled_bounds x hne
  rw [abs_of_pos hx] at h1 h2
  have e52 : ((2 : ℚ) ^ (52 : Int)) = (((2 : Int) ^ 52 : Int) : ℚ) := by norm_num
  have e53 : ((2 : ℚ) ^ (53 : Int)) = (((2 : Int) ^ 53 : Int) : ℚ) := by norm_num
  have r1 : ((2 : Int) ^ 52 : Int) ≤ roundHalfEven (x / 2 ^ (Int.log 2 x - 52)) := by
    have := roundHalfEven_mono h1
    rwa [e52, roundHalfEven_intCast] at this
  have r2 : roundHalfEven (x / 2 ^ (Int.log 2 x - 52)) ≤ ((2 : Int) ^ 53 : Int) := by
    have := roundHalfEven_mono (le_of_lt h2)
    rwa [e53, roundHalfEven_intCast] at this
  have r1q : ((2 : ℚ) ^ (52 : Int)) ≤ (roundHalfEven (x / 2 ^ (Int.log 2 x - 52)) : ℚ) := by
    rw [e52]; exact_mod_cast r1
  have r2q : (roundHalfEven (x / 2 ^ (Int.log 2 x - 52)) : ℚ) ≤ ((2 : ℚ) ^ (53 : Int)) := by
    rw [e53]; exact_mod_cast r2
  rw [abs_of_pos hx] at hu ⊢
  simp only [roundF64_eq_log, hne, if_false, abs_of_pos hx]
  constructor
  · have : (2 : ℚ) ^ Int.log 2 x = 2 ^ (52 : Int) * 2 ^ (Int.log 2 x - 52) := by
      rw [← zpow_add₀ (by norm_num : (2 : ℚ) ≠ 0)]; congr 1; ring
    rw [this]
    exact mul_le_mul_of_nonneg_right r1q (le_of_lt hu)
  · have : (2 : ℚ) ^ (Int.log 2 x + 1) = 2 ^ (53 : Int) * 2 ^ (Int.log 2 x - 52) := by
      rw [← zpow_add₀ (by norm_num : (2 : ℚ) ≠ 0)]; congr 1; ring
    rw [this]
    exact mul_le_mul_of_nonneg_right r2q (le_of_lt hu)

theorem roundF64_neg_bounds (x : ℚ) (hx : x < 0) :
    -(2 : ℚ) ^ (Int.log 2 |x| + 1) ≤ roundF64 x ∧ roundF64 x ≤ -(2 : ℚ) ^ Int.log 2 |x| := by
  have hne : x ≠ 0 := ne_of_lt hx
  have hu := two_zpow_pos (Int.log 2 |x| - 52)
  obtain ⟨h1, h2⟩ := scaled_bounds x hne
  have hq : x / 2 ^ (Int.log 2 |x| - 52) = -(|x| / 2 ^ (Int.log 2 |x| - 52)) := by
    rw [abs_of_neg hx]; ring
  have e52 : (-(2 : ℚ) ^ (52 : Int)) = (((-(2 : Int) ^ 52 : Int)) : ℚ) := by norm_num
  have e53 : (-(2 : ℚ) ^ (53 : Int)) = (((-(2 : Int) ^ 53 : Int)) : ℚ) := by norm_num
  have r1 : roundHalfEven (x / 2 ^ (Int.log 2 |x| - 52)) ≤ (-(2 : Int) ^ 52 : Int) := by
    have : x / 2 ^ (Int.log 2 |x| - 52) ≤ -(2 : ℚ) ^ (52 : Int) := by rw [hq]; linarith
    have := roundHalfEven_mono this
    rwa [e52, roundHalfEven_intCast] at this
  have r2 : (-(2 : Int) ^ 53 : Int) ≤ roundHalfEven (x / 2 ^ (Int.log 2 |x| - 52)) := by
    have : -(2 : ℚ) ^ (53 : Int) ≤ x / 2 ^ (Int.log 2 |x| - 52) := by rw [hq]; linarith
    have := roundHalfEven_mono this
    rwa [e53, roundHalfEven_intCast] at this
  have r1q : (roundHalfEven (x / 2 ^ (Int.log 2 |x| - 52)) : ℚ) ≤ -(2 : ℚ) ^ (52 : Int) := by
    rw [e52]; exact_mod_cast r1
  have r2q : -(2 : ℚ) ^ (53 : Int) ≤ (roundHalfEven (x / 2 ^ (Int.log 2 |x| - 52)) : ℚ) := by
    rw [e53]; exact_mod_cast r2
  simp only [roundF64_eq_log, hne, if_false]
  constructor
  · have : (2 : ℚ) ^ (Int.log 2 |x| + 1) = 2 ^ (53 : Int) * 2 ^ (Int.log 2 |x| - 52) := by
      rw [← zpow_add₀ (by norm_num : (2 : ℚ) ≠ 0)]; congr 1; ring
    rw [this, ← neg_mul]
    exact mul_le_mul_of_nonneg_right r2q (le_of_lt hu)
  · have : (2 : ℚ) ^ Int.log 2 |x| = 2 ^ (52 : Int) * 2 ^ (Int.log 2 |x| - 52) := by
      rw [← zpow_add₀ (by norm_num : (2 : ℚ) ≠ 0)]; congr 1; ring
    rw [this, ← neg_mul]
    exact mul_le_mul_of_nonneg_right r1q (le_of_lt hu)


theorem roundF64_pos (x : ℚ) (hx : 0 < x) : 0 < roundF64 x :=
  lt_of_lt_of_le (two_zpow_pos _) (roundF64_pos_bounds x hx).1

theorem roundF64_neg (x : ℚ) (hx : x < 0) : roundF64 x < 0 :=
  lt_of_le_of_lt (roundF64_neg_bounds x hx).2 (neg_lt_zero.mpr (two_zpow_pos _))

theorem roundF64_nonneg (x : ℚ) (hx : 0 ≤ x) : 0 ≤ roundF64 x := by
  rcases eq_or_lt_of_le hx with h | h
  · rw [← h, roundF64_zero]
  · exact le_of_lt (roundF64_pos x h)

theorem roundF64_nonpos (x : ℚ) (hx : x ≤ 0) : roundF64 x ≤ 0 := by
  rcases eq_or_lt_of_le hx with h | h
  · rw [h, roundF64_zero]
  · exact le_of_lt (roundF64_neg x h)

theorem two_zpow_le {a b : Int} (h : a ≤ b) : (2 : ℚ) ^ a ≤ 2 ^ b :=
  zpow_le_zpow_right₀ (by norm_num) h

/-- Rounding to `float64` is monotone. -/
theorem roundF64_mono {x y : ℚ} (h : x ≤ y) : roundF64 x ≤ roundF64 y := by
  rcases lt_trichotomy x 0 with hx | hx | hx
  · rcases lt_or_le y 0 with hy | hy
    · -- both negative
      have hlog : Int.log 2 |y| ≤ Int.log 2 |x| := by
        apply Int.log_mono_right (abs_pos.mpr (ne_of_lt hy))
        rw [abs_of_neg hx, abs_of_neg hy]
        linarith
      rcases lt_or_eq_of_le hlog with hl | hl
      · calc roundF64 x ≤ -(2 : ℚ) ^ Int.log 2 |x| := (roundF64_neg_bounds x hx).2
          _ ≤ -(2 : ℚ) ^ (Int.log 2 |y| + 1) := neg_le_neg (two_zpow_le (by omega))
          _ ≤ roundF64 y := (roundF64_neg_bounds y hy).1
      · simp only [roundF64_eq_log, ne_of_lt hx, ne_of_lt hy, if_false, hl]
        have hu := two_zpow_pos (Int.log 2 |x| - 52)
        apply mul_le_mul_of_nonneg_right _ (le_of_lt hu)
        exact_mod_cast roundHalfEven_mono (div_le_div_of_nonneg_right h (le_of_lt hu))
    · exact le_trans (le_of_lt (roundF64_neg x hx)) (roundF64_nonneg y hy)
  · rw [hx, roundF64_zero]
    exact roundF64_nonneg y (hx ▸ h)
  · have hy : 0 < y := lt_of_lt_of_le hx h
    have hlog : Int.log 2 |x| ≤ Int.log 2 |y| := by
      apply Int.log_mono_right (abs_pos.mpr (ne_of_gt hx))
      rw [abs_of_pos hx, abs_of_pos hy]
      exact h
    rcases lt_or_eq_of_le hlog with hl | hl
    · calc roundF64 x ≤ (2 : ℚ) ^ (Int.log 2 |x| + 1) := (roundF64_pos_bounds x hx).2
        _ ≤ (2 : ℚ) ^ Int.log 2 |y| := two_zpow_le (by omega)
        _ ≤ roundF64 y := (roundF64_pos_bounds y hy).1
    · simp only [roundF64_eq_log, ne_of_gt hx, ne_of_gt hy, if_false, hl]
      have hu := two_zpow_pos (Int.log 2 |y| - 52)
      apply mul_le_mul_of_nonneg_right _ (le_of_lt hu)
      exact_mod_cast roundHalfEven_mono (div_le_div_of_nonneg_right h (le_of_lt hu))

/-- The error of a rounding is at most half a unit in the last place. -/
theorem roundF64_error (x : ℚ) : |roundF64 x - x| ≤ 2 ^ (Int.log 2 |x| - 53) := by
  by_cases hx : x = 0
  · rw [hx, roundF64_zero, sub_zero, abs_zero]
    exact le_of_lt (two_zpow_pos _)
  · have hu := two_zpow_pos (Int.log 2 |x| - 52)
    have herr := roundHalfEven_error (x / 2 ^ (Int.log 2 |x| - 52))
    have hsplit : roundF64 x - x =
        ((roundHalfEven (x / 2 ^ (Int.log 2 |x| - 52)) : ℚ) - x / 2 ^ (Int.log 2 |x| - 52)) *
          2 ^ (Int.log 2 |x| - 52) := by
      simp only [roundF64_eq_log, hx, if_false]
      field_simp
    have hhalf : (2 : ℚ) ^ (Int.log 2 |x| - 53) = 1 / 2 * 2 ^ (Int.log 2 |x| - 52) := by
      have : Int.log 2 |x| - 53 = (-1) + (Int.log 2 |x| - 52) := by ring
      rw [this, zpow_add₀ (by norm_num : (2 : ℚ) ≠ 0)]
      norm_num
    rw [hsplit, abs_mul, abs_of_pos hu, hhalf]
    exact mul_le_mul_of_nonneg_right herr (le_of_lt hu)

/-- A value `m * 2 ^ j` with an integer `m` of at most 53 bits is a `float64` (in the
unbounded range of the model): rounding leaves it unchanged. -/
theorem roundF64_of_scaled (m j : Int) (hm : |m| ≤ 2 ^ 53) :
    roundF64 ((m : ℚ) * 2 ^ j) = (m : ℚ) * 2 ^ j := by
  by_cases hm0 : m = 0
  · simp [hm0, roundF64_zero]
  have h2 : (2 : ℚ) ≠ 0 := by norm_num
  have hx : (m : ℚ) * 2 ^ j ≠ 0 := mul_ne_zero (by exact_mod_cast hm0) (ne_of_gt (two_zpow_pos j))
  have habs : |(m : ℚ) * 2 ^ j| = (|m| : Int) * 2 ^ j := by
    rw [abs_mul, abs_of_pos (two_zpow_pos j)]
    push_cast
    rfl
  have hmq : ((|m| : Int) : ℚ) ≤ 2 ^ (53 : Int) := by
    calc ((|m| : Int) : ℚ) ≤ (((2 : Int) ^ 53 : Int) : ℚ) := by exact_mod_cast hm
      _ = 2 ^ (53 : Int) := by norm_num
  -- the exponent is at most 53 + j
  have hE : Int.log 2 |(m : ℚ) * 2 ^ j| ≤ 53 + j := by
    have hle := log2_le _ hx
    have hub : |(m : ℚ) * 2 ^ j| ≤ (2 : ℚ) ^ (53 + j) := by
      rw [habs, zpow_add₀ h2]
      exact mul_le_mul_of_nonneg_right hmq (le_of_lt (two_zpow_pos j))
    exact (zpow_le_zpow_iff_right₀ (by norm_num : (1 : ℚ) < 2)).mp (le_trans hle hub)
  set E := Int.log 2 |(m : ℚ) * 2 ^ j| with hEdef
  have hint : ∃ N : Int, (m : ℚ) * 2 ^ j / 2 ^ (E - 52) = (N : ℚ) := by
    rcases lt_or_eq_of_le hE with hlt | heq
    · refine ⟨m * 2 ^ (j - (E - 52)).toNat, ?_⟩
      have hk : ((j - (E - 52)).toNat : Int) = j - (E - 52) := Int.toNat_of_nonneg (by omega)
      push_cast
      rw [mul_div_assoc, ← zpow_sub₀ h2]
      congr 1
      rw [← zpow_natCast, hk]
    · -- |m| = 2 ^ 53
      have hle := log2_le _ hx
      rw [← hEdef, heq, habs, zpow_add₀ h2] at hle
      have hge : (2 : ℚ) ^ (53 : Int) ≤ ((|m| : Int) : ℚ) :=
        le_of_mul_le_mul_right hle (two_zpow_pos j)
      have hmeq : ((|m| : Int) : ℚ) = 2 ^ (53 : Int) := le_antisymm hmq hge
      have hmabs : |m| = 2 ^ 53 := by
        have : ((|m| : Int) : ℚ) = (((2 : Int) ^ 53 : Int) : ℚ) := by rw [hmeq]; norm_num
        exact_mod_cast this
      have hEj : E - 52 = j + 1 := by omega
      rcases abs_eq (by norm_num : (0 : Int) ≤ 2 ^ 53) |>.mp hmabs with h | h
      · refine ⟨2 ^ 52, ?_⟩
        rw [hEj, h, zpow_add₀ h2]
        field_simp
        ring
      · refine ⟨-2 ^ 52, ?_⟩
        rw [hEj, h, zpow_add₀ h2]
        field_simp
        ring
  obtain ⟨N, hN⟩ := hint
  simp only [roundF64_eq_log, hx, if_false]
  rw [← hEdef, hN, roundHalfEven_intCast, ← hN]
  field_simp

theorem roundF64_intCast (n : Int) (hn : |n| ≤ 2 ^ 53) : roundF64 (n : ℚ) = n := by
  have := roundF64_of_scaled n 0 hn
  simpa using this

theorem roundF64_two_zpow (k : Int) : roundF64 ((2 : ℚ) ^ k) = 2 ^ k := by
  have := roundF64_of_scaled 1 k (by norm_num)
  simpa using this

theorem roundF64_neg_two_zpow (k : Int) : roundF64 (-(2 : ℚ) ^ k) = -2 ^ k := by
  have := roundF64_of_scaled (-1) k (by norm_num)
  simpa using this

/-- The result of a rounding is `m * 2 ^ j` with an integer `m` of at most 53 bits. -/
theorem roundF64_scaled (x : ℚ) :
    ∃ m : Int, |m| ≤ 2 ^ 53 ∧ roundF64 x = (m : ℚ) * 2 ^ (Int.log 2 |x| - 52) := by
  by_cases hx : x = 0
  · exact ⟨0, by norm_num, by simp [hx, roundF64_zero]⟩
  · refine ⟨roundHalfEven (x / 2 ^ (Int.log 2 |x| - 52)), ?_, by simp only [roundF64_eq_log, hx, if_false]⟩
    obtain ⟨h1, h2⟩ := scaled_bounds x hx
    have hu := two_zpow_pos (Int.log 2 |x| - 52)
    have e53 : ((2 : ℚ) ^ (53 : Int)) = (((2 : Int) ^ 53 : Int) : ℚ) := by norm_num
    have en53 : (-(2 : ℚ) ^ (53 : Int)) = (((-(2 : Int) ^ 53 : Int)) : ℚ) := by norm_num
    have hq : |x / 2 ^ (Int.log 2 |x| - 52)| = |x| / 2 ^ (Int.log 2 |x| - 52) := by
      rw [abs_div, abs_of_pos hu]
    have hqle := (abs_le.mp (le_of_lt (hq ▸ h2)))
    rw [abs_le]
    constructor
    · have := roundHalfEven_mono hqle.1
      rwa [en53, roundHalfEven_intCast] at this
    · have := roundHalfEven_mono hqle.2
      rwa [e53, roundHalfEven_intCast] at this

/-- Rounding twice is rounding once. -/
theorem roundF64_idem (x : ℚ) : roundF64 (roundF64 x) = roundF64 x := by
  obtain ⟨m, hm, h⟩ := roundF64_scaled x
  rw [h]
  exact roundF64_of_scaled m _ hm

/-- The rounding of `x` from its exponent: with `2 ^ e ≤ |x| < 2 ^ (e + 1)`, the nearest
multiple of `2 ^ (e - 52)`. -/
theorem roundF64_of_log (x : ℚ) (e : Int) (h1 : (2 : ℚ) ^ e ≤ |x|) (h2 : |x| < 2 ^ (e + 1)) :
    roundF64 x = (roundHalfEven (x / 2 ^ (e - 52)) : ℚ) * 2 ^ (e - 52) := by
  have hpos : 0 < |x| := lt_of_lt_of_le (two_zpow_pos e) h1
  have hx : x ≠ 0 := abs_pos.mp hpos
  have hlog : Int.log 2 |x| = e := by
    apply le_antisymm
    · have := (Int.lt_zpow_iff_log_lt (b := 2) (by norm_num) hpos).mp h2
      omega
    · exact (Int.zpow_le_iff_le_log (b := 2) (by norm_num) hpos).mp h1
  rw [roundF64_eq_log]
  rw [if_neg hx, hlog]

/-- For `n` from 1 to 100 and `k` with `2 ^ (k - 1) < n ≤ 2 ^ k`: the exponents of
`n - 2 ^ (k - 54)` and `n + 2 ^ (k - 54)`, and their nearest multiples of the unit. -/
theorem roundF64_near_percent_nat :
    ∀ n ∈ List.range' 1 100, ∀ k ∈ List.range 8, 2 ^ k < 2 * n → 2 * n ≤ 2 ^ (k + 1) →
      (2 : ℚ) ^ ((k : Int) - 1) ≤ |(n : ℚ) - 2 ^ ((k : Int) - 54)| ∧
      |(n : ℚ) - 2 ^ ((k : Int) - 54)| < 2 ^ ((k : Int) - 1 + 1) ∧
      (roundHalfEven (((n : ℚ) - 2 ^ ((k : Int) - 54)) / 2 ^ ((k : Int) - 1 - 52)) : ℚ) *
        2 ^ ((k : Int) - 1 - 52) = n ∧
      (2 : ℚ) ^ (if n = 2 ^ k then (k : Int) else (k : Int) - 1) ≤
        |(n : ℚ) + 2 ^ ((k : Int) - 54)| ∧
      |(n : ℚ) + 2 ^ ((k : Int) - 54)| <
        2 ^ ((if n = 2 ^ k then (k : Int) else (k : Int) - 1) + 1) ∧
      (roundHalfEven (((n : ℚ) + 2 ^ ((k : Int) - 54)) /
          2 ^ ((if n = 2 ^ k then (k : Int) else (k : Int) - 1) - 52)) : ℚ) *
        2 ^ ((if n = 2 ^ k then (k : Int) else (k : Int) - 1) - 52) = n := by
  decide!

/-- Around each integer `p` from 1 to 100, with `p ≤ 2 ^ k`: the values `p - 2 ^ (k - 54)`
and `p + 2 ^ (k - 54)` both round to `p`. -/
theorem roundF64_near_percent (p : Int) (h1 : 1 ≤ p) (h100 : p ≤ 100) :
    ∃ k : Int, (p : ℚ) ≤ 2 ^ k ∧ roundF64 ((p : ℚ) - 2 ^ (k - 54)) = p ∧
      roundF64 ((p : ℚ) + 2 ^ (k - 54)) = p := by
  obtain ⟨n, rfl⟩ : ∃ n : Nat, p = n := ⟨p.toNat, (Int.toNat_of_nonneg (by omega)).symm⟩
  have hn1 : 1 ≤ n := by omega
  have hn100 : n ≤ 100 := by omega
  have hmem : n ∈ List.range' 1 100 := by
    rw [List.mem_range']
    exact ⟨n - 1, by omega, by omega⟩
  have hk : ∃ k ∈ List.range 8, 2 ^ k < 2 * n ∧ 2 * n ≤ 2 ^ (k + 1) := by
    clear hmem
    interval_cases n <;> decide
  obtain ⟨k, hkmem, hlo, hhi⟩ := hk
  obtain ⟨a1, a2, a3, b1, b2, b3⟩ := roundF64_near_percent_nat n hmem k hkmem hlo hhi
  refine ⟨k, ?_, ?_, ?_⟩
  · have : n ≤ 2 ^ k := by
      rw [pow_succ] at hhi
      omega
    have h' : ((n : Int) : ℚ) = (n : ℚ) := by norm_cast
    rw [h', zpow_natCast]
    exact_mod_cast this
  · have h' : ((n : Int) : ℚ) = (n : ℚ) := by norm_cast
    rw [h', roundF64_of_log _ _ a1 a2]
    exact a3
  · have h' : ((n : Int) : ℚ) = (n : ℚ) := by norm_cast
    rw [h', roundF64_of_log _ _ b1 b2]
    exact b3

/-- The value of a segment at its start anchor in `float64`: with `x` the rounded product of
the slope and the start temperature, `x + (p - x)` is exactly `p` again, for a percent `p`
and `0 ≤ x < 2 ^ 53`. -/
theorem roundF64_start_exact (p : Int) (hp0 : 0 ≤ p) (hp100 : p ≤ 100) (x : ℚ)
    (hxf : roundF64 x = x) (hx0 : 0 ≤ x) (hx : x < 2 ^ (53 : Int)) :
    roundF64 (x + roundF64 ((p : ℚ) - x)) = p := by
  have h2 : (2 : ℚ) ≠ 0 := by norm_num
  have hpf : roundF64 (p : ℚ) = p := roundF64_intCast p (by rw [abs_le]; constructor <;> omega)
  rcases eq_or_lt_of_le hx0 with hx00 | hxpos
  · rw [← hx00, sub_zero, hpf, zero_add, hpf]
  rcases le_or_lt (p : ℚ) x with hpx | hxp
  · -- the difference is a float64
    obtain ⟨m, hm, hrep⟩ := roundF64_scaled x
    rw [hxf] at hrep
    have hE : Int.log 2 |x| < 53 := by
      have hle := log2_le x (ne_of_gt hxpos)
      rw [abs_of_pos hxpos] at hle ⊢
      exact (zpow_lt_zpow_iff_right₀ (by norm_num : (1 : ℚ) < 2)).mp (lt_of_le_of_lt hle hx)
    set E := Int.log 2 |x| with hEdef
    have hu := two_zpow_pos (E - 52)
    have hk : ((52 - E).toNat : Int) = 52 - E := Int.toNat_of_nonneg (by omega)
    have hone : (2 : ℚ) ^ (52 - E).toNat * 2 ^ (E - 52) = 1 := by
      rw [← zpow_natCast, hk, ← zpow_add₀ h2]
      have : 52 - E + (E - 52) = 0 := by ring
      rw [this, zpow_zero]
    have hdiff : (p : ℚ) - x = ((p * 2 ^ (52 - E).toNat - m : Int) : ℚ) * 2 ^ (E - 52) := by
      push_cast
      rw [sub_mul, mul_assoc, hone, mul_one, ← hrep]
    have hmpos : 0 ≤ m := by
      have : (0 : ℚ) ≤ (m : ℚ) * 2 ^ (E - 52) := by rw [← hrep]; exact hx0
      have := nonneg_of_mul_nonneg_left this hu
      exact_mod_cast this
    have hN : |p * 2 ^ (52 - E).toNat - m| ≤ 2 ^ 53 := by
      have hle : ((p * 2 ^ (52 - E).toNat - m : Int) : ℚ) * 2 ^ (E - 52) ≤ 0 := by
        rw [← hdiff]; linarith
      have hge : -((m : ℚ) * 2 ^ (E - 52)) ≤
          ((p * 2 ^ (52 - E).toNat - m : Int) : ℚ) * 2 ^ (E - 52) := by
        rw [← hdiff, ← hrep]
        have : (0 : ℚ) ≤ p := by exact_mod_cast hp0
        linarith
      have hle' : ((p * 2 ^ (52 - E).toNat - m : Int) : ℚ) ≤ 0 :=
        nonpos_of_mul_nonpos_left hle hu
      have hge' : -(m : ℚ) ≤ ((p * 2 ^ (52 - E).toNat - m : Int) : ℚ) := by
        rw [← neg_mul] at hge
        exact le_of_mul_le_mul_right hge hu
      have hle'' : p * 2 ^ (52 - E).toNat - m ≤ 0 := by exact_mod_cast hle'
      have hge'' : -m ≤ p * 2 ^ (52 - E).toNat - m := by exact_mod_cast hge'
      have hm' := (abs_le.mp hm).2
      rw [abs_le]
      constructor <;> omega
    rw [hdiff, roundF64_of_scaled _ _ hN, ← hdiff]
    have : x + ((p : ℚ) - x) = p := by ring
    rw [this, hpf]
  · -- the difference is rounded, by less than the gap around p
    have hp1 : 1 ≤ p := by
      have : (0 : ℚ) < p := lt_trans hxpos hxp
      have : (0 : Int) < p := by exact_mod_cast this
      omega
    have hy0 : 0 < (p : ℚ) - x := by linarith
    have hyp : (p : ℚ) - x < p := by linarith
    obtain ⟨k, hpk, hlo, hhi⟩ := roundF64_near_percent p hp1 hp100
    have hlog : Int.log 2 |(p : ℚ) - x| < k := by
      rw [abs_of_pos hy0]
      exact (Int.lt_zpow_iff_log_lt (b := 2) (by norm_num) hy0).mp (lt_of_lt_of_le hyp hpk)
    have herr := roundF64_error ((p : ℚ) - x)
    have hc : (2 : ℚ) ^ (Int.log 2 |(p : ℚ) - x| - 53) ≤ 2 ^ (k - 54) :=
      two_zpow_le (by omega)
    have hb := abs_le.mp (le_trans herr hc)
    apply le_antisymm
    · refine le_trans (roundF64_mono ?_) (le_of_eq hhi)
      linarith [hb.2]
    · refine le_trans (le_of_eq hlo.symm) (roundF64_mono ?_)
      linarith [hb.1]

/-! ## Curve shaper in `float64`: the function of one segment -/

/-- The value of `PWMFromTempSegment` at the first temperature in `float64`: exactly `p`,
for an integer `p` from 0 to 100, a second PWM from `p` to 100, a first temperature from 0
to `2 ^ 46` and a second one at least one degree above. -/
theorem PWMFromTempSegment64_start (t1 t2 p2 : ℚ) (p : Int) (hp0 : 0 ≤ p) (hp2 : (p : ℚ) ≤ p2)
    (h100 : p2 ≤ 100) (ht0 : 0 ≤ t1) (htmax : t1 ≤ 2 ^ 46) (ht : 1 ≤ t2 - t1) :
    PWMFromTempSegment64 t1 p t2 p2 t1 = p := by
  have hne : t1 ≠ t2 := by
    intro e
    rw [e, sub_self] at ht
    norm_num at ht
  have hf1 : roundF64 (1 : ℚ) = 1 := by
    have := roundF64_intCast 1 (by norm_num)
    simpa using this
  have hf100 : roundF64 (100 : ℚ) = 100 := by
    have := roundF64_intCast 100 (by norm_num)
    simpa using this
  have hp100 : (p : ℚ) ≤ 100 := le_trans hp2 h100
  have hp100' : p ≤ 100 := by exact_mod_cast hp100
  have hp0' : (0 : ℚ) ≤ p := by exact_mod_cast hp0
  have hden : 1 ≤ roundF64 (t2 - t1) := by
    calc (1 : ℚ) = roundF64 1 := hf1.symm
      _ ≤ roundF64 (t2 - t1) := roundF64_mono ht
  have hdenpos : (0 : ℚ) < roundF64 (t2 - t1) := by linarith
  have hd0 : 0 ≤ roundF64 (p2 - p) := roundF64_nonneg _ (by linarith)
  have hd100 : roundF64 (p2 - p) ≤ 100 := by
    calc roundF64 (p2 - p) ≤ roundF64 100 := roundF64_mono (by linarith)
      _ = 100 := hf100
  have hq0 : 0 ≤ roundF64 (p2 - p) / roundF64 (t2 - t1) := div_nonneg hd0 (le_of_lt hdenpos)
  have hq100 : roundF64 (p2 - p) / roundF64 (t2 - t1) ≤ 100 := by
    rw [div_le_iff₀ hdenpos]
    nlinarith
  have hs0 := roundF64_nonneg _ hq0
  have hs100 : roundF64 (roundF64 (p2 - p) / roundF64 (t2 - t1)) ≤ 100 := by
    calc _ ≤ roundF64 100 := roundF64_mono hq100
      _ = 100 := hf100
  have hx0 := roundF64_nonneg _ (mul_nonneg hs0 ht0)
  have hxlt : roundF64 (roundF64 (roundF64 (p2 - p) / roundF64 (t2 - t1)) * t1) <
      2 ^ (53 : Int) := by
    have hprod : roundF64 (roundF64 (p2 - p) / roundF64 (t2 - t1)) * t1 ≤
        ((100 : Int) : ℚ) * 2 ^ (46 : Int) := by
      have e : (((100 : Int) : ℚ)) * 2 ^ (46 : Int) = 100 * 2 ^ 46 := by norm_num
      rw [e]
      exact mul_le_mul hs100 htmax ht0 (by norm_num)
    have hle := roundF64_mono hprod
    rw [roundF64_of_scaled 100 46 (by norm_num)] at hle
    refine lt_of_le_of_lt hle ?_
    norm_num
  have key := roundF64_start_exact p hp0 hp100' _ (roundF64_idem _) hx0 hxlt
  simp only [PWMFromTempSegment64, hne, if_false]
  rw [key]
  exact min_eq_left hp100

/-- The function of a vertical step in `float64`: the slope is the rounded difference of the
PWMs. -/
theorem PWMFromTempSegment64_vertical (t0 p1 p2 : ℚ) :
    PWMFromTempSegment64 t0 p1 t0 p2 = fun t =>
      min (roundF64 (roundF64 (roundF64 (p2 - p1) * t) +
        roundF64 (p1 - roundF64 (roundF64 (p2 - p1) * 1)))) 100 := by
  have hf1 : roundF64 ((2 : ℚ) - 1) = 1 := by
    have := roundF64_intCast 1 (by norm_num)
    have e : ((2 : ℚ) - 1) = ((1 : Int) : ℚ) := by norm_num
    rw [e, this]
    norm_num
  funext t
  simp only [PWMFromTempSegment64, if_true, hf1, div_one, roundF64_idem]

/-- With a second PWM at least the first, the function of a vertical step is non-decreasing
in `float64`. -/
theorem PWMFromTempSegment64_vertical_mono (t0 p1 p2 : ℚ) (h : p1 ≤ p2) :
    Monotone (PWMFromTempSegment64 t0 p1 t0 p2) := by
  rw [PWMFromTempSegment64_vertical]
  intro t t' htt
  have ha : 0 ≤ roundF64 (p2 - p1) := roundF64_nonneg _ (by linarith)
  apply min_le_min_right
  apply roundF64_mono
  apply add_le_add_right
  apply roundF64_mono
  exact mul_le_mul_of_nonneg_left htt ha

/-- With a second PWM below the first, the function of a vertical step decreases between two
`float64` temperatures: 0 and a power of two. -/
theorem PWMFromTempSegment64_vertical_drop (t0 p1 p2 : ℚ) (h : p2 < p1) :
    ∃ n : Nat, PWMFromTempSegment64 t0 p1 t0 p2 (2 ^ n) < PWMFromTempSegment64 t0 p1 t0 p2 0 := by
  rw [PWMFromTempSegment64_vertical]
  have ha : roundF64 (p2 - p1) < 0 := roundF64_neg _ (by linarith)
  set a := roundF64 (p2 - p1) with hadef
  set b := roundF64 (p1 - roundF64 (a * 1)) with hbdef
  have hbf : roundF64 b = b := roundF64_idem _
  obtain ⟨k, hk⟩ := pow_unbounded_of_one_lt (|b| + 100) (by norm_num : (1 : ℚ) < 2)
  obtain ⟨j, hj⟩ := pow_unbounded_of_one_lt (1 / |a|) (by norm_num : (1 : ℚ) < 2)
  have habs : 0 < |a| := abs_pos.mpr (ne_of_lt ha)
  have hj' : 1 ≤ |a| * 2 ^ j := by
    rw [div_lt_iff₀ habs] at hj
    linarith
  refine ⟨k + 1 + j, ?_⟩
  simp only
  have hprod : a * 2 ^ (k + 1 + j) ≤ -(2 : ℚ) ^ ((k + 1 : Nat) : Int) := by
    have e : a * 2 ^ (k + 1 + j) = -(|a| * 2 ^ j * 2 ^ (k + 1)) := by
      rw [abs_of_neg ha]
      ring
    rw [e, zpow_natCast]
    have : (2 : ℚ) ^ (k + 1) ≤ |a| * 2 ^ j * 2 ^ (k + 1) := by
      have hpos : (0 : ℚ) < 2 ^ (k + 1) := by positivity
      nlinarith
    linarith
  have h1 : roundF64 (a * 2 ^ (k + 1 + j)) ≤ -(2 : ℚ) ^ ((k + 1 : Nat) : Int) := by
    have := roundF64_mono hprod
    rw [roundF64_neg_two_zpow] at this
    exact this
  have hb1 : b < 2 ^ k := lt_of_le_of_lt (le_abs_self b) (by linarith)
  have hb2 : -(2 : ℚ) ^ k < b := by
    have := neg_abs_le b
    linarith
  have hsum : roundF64 (a * 2 ^ (k + 1 + j)) + b ≤ -(2 : ℚ) ^ ((k : Nat) : Int) := by
    rw [zpow_natCast] at h1 ⊢
    have : (2 : ℚ) ^ (k + 1) = 2 * 2 ^ k := by ring
    linarith
  have h2 : roundF64 (roundF64 (a * 2 ^ (k + 1 + j)) + b) ≤ -(2 : ℚ) ^ k := by
    have := roundF64_mono hsum
    rw [roundF64_neg_two_zpow, zpow_natCast] at this
    exact this
  have h0 : roundF64 (roundF64 (a * 0) + b) = b := by
    rw [mul_zero, roundF64_zero, zero_add, hbf]
  rw [h0]
  have hlow : -(2 : ℚ) ^ k < min b 100 := by
    apply lt_min hb2
    have : (0 : ℚ) < 2 ^ k := by positivity
    linarith
  exact lt_of_le_of_lt (min_le_left _ _) (lt_of_le_of_lt h2 hlow)

/-- C21, amended: in the `float64` arithmetic of the source, for `t1 ≠ t2` the function
`PWMFromTempSegment(t1, p1, t2, p2)` is `t ↦ min(a * t + b, 100)` with
`a = (p2 - p1) / (t2 - t1)` and `b = p1 - a * t1`, every operation rounded.  At `t1` it yields
exactly `p`, for an integer `p1 = p` from 0 to 100 with `p ≤ p2 ≤ 100`, `0 ≤ t1 ≤ 2 ^ 46`
and `t2 ≥ t1 + 1`.  With equal temperatures `t0` it is the same function as
`PWMFromTempSegment(1, p1, 2, p2)`, and that function is non-decreasing over the `float64`
temperatures exactly when `p2 ≥ p1`. -/
theorem PWMFromTempSegment64_spec (t1 p1 t2 p2 t0 : ℚ) (h : t1 ≠ t2) :
    (∀ t, PWMFromTempSegment64 t1 p1 t2 p2 t =
        min (roundF64 (roundF64 (roundF64 (roundF64 (p2 - p1) / roundF64 (t2 - t1)) * t) +
          roundF64 (p1 - roundF64 (roundF64 (roundF64 (p2 - p1) / roundF64 (t2 - t1)) * t1))))
          100) ∧
      (∀ p : Int, 0 ≤ p → (p : ℚ) ≤ p2 → p2 ≤ 100 → 0 ≤ t1 → t1 ≤ 2 ^ 46 → 1 ≤ t2 - t1 →
        PWMFromTempSegment64 t1 p t2 p2 t1 = p) ∧
      PWMFromTempSegment64 t0 p1 t0 p2 = PWMFromTempSegment64 1 p1 2 p2 ∧
      (MonotoneOn (PWMFromTempSegment64 t0 p1 t0 p2) {t | roundF64 t = t} ↔ p1 ≤ p2) := by
  refine ⟨?_, ?_, ?_, ?_⟩
  · intro t
    simp only [PWMFromTempSegment64, h, if_false]
  · intro p hp0 hp2 h100 ht0 htmax ht
    exact PWMFromTempSegment64_start t1 t2 p2 p hp0 hp2 h100 ht0 htmax ht
  · have h12 : (1 : ℚ) ≠ 2 := by norm_num
    funext t
    simp only [PWMFromTempSegment64, h12, if_true, if_false]
  · constructor
    · intro hmono
      by_contra hlt
      obtain ⟨n, hn⟩ := PWMFromTempSegment64_vertical_drop t0 p1 p2 (not_le.mp hlt)
      have h0 : (0 : ℚ) ∈ {t : ℚ | roundF64 t = t} := roundF64_zero
      have hn' : (2 : ℚ) ^ n ∈ {t : ℚ | roundF64 t = t} := by
        have := roundF64_two_zpow (n : Int)
        rw [zpow_natCast] at this
        exact this
      have := hmono h0 hn' (by positivity)
      exact absurd hn (not_lt.mpr this)
    · intro hle
      exact (PWMFromTempSegment64_vertical_mono t0 p1 p2 hle).monotoneOn _

/-- C21, amended, on the segment from 20 degrees at 20 percent to 50 degrees at 100 percent,
and on the step at 40 degrees between the same values. -/
theorem PWMFromTempSegment64_spec_witness :
    (∀ t, PWMFromTempSegment64 20 20 50 100 t =
        min (roundF64 (roundF64 (roundF64 (roundF64 (100 - 20) / roundF64 (50 - 20)) * t) +
          roundF64 (20 - roundF64 (roundF64 (roundF64 (100 - 20) / roundF64 (50 - 20)) * 20))))
          100) ∧
      (∀ p : Int, 0 ≤ p → (p : ℚ) ≤ 100 → (100 : ℚ) ≤ 100 → (0 : ℚ) ≤ 20 → (20 : ℚ) ≤ 2 ^ 46 →
        (1 : ℚ) ≤ 50 - 20 → PWMFromTempSegment64 20 p 50 100 20 = p) ∧
      PWMFromTempSegment64 40 20 40 100 = PWMFromTempSegment64 1 20 2 100 ∧
      (MonotoneOn (PWMFromTempSegment64 40 20 40 100) {t | roundF64 t = t} ↔ (20 : ℚ) ≤ 100) :=
  PWMFromTempSegment64_spec 20 20 50 100 40 (by norm_num)

/-- C21 as stated fails in `float64`: from 20 degrees at 20 percent to 50 degrees at 100
percent the function yields `100 - 2 ^ (-46)` at 50 degrees, not `min(100, 100)` and not the
value of the formula; from -40 degrees at 20 percent to -19 degrees at 50 percent it yields
`20 - 2 ^ (-47)` at -40 degrees, not `min(20, 100)`. -/
theorem PWMFromTempSegment64_spec_counterexample :
    (PWMFromTempSegment64 20 20 50 100 50 = 100 - 1 / 2 ^ 46 ∧
        PWMFromTempSegment64 20 20 50 100 50 ≠ min 100 100 ∧
        PWMFromTempSegment64 20 20 50 100 50 ≠
          min (20 + (100 - 20) * (50 - 20) / (50 - 20)) 100) ∧
      (PWMFromTempSegment64 (-40) 20 (-19) 50 (-40) = 20 - 1 / 2 ^ 47 ∧
        PWMFromTempSegment64 (-40) 20 (-19) 50 (-40) ≠ min 20 100) := by
  decide!

/-! ## Curve shaper in `float64`: what the loops of `NewCurveShaper` build -/

theorem addThreshold64_slot (temps : List Sensor.Temperature) (tid : Sensor.TemperatureID)
    (i : Nat) (pwm : Int) (m : List (Sensor.TemperatureID × List point)) (th : String × Int)
    (m' : List (Sensor.TemperatureID × List point)) (h : addThreshold64 temps i pwm m th = .ok m') :
    (mget m' tid).getD [] = (mget m tid).getD [] ++ thresholdPoints64 temps tid i pwm th := by
  unfold addThreshold64 at h
  unfold thresholdPoints64
  cases hf : findID temps th.1 with
  | error e =>
    rw [hf] at h
    simp at h
  | ok tid' =>
    rw [hf] at h
    simp only [Except.ok.injEq] at h
    subst h
    by_cases hi : i = 0
    · by_cases ht : tid' = tid
      · simp [hi, ht, slot_mappend]
      · simp [hi, ht, slot_mappend]
    · by_cases ht : tid' = tid
      · simp [hi, ht, slot_mappend]
      · simp [hi, ht, slot_mappend]

theorem addCurvePoint64_slot (temps : List Sensor.Temperature) (tid : Sensor.TemperatureID)
    (m : List (Sensor.TemperatureID × List point)) (ip : Nat × CurvePoint)
    (m' : List (Sensor.TemperatureID × List point)) (h : addCurvePoint64 temps m ip = .ok m') :
    (mget m' tid).getD [] = (mget m tid).getD [] ++ curvePointPoints64 temps tid ip := by
  unfold addCurvePoint64 at h
  unfold curvePointPoints64
  refine foldlM_slot _ (fun m => (mget m tid).getD [])
    (fun e => e.2.flatMap (thresholdPoints64 temps tid ip.1 e.1)) ?_ ip.2 m m' h
  intro m1 e m2 h2
  exact foldlM_slot _ (fun m => (mget m tid).getD []) (thresholdPoints64 temps tid ip.1 e.1)
    (fun a b c hc => addThreshold64_slot temps tid ip.1 e.1 a b c hc) e.2 m1 m2 h2

/-- The slice `indexp[tid]` after the first loop holds the anchor points of the sensor. -/
theorem buildPoints64_slot (temps : List Sensor.Temperature) (cps : List CurvePoint)
    (tid : Sensor.TemperatureID) (indexp : List (Sensor.TemperatureID × List point))
    (h : buildPoints64 temps cps = .ok indexp) :
    (mget indexp tid).getD [] = sensorPoints64 temps cps tid := by
  unfold buildPoints64 at h
  have := foldlM_slot _ (fun m => (mget m tid).getD []) (curvePointPoints64 temps tid)
    (fun a b c hc => addCurvePoint64_slot temps tid a b c hc) cps.enum [] indexp h
  simpa [sensorPoints64, mget] using this

theorem addThreshold64_nodup (temps : List Sensor.Temperature) (i : Nat) (pwm : Int)
    (m : List (Sensor.TemperatureID × List point)) (th : String × Int)
    (m' : List (Sensor.TemperatureID × List point)) (hm : (m.map Prod.fst).Nodup)
    (h : addThreshold64 temps i pwm m th = .ok m') : (m'.map Prod.fst).Nodup := by
  unfold addThreshold64 at h
  cases hf : findID temps th.1 with
  | error e =>
    rw [hf] at h
    simp at h
  | ok tid' =>
    rw [hf] at h
    simp only [Except.ok.injEq] at h
    subst h
    apply nodup_mkeys_mappend
    split
    · exact nodup_mkeys_mappend _ _ hm
    · exact hm

theorem buildPoints64_nodup (temps : List Sensor.Temperature) (cps : List CurvePoint)
    (indexp : List (Sensor.TemperatureID × List point))
    (h : buildPoints64 temps cps = .ok indexp) : (indexp.map Prod.fst).Nodup := by
  unfold buildPoints64 at h
  refine foldlM_ok_invariant _ (fun m => (m.map Prod.fst).Nodup) ?_ cps.enum [] indexp
    (by simp) h
  intro m ip m' hm h1
  unfold addCurvePoint64 at h1
  refine foldlM_ok_invariant _ (fun m => (m.map Prod.fst).Nodup) ?_ ip.2 m m' hm h1
  intro m1 e m2 hm1 h2
  exact foldlM_ok_invariant _ (fun m => (m.map Prod.fst).Nodup)
    (fun a b c ha hc => addThreshold64_nodup temps ip.1 e.1 a b c ha hc) e.2 m1 m2 hm1 h2

theorem buildSegments64_step_slot (tid : Sensor.TemperatureID)
    (indexs : List (Sensor.TemperatureID × List segment)) (e : Sensor.TemperatureID × List point) :
    (mget ((e.2.zip e.2.tail).foldl
        (fun indexs pp => mappend indexs e.1 (mkSegment64 pp.1 pp.2)) indexs) tid).getD [] =
      (mget indexs tid).getD [] ++ (if e.1 = tid then segmentsOf64 e.2 else []) := by
  have := foldl_slot (fun indexs (pp : point × point) => mappend indexs e.1 (mkSegment64 pp.1 pp.2))
    (fun m => (mget m tid).getD [])
    (fun pp => if e.1 = tid then [mkSegment64 pp.1 pp.2] else [])
    (fun m b => slot_mappend m e.1 tid _) (e.2.zip e.2.tail) indexs
  rw [this]
  have hsing : ∀ l : List (point × point),
      (l.flatMap fun pp => [mkSegment64 pp.1 pp.2]) = l.map (fun pp => mkSegment64 pp.1 pp.2) := by
    intro l
    induction l with
    | nil => rfl
    | cons a rest ih => simp [List.flatMap_cons, ih]
  by_cases h : e.1 = tid
  · simp only [h, if_true, segmentsOf64, hsing]
  · simp [h]

/-- The slice `indexs[tid]` after the third loop holds the segments between the
consecutive points of `indexp[tid]`. -/
theorem buildSegments64_slot (m : List (Sensor.TemperatureID × List point))
    (hn : (m.map Prod.fst).Nodup) (tid : Sensor.TemperatureID) :
    (mget (buildSegments64 m) tid).getD [] = segmentsOf64 ((mget m tid).getD []) := by
  unfold buildSegments64
  have := foldl_slot (fun indexs (e : Sensor.TemperatureID × List point) =>
      (e.2.zip e.2.tail).foldl (fun indexs pp => mappend indexs e.1 (mkSegment64 pp.1 pp.2)) indexs)
    (fun m => (mget m tid).getD [])
    (fun e => if e.1 = tid then segmentsOf64 e.2 else [])
    (fun m b => buildSegments64_step_slot tid m b) m []
  rw [this, flatMap_key tid segmentsOf64 rfl m hn]
  simp [mget]

theorem buildSegments64_nodup (m : List (Sensor.TemperatureID × List point)) :
    ((buildSegments64 m).map Prod.fst).Nodup := by
  unfold buildSegments64
  refine foldl_invariant _
    (fun (indexs : List (Sensor.TemperatureID × List segment)) => (indexs.map Prod.fst).Nodup)
    ?_ m [] (by simp)
  intro indexs e h
  exact foldl_invariant _
    (fun (indexs : List (Sensor.TemperatureID × List segment)) => (indexs.map Prod.fst).Nodup)
    (fun a b ha => nodup_mkeys_mappend _ _ ha) _ indexs h

theorem buildSegments64_nonempty (m : List (Sensor.TemperatureID × List point)) :
    ∀ e ∈ buildSegments64 m, e.2 ≠ [] := by
  unfold buildSegments64
  refine foldl_invariant _
    (fun (indexs : List (Sensor.TemperatureID × List segment)) => ∀ e ∈ indexs, e.2 ≠ [])
    ?_ m [] (by simp)
  intro indexs e h
  exact foldl_invariant _
    (fun (indexs : List (Sensor.TemperatureID × List segment)) => ∀ e ∈ indexs, e.2 ≠ [])
    (fun a b ha => nonempty_mappend _ _ ha) _ indexs h

/-- The entry `indexs[tid]` after the third loop: present exactly when the sensor has at
least one segment. -/
theorem mget_buildSegments64 (m : List (Sensor.TemperatureID × List point))
    (hn : (m.map Prod.fst).Nodup) (tid : Sensor.TemperatureID) :
    (segmentsOf64 ((mget m tid).getD []) = [] ∧ mget (buildSegments64 m) tid = none) ∨
      (segmentsOf64 ((mget m tid).getD []) ≠ [] ∧
        mget (buildSegments64 m) tid = some (segmentsOf64 ((mget m tid).getD []))) := by
  have hslot := buildSegments64_slot m hn tid
  cases hg : mget (buildSegments64 m) tid with
  | none =>
    rw [hg] at hslot
    exact Or.inl ⟨hslot.symm, rfl⟩
  | some segs =>
    rw [hg] at hslot
    simp only [Option.getD_some] at hslot
    have hne : segs ≠ [] := buildSegments64_nonempty m _ (mem_of_mget hg)
    exact Or.inr ⟨hslot ▸ hne, by rw [hslot]⟩

/-- What one iteration of the loop over the fans does to the evaluators: those of the other
fans stay, and the fan gets, for every sensor with at least one segment, the evaluator of
these segments. -/
theorem addFan64_evaluator (temps : List Sensor.Temperature) (s : CurveShaper) (fan : Fan)
    (s' : CurveShaper) (h : addFan64 temps s fan = .ok s') (tid : Sensor.TemperatureID) :
    (∀ fid', fan.ID ≠ fid' → s'.evaluator tid fid' = s.evaluator tid fid') ∧
      ((sensorSegments64 temps fan.CurvePoints tid = [] ∧
          s'.evaluator tid fan.ID = s.evaluator tid fan.ID) ∨
        (sensorSegments64 temps fan.CurvePoints tid ≠ [] ∧
          s'.evaluator tid fan.ID =
            some (evalSegments (sensorSegments64 temps fan.CurvePoints tid)))) := by
  unfold addFan64 at h
  cases hb : buildPoints64 temps fan.CurvePoints with
  | error e =>
    rw [hb] at h
    simp at h
  | ok indexp =>
    rw [hb] at h
    simp only [Except.ok.injEq] at h
    subst h
    have hn : ((closeCurves indexp).map Prod.fst).Nodup := by
      rw [mkeys_closeCurves]
      exact buildPoints64_nodup temps _ indexp hb
    have hslot : (mget (closeCurves indexp) tid).getD [] =
        closePoints (sensorPoints64 temps fan.CurvePoints tid) := by
      rw [slot_closeCurves, buildPoints64_slot temps _ tid indexp hb]
    constructor
    · intro fid' hne
      exact evaluator_setIndex_ne fan.ID fid' hne tid _ _
    · have hself := evaluator_setIndex_self fan.ID tid (buildSegments64 (closeCurves indexp))
        s.index (buildSegments64_nodup _)
      unfold CurveShaper.evaluator sensorSegments64
      simp only
      rw [hself, ← hslot]
      rcases mget_buildSegments64 (closeCurves indexp) hn tid with ⟨h1, h2⟩ | ⟨h1, h2⟩
      · exact Or.inl ⟨h1, by rw [h2]⟩
      · exact Or.inr ⟨h1, by rw [h2]⟩

theorem addFan64_wf (temps : List Sensor.Temperature) (s : CurveShaper) (fan : Fan)
    (s' : CurveShaper) (hs : ∀ e ∈ s.index, (e.2.map Prod.fst).Nodup)
    (h : addFan64 temps s fan = .ok s') : ∀ e ∈ s'.index, (e.2.map Prod.fst).Nodup := by
  unfold addFan64 at h
  cases hb : buildPoints64 temps fan.CurvePoints with
  | error e =>
    rw [hb] at h
    simp at h
  | ok indexp =>
    rw [hb] at h
    simp only [Except.ok.injEq] at h
    subst h
    exact setIndex_wf fan.ID _ s.index hs

/-- In the index of a shaper `NewCurveShaper64` returns, no inner map holds a fan twice. -/
theorem NewCurveShaper64_wf (cfg : Config) (temps : List Sensor.Temperature) (s : CurveShaper)
    (h : NewCurveShaper64 cfg temps = .ok s) : ∀ e ∈ s.index, (e.2.map Prod.fst).Nodup := by
  unfold NewCurveShaper64 at h
  refine foldlM_ok_invariant _ (fun s : CurveShaper => ∀ e ∈ s.index, (e.2.map Prod.fst).Nodup)
    ?_ cfg.FanSettings _ s (by simp) h
  intro s1 nf s2 h1 h2
  exact addFan64_wf temps s1 nf.2 s2 h1 h2

theorem foldlM_addFan64_of_fan (temps : List Sensor.Temperature) (tid : Sensor.TemperatureID)
    (fid : Openfan.Fan) (cps : List CurvePoint) (hne : sensorSegments64 temps cps tid ≠ []) :
    ∀ (l : List (String × Fan)) (s0 s : CurveShaper),
      l.foldlM (fun s nf => addFan64 temps s nf.2) s0 = .ok s →
      (∀ nf ∈ l, nf.2.ID = fid → nf.2.CurvePoints = cps) →
      ((∃ nf ∈ l, nf.2.ID = fid) ∧
          s.evaluator tid fid = some (evalSegments (sensorSegments64 temps cps tid))) ∨
        ((∀ nf ∈ l, nf.2.ID ≠ fid) ∧ s.evaluator tid fid = s0.evaluator tid fid) := by
  intro l
  induction l with
  | nil =>
    intro s0 s h _
    simp only [List.foldlM, pure, Except.pure, Except.ok.injEq] at h
    exact Or.inr ⟨by simp, by rw [h]⟩
  | cons nf rest ih =>
    intro s0 s h hall
    rw [List.foldlM_cons] at h
    cases ha : addFan64 temps s0 nf.2 with
    | error e =>
      rw [ha] at h
      simp [bind, Except.bind] at h
    | ok s1 =>
      rw [ha] at h
      simp only [bind, Except.bind] at h
      have hall' : ∀ nf' ∈ rest, nf'.2.ID = fid → nf'.2.CurvePoints = cps :=
        fun nf' hm => hall nf' (List.mem_cons_of_mem _ hm)
      obtain ⟨hother, hself⟩ := addFan64_evaluator temps s0 nf.2 s1 ha tid
      rcases ih s1 s h hall' with ⟨⟨nf', hm, hid⟩, hE⟩ | ⟨hnone, hE⟩
      · exact Or.inl ⟨⟨nf', List.mem_cons_of_mem _ hm, hid⟩, hE⟩
      · by_cases hf : nf.2.ID = fid
        · have hcps := hall nf (List.mem_cons_self _ _) hf
          subst hf
          rw [hcps] at hself
          rcases hself with ⟨h1, _⟩ | ⟨_, h2⟩
          · exact absurd h1 hne
          · exact Or.inl ⟨⟨nf, List.mem_cons_self _ _, rfl⟩, by rw [hE, h2]⟩
        · refine Or.inr ⟨?_, by rw [hE, hother fid hf]⟩
          intro nf' hm
          rcases List.mem_cons.mp hm with h1 | h1
          · rw [h1]; exact hf
          · exact hnone nf' h1

/-- For a configured fan whose id no fan of another curve shares, and a sensor with at least
one segment in its curve, the index holds the evaluator of these segments. -/
theorem NewCurveShaper64_evaluator_of_fan (cfg : Config) (temps : List Sensor.Temperature)
    (s : CurveShaper) (h : NewCurveShaper64 cfg temps = .ok s) (nf : String × Fan)
    (hmem : nf ∈ cfg.FanSettings)
    (huniq : ∀ nf' ∈ cfg.FanSettings, nf'.2.ID = nf.2.ID → nf'.2.CurvePoints = nf.2.CurvePoints)
    (tid : Sensor.TemperatureID) (hne : sensorSegments64 temps nf.2.CurvePoints tid ≠ []) :
    s.evaluator tid nf.2.ID =
      some (evalSegments (sensorSegments64 temps nf.2.CurvePoints tid)) := by
  rcases foldlM_addFan64_of_fan temps tid nf.2.ID nf.2.CurvePoints hne cfg.FanSettings _ s h huniq
    with ⟨_, hE⟩ | ⟨hnone, _⟩
  · exact hE
  · exact absurd rfl (hnone nf hmem)

theorem addThreshold64_cases (temps : List Sensor.Temperature) (i : Nat) (pwm : Int)
    (m : List (Sensor.TemperatureID × List point)) (th : String × Int) :
    ((∀ t ∈ temps, t.Name ≠ th.1) →
        ∃ e, addThreshold64 temps i pwm m th = .error e ∧ e.Is .ErrNotFoundTemp = true) ∧
      (¬ (∀ t ∈ temps, t.Name ≠ th.1) → ∃ m', addThreshold64 temps i pwm m th = .ok m') := by
  unfold addThreshold64
  rcases findID_cases temps th.1 with ⟨hbad, hf⟩ | ⟨⟨t, ht, hname⟩, tid, hf⟩
  · rw [hf]
    refine ⟨fun _ => ⟨_, rfl, ?_⟩, fun h => absurd hbad h⟩
    simp [Error.Is]
  · rw [hf]
    refine ⟨fun h => absurd hname (h t ht), fun _ => ⟨_, rfl⟩⟩

/-- The first loop of `NewCurveShaper64` fails, with an error wrapping `ErrNotFoundTemp`, when
a threshold of the curve names a sensor absent from the catalog, and succeeds otherwise. -/
theorem buildPoints64_cases (temps : List Sensor.Temperature) (cps : List CurvePoint) :
    ((∃ p ∈ cps, ∃ e ∈ p, ∃ th ∈ e.2, ∀ t ∈ temps, t.Name ≠ th.1) ∧
        ∃ err, buildPoints64 temps cps = .error err ∧ err.Is .ErrNotFoundTemp = true) ∨
      ((∀ p ∈ cps, ∀ e ∈ p, ∀ th ∈ e.2, ∃ t ∈ temps, t.Name = th.1) ∧
        ∃ m, buildPoints64 temps cps = .ok m) := by
  have hinner : ∀ (i : Nat) (e : Int × List (String × Int))
      (m : List (Sensor.TemperatureID × List point)),
      ((∃ th ∈ e.2, ∀ t ∈ temps, t.Name ≠ th.1) ∧
          ∃ err, e.2.foldlM (addThreshold64 temps i e.1) m = .error err ∧
            err.Is .ErrNotFoundTemp = true) ∨
        ((∀ th ∈ e.2, ¬ ∀ t ∈ temps, t.Name ≠ th.1) ∧
          ∃ m', e.2.foldlM (addThreshold64 temps i e.1) m = .ok m') := by
    intro i e m
    exact foldlM_error_or_ok (addThreshold64 temps i e.1) (fun th => ∀ t ∈ temps, t.Name ≠ th.1)
      (fun err => err.Is .ErrNotFoundTemp = true)
      (fun s a h => (addThreshold64_cases temps i e.1 s a).1 h)
      (fun s a h => (addThreshold64_cases temps i e.1 s a).2 h) e.2 m
  have hpoint : ∀ (ip : Nat × CurvePoint) (m : List (Sensor.TemperatureID × List point)),
      ((∃ e ∈ ip.2, ∃ th ∈ e.2, ∀ t ∈ temps, t.Name ≠ th.1) ∧
          ∃ err, addCurvePoint64 temps m ip = .error err ∧ err.Is .ErrNotFoundTemp = true) ∨
        ((∀ e ∈ ip.2, ¬ ∃ th ∈ e.2, ∀ t ∈ temps, t.Name ≠ th.1) ∧
          ∃ m', addCurvePoint64 temps m ip = .ok m') := by
    intro ip m
    unfold addCurvePoint64
    refine foldlM_error_or_ok _
      (fun (e : Int × List (String × Int)) => ∃ th ∈ e.2, ∀ t ∈ temps, t.Name ≠ th.1)
      (fun (err : Error) => err.Is .ErrNotFoundTemp = true) ?_ ?_ ip.2 m
    · intro s e hbad
      rcases hinner ip.1 e s with ⟨_, h⟩ | ⟨hall, _⟩
      · exact h
      · obtain ⟨th, hth, hb⟩ := hbad
        exact absurd hb (hall th hth)
    · intro s e hgood
      rcases hinner ip.1 e s with ⟨hb, _⟩ | ⟨_, h⟩
      · exact absurd hb hgood
      · exact h
  have hall := foldlM_error_or_ok (addCurvePoint64 temps)
    (fun ip : Nat × CurvePoint => ∃ e ∈ ip.2, ∃ th ∈ e.2, ∀ t ∈ temps, t.Name ≠ th.1)
    (fun err => err.Is .ErrNotFoundTemp = true)
    (fun s ip hbad => by
      rcases hpoint ip s with ⟨_, h⟩ | ⟨hg, _⟩
      · exact h
      · obtain ⟨e, he, hb⟩ := hbad
        exact absurd hb (hg e he))
    (fun s ip hgood => by
      rcases hpoint ip s with ⟨hb, _⟩ | ⟨_, h⟩
      · exact absurd hb hgood
      · exact h) cps.enum []
  have hsnd : ∀ p, p ∈ cps ↔ ∃ ip ∈ cps.enum, ip.2 = p := by
    intro p
    have : p ∈ cps ↔ p ∈ cps.enum.map Prod.snd := by rw [List.enum_map_snd]
    rw [this, List.mem_map]
  unfold buildPoints64
  rcases hall with ⟨⟨ip, hip, e, he, th, hth, hb⟩, herr⟩ | ⟨hgood, hok⟩
  · exact Or.inl ⟨⟨ip.2, (hsnd ip.2).mpr ⟨ip, hip, rfl⟩, e, he, th, hth, hb⟩, herr⟩
  · refine Or.inr ⟨?_, hok⟩
    intro p hp e he th hth
    obtain ⟨ip, hip, rfl⟩ := (hsnd p).mp hp
    by_contra hcon
    push_neg at hcon
    exact hgood ip hip ⟨e, he, th, hth, hcon⟩

theorem addFan64_cases (temps : List Sensor.Temperature) (s : CurveShaper) (fan : Fan) :
    ((∃ p ∈ fan.CurvePoints, ∃ e ∈ p, ∃ th ∈ e.2, ∀ t ∈ temps, t.Name ≠ th.1) ∧
        ∃ err, addFan64 temps s fan = .error err ∧ err.Is .ErrNotFoundTemp = true) ∨
      ((∀ p ∈ fan.CurvePoints, ∀ e ∈ p, ∀ th ∈ e.2, ∃ t ∈ temps, t.Name = th.1) ∧
        ∃ s', addFan64 temps s fan = .ok s') := by
  unfold addFan64
  rcases buildPoints64_cases temps fan.CurvePoints with ⟨hb, err, he, hP⟩ | ⟨hg, m, hm⟩
  · rw [he]
    exact Or.inl ⟨hb, err, rfl, hP⟩
  · rw [hm]
    exact Or.inr ⟨hg, _, rfl⟩

/-- The loop of `NewCurveShaper64` over the fans fails, with an error wrapping
`ErrNotFoundTemp`, when some threshold names a sensor absent from the catalog, and succeeds
otherwise. -/
theorem NewCurveShaper64_cases (cfg : Config) (catalog : List Sensor.Temperature) :
    ((∃ nf ∈ cfg.FanSettings, ∃ p ∈ nf.2.CurvePoints, ∃ e ∈ p, ∃ th ∈ e.2,
          ∀ t ∈ catalog, t.Name ≠ th.1) ∧
        ∃ err, NewCurveShaper64 cfg catalog = .error err ∧ err.Is .ErrNotFoundTemp = true) ∨
      ((∀ nf ∈ cfg.FanSettings, ∀ p ∈ nf.2.CurvePoints, ∀ e ∈ p, ∀ th ∈ e.2,
          ∃ t ∈ catalog, t.Name = th.1) ∧
        ∃ s, NewCurveShaper64 cfg catalog = .ok s) := by
  have hall := foldlM_error_or_ok (fun (s : CurveShaper) (nf : String × Fan) => addFan64 catalog s nf.2)
    (fun nf => ∃ p ∈ nf.2.CurvePoints, ∃ e ∈ p, ∃ th ∈ e.2, ∀ t ∈ catalog, t.Name ≠ th.1)
    (fun err => err.Is .ErrNotFoundTemp = true)
    (fun s nf hbad => by
      rcases addFan64_cases catalog s nf.2 with ⟨_, h⟩ | ⟨hg, _⟩
      · exact h
      · obtain ⟨p, hp, e, he, th, hth, hb⟩ := hbad
        obtain ⟨t, ht, hname⟩ := hg p hp e he th hth
        exact absurd hname (hb t ht))
    (fun s nf hgood => by
      rcases addFan64_cases catalog s nf.2 with ⟨hb, _⟩ | ⟨_, h⟩
      · exact absurd hb hgood
      · exact h) cfg.FanSettings { labels := [], index := [] }
  have hdef : NewCurveShaper64 cfg catalog =
      cfg.FanSettings.foldlM (fun s nf => addFan64 catalog s nf.2) { labels := [], index := [] } :=
    rfl
  rw [hdef]
  rcases hall with hbad | ⟨hgood, hok⟩
  · exact Or.inl hbad
  · refine Or.inr ⟨?_, hok⟩
    intro nf hnf p hp e he th hth
    by_contra hcon
    push_neg at hcon
    exact hgood nf hnf ⟨p, hp, e, he, th, hth, hcon⟩

theorem segmentsOf64_cons_cons (a b : point) (rest : List point) :
    segmentsOf64 (a :: b :: rest) = mkSegment64 a b :: segmentsOf64 (b :: rest) := by
  simp [segmentsOf64]

theorem mem_segmentsOf64_append (before : List point) (x b : point) (rest : List point) :
    mkSegment64 x b ∈ segmentsOf64 (before ++ x :: b :: rest) := by
  induction before with
  | nil =>
    rw [List.nil_append, segmentsOf64_cons_cons]
    exact List.mem_cons_self _ _
  | cons c before' ih =>
    cases before' with
    | nil =>
      rw [List.singleton_append, segmentsOf64_cons_cons]
      exact List.mem_cons_of_mem _ ih
    | cons d rest' =>
      rw [List.cons_append, List.cons_append, segmentsOf64_cons_cons]
      exact List.mem_cons_of_mem _ ih

/-- Every anchor point of a sensor comes from a threshold entry that names the sensor: it
carries the PWM of the entry, and its temperature is the threshold as a `float64`, or 0 for
the start anchor of an entry of the first curve point. -/
theorem mem_sensorPoints64 (temps : List Sensor.Temperature) (cps : List CurvePoint)
    (tid : Sensor.TemperatureID) (a : point) (ha : a ∈ sensorPoints64 temps cps tid) :
    ∃ ip ∈ cps.enum, ∃ e ∈ ip.2, ∃ th ∈ e.2, findID temps th.1 = .ok tid ∧ a.pwm = e.1 ∧
      (a.temperature = roundF64 (th.2 : ℚ) ∨ (ip.1 = 0 ∧ a.temperature = 0)) := by
  unfold sensorPoints64 at ha
  obtain ⟨ip, hip, ha⟩ := List.mem_flatMap.mp ha
  unfold curvePointPoints64 at ha
  obtain ⟨e, he, ha⟩ := List.mem_flatMap.mp ha
  obtain ⟨th, hth, ha⟩ := List.mem_flatMap.mp ha
  refine ⟨ip, hip, e, he, th, hth, ?_⟩
  unfold thresholdPoints64 at ha
  cases hf : findID temps th.1 with
  | error err =>
    rw [hf] at ha
    simp at ha
  | ok tid' =>
    rw [hf] at ha
    simp only at ha
    by_cases ht : tid' = tid
    · subst ht
      simp only [if_true] at ha
      by_cases hi : ip.1 = 0
      · simp only [hi, if_true, List.mem_cons, List.mem_singleton, List.not_mem_nil,
          or_false] at ha
        rcases ha with ha | ha
        · rw [ha]
          exact ⟨rfl, rfl, Or.inr ⟨hi, rfl⟩⟩
        · rw [ha]
          exact ⟨rfl, rfl, Or.inl rfl⟩
      · simp only [hi, if_false, List.mem_singleton] at ha
        rw [ha]
        exact ⟨rfl, rfl, Or.inl rfl⟩
    · simp [ht] at ha

/-- For a configured fan of a shaper `NewCurveShaper64` built, `fanAnchors64` is the list of
the anchor points of the sensor. -/
theorem fanAnchors64_of_ok (cfg : Config) (catalog : List Sensor.Temperature) (s : CurveShaper)
    (h : NewCurveShaper64 cfg catalog = .ok s) (nf : String × Fan) (hmem : nf ∈ cfg.FanSettings)
    (tid : Sensor.TemperatureID) :
    fanAnchors64 catalog nf.2 tid = sensorPoints64 catalog nf.2.CurvePoints tid := by
  have hall : ∀ nf ∈ cfg.FanSettings, ∀ p ∈ nf.2.CurvePoints, ∀ e ∈ p, ∀ th ∈ e.2,
      ∃ t ∈ catalog, t.Name = th.1 := by
    rcases NewCurveShaper64_cases cfg catalog with ⟨_, err, herr, _⟩ | ⟨hgood, _⟩
    · rw [h] at herr
      exact absurd herr (by simp)
    · exact hgood
  unfold fanAnchors64
  rcases buildPoints64_cases catalog nf.2.CurvePoints with
    ⟨⟨p, hp, e, he, th, hth, hb⟩, _⟩ | ⟨_, m, hm⟩
  · obtain ⟨t, ht, hname⟩ := hall nf hmem p hp e he th hth
    exact absurd hname (hb t ht)
  · rw [hm]
    exact buildPoints64_slot catalog _ tid m hm


/-- Every segment starts at the temperature of one of the points. -/
theorem segmentsOf64_start_mem (points : List point) :
    ∀ sg ∈ segmentsOf64 points, ∃ a ∈ points, sg.temperature = a.temperature := by
  intro sg hsg
  unfold segmentsOf64 at hsg
  obtain ⟨pp, hpp, rfl⟩ := List.mem_map.mp hsg
  exact ⟨pp.1, (List.of_mem_zip hpp).1, rfl⟩


/-! ## Curve shaper in `float64`: a reading exactly at an anchor -/

/-- The conversion `float64(n)` of an `int` is an integer. -/
theorem roundF64_intCast_isInt (n : Int) : ∃ k : Int, roundF64 (n : ℚ) = k := by
  by_cases h : Int.log 2 |(n : ℚ)| < 52
  · refine ⟨n, roundF64_intCast n ?_⟩
    have h1 := lt_log2_succ (n : ℚ)
    have h2 : (2 : ℚ) ^ (Int.log 2 |(n : ℚ)| + 1) ≤ 2 ^ (53 : Int) := two_zpow_le (by omega)
    have h3 : |(n : ℚ)| ≤ 2 ^ (53 : Int) := le_of_lt (lt_of_lt_of_le h1 h2)
    have h4 : ((|n| : Int) : ℚ) ≤ ((2 ^ 53 : Int) : ℚ) := by
      rw [Int.cast_abs]
      calc |(n : ℚ)| ≤ 2 ^ (53 : Int) := h3
        _ = ((2 ^ 53 : Int) : ℚ) := by norm_num
    exact_mod_cast h4
  · obtain ⟨m, _, hm⟩ := roundF64_scaled (n : ℚ)
    have hk : ((Int.log 2 |(n : ℚ)| - 52).toNat : Int) = Int.log 2 |(n : ℚ)| - 52 :=
      Int.toNat_of_nonneg (by omega)
    refine ⟨m * 2 ^ (Int.log 2 |(n : ℚ)| - 52).toNat, ?_⟩
    rw [hm]
    push_cast
    congr 1
    rw [← zpow_natCast, hk]

/-- The value of a `float64` segment at its start anchor: between two anchors at integer
temperatures, the start one at 0 to `2 ^ 46` degrees and the next one hotter, with PWMs
`0 ≤ p ≤ p' ≤ 100`, the segment yields exactly `p` at the start temperature. -/
theorem mkSegment64_eval_start (a b : point) (hab : a.temperature < b.temperature)
    (hai : ∃ k : Int, a.temperature = k) (hbi : ∃ k : Int, b.temperature = k)
    (ha0 : 0 ≤ a.temperature) (hamax : a.temperature ≤ 2 ^ 46)
    (hp0 : 0 ≤ a.pwm) (hpb : a.pwm ≤ b.pwm) (hb100 : b.pwm ≤ 100) :
    (mkSegment64 a b).eval a.temperature = a.pwm := by
  have hfa : roundF64 (a.pwm : ℚ) = a.pwm :=
    roundF64_intCast _ (by rw [abs_le]; constructor <;> omega)
  have hfb : roundF64 (b.pwm : ℚ) = b.pwm :=
    roundF64_intCast _ (by rw [abs_le]; constructor <;> omega)
  have hstep : 1 ≤ b.temperature - a.temperature := by
    obtain ⟨ka, hka⟩ := hai
    obtain ⟨kb, hkb⟩ := hbi
    have hlt : ka < kb := by
      rw [hka, hkb] at hab
      exact_mod_cast hab
    rw [hka, hkb]
    have : (1 : Int) ≤ kb - ka := by omega
    exact_mod_cast this
  simp only [mkSegment64, hfa, hfb]
  exact PWMFromTempSegment64_start a.temperature b.temperature b.pwm a.pwm hp0
    (by exact_mod_cast hpb) (by exact_mod_cast hb100) ha0 hamax hstep

/-- At an anchor that is followed by anchors, all of them hotter, the `float64` evaluator
yields the PWM of the anchor, for integer temperatures, the anchor at 0 to `2 ^ 46` degrees,
and PWMs `0 ≤ p ≤ p' ≤ 100` of the anchor and the next one. -/
theorem evalSegments64_at_anchor (x b : point) (rest : List point)
    (hhot : ∀ a ∈ b :: rest, x.temperature < a.temperature)
    (hxi : ∃ k : Int, x.temperature = k) (hbi : ∃ k : Int, b.temperature = k)
    (hx0 : 0 ≤ x.temperature) (hxmax : x.temperature ≤ 2 ^ 46)
    (hp0 : 0 ≤ x.pwm) (hpb : x.pwm ≤ b.pwm) (hb100 : b.pwm ≤ 100) :
    ∀ before : List point,
      evalSegments (segmentsOf64 (before ++ x :: b :: rest)) x.temperature = x.pwm := by
  have hbase : evalSegments (segmentsOf64 (x :: b :: rest)) x.temperature = x.pwm := by
    rw [segmentsOf64_cons_cons, evalSegments_cons_miss]
    · have h1 : (mkSegment64 x b).temperature ≤ x.temperature := le_refl _
      rw [if_pos h1, mkSegment64_eval_start x b (hhot b (List.mem_cons_self _ _)) hxi hbi hx0
        hxmax hp0 hpb hb100]
      exact truncate_intCast _
    · rintro ⟨s, hs, hle⟩
      obtain ⟨a, ha, hsa⟩ := segmentsOf64_start_mem _ s hs
      have := hhot a ha
      rw [hsa] at hle
      exact absurd hle (not_le.mpr this)
  intro before
  induction before with
  | nil => exact hbase
  | cons c before' ih =>
    have hhit : ∃ s ∈ segmentsOf64 (before' ++ x :: b :: rest), s.temperature ≤ x.temperature :=
      ⟨mkSegment64 x b, mem_segmentsOf64_append before' x b rest, le_refl _⟩
    cases before' with
    | nil =>
      rw [List.nil_append] at hhit ih
      rw [List.singleton_append, segmentsOf64_cons_cons, evalSegments_cons_hit _ _ _ hhit]
      exact ih
    | cons d rest' =>
      rw [List.cons_append, List.cons_append, segmentsOf64_cons_cons]
      rw [List.cons_append] at hhit ih
      rw [evalSegments_cons_hit _ _ _ hhit]
      exact ih

/-- The closing anchor leaves an anchor and the one after it where they are, and is as hot
as the last anchor. -/
theorem closePoints_append_cons_cons (before : List point) (x b : point) (rest : List point)
    (hhot : ∀ a ∈ b :: rest, x.temperature < a.temperature) :
    ∃ rest', (∀ a ∈ b :: rest', x.temperature < a.temperature) ∧
      closePoints (before ++ x :: b :: rest) = before ++ x :: b :: rest' := by
  rcases closePoints_cases (before ++ x :: b :: rest) with h | ⟨last, hlast, _, h⟩
  · exact ⟨rest, hhot, h⟩
  · have hmem : last ∈ b :: rest := by
      have h1 : (before ++ x :: b :: rest).getLast? = (b :: rest).getLast? := by
        have h2 : (b :: rest).getLast? = some ((b :: rest).getLast (by simp)) :=
          List.getLast?_eq_getLast _ _
        have h3 : before ++ x :: b :: rest = (before ++ [x]) ++ b :: rest := by simp
        rw [h3, List.getLast?_append, h2]
        rfl
      rw [h1] at hlast
      exact List.mem_of_getLast?_eq_some hlast
    refine ⟨rest ++ [⟨last.temperature, 100⟩], ?_, by rw [h]; simp⟩
    intro a ha
    rw [← List.cons_append] at ha
    rcases List.mem_append.mp ha with ha | ha
    · exact hhot a ha
    · simp only [List.mem_singleton] at ha
      rw [ha]
      exact hhot last hmem


/-- C4, amended: for a configured fan (no fan of another curve sharing its id), let the
anchors of a sensor be the list the shaper builds for it: the start anchor at 0 degrees
when the sensor is named in the first curve point, then the configured (threshold, PWM)
pairs in order.  For every anchor `(t, p)` with `0 ≤ t ≤ 2 ^ 46` and `0 ≤ p` that is
followed by at least one anchor, all following anchors being hotter than `t` and the next
one having a PWM from `p` to 100, a single reading of the sensor at exactly `t` gives PWM
exactly `p` for the fan, in the `float64` arithmetic of the source. -/
theorem Eval64_at_anchor (cfg : Config) (catalog : List Sensor.Temperature) (s : CurveShaper)
    (h : NewCurveShaper64 cfg catalog = .ok s) (now : Int) (nf : String × Fan)
    (hmem : nf ∈ cfg.FanSettings)
    (huniq : ∀ nf' ∈ cfg.FanSettings, nf'.2.ID = nf.2.ID → nf'.2.CurvePoints = nf.2.CurvePoints)
    (r : Sensor.Temperature) (p : Int) (before : List point) (next : point) (rest : List point)
    (hpts : fanAnchors64 catalog nf.2 r.ID = before ++ ⟨r.Temperature, p⟩ :: next :: rest)
    (hhot : ∀ a ∈ next :: rest, r.Temperature < a.temperature)
    (ht0 : 0 ≤ r.Temperature) (htmax : r.Temperature ≤ 2 ^ 46)
    (hp0 : 0 ≤ p) (hpn : p ≤ next.pwm) (hn100 : next.pwm ≤ 100) :
    ∃ e, mget (s.Eval now [r]) nf.2.ID = some e ∧ e.PWM = p ∧ e.TemperatureID = r.ID := by
  have hsp : sensorPoints64 catalog nf.2.CurvePoints r.ID =
      before ++ ⟨r.Temperature, p⟩ :: next :: rest := by
    rw [← fanAnchors64_of_ok cfg catalog s h nf hmem r.ID]
    exact hpts
  have hint : ∀ a ∈ sensorPoints64 catalog nf.2.CurvePoints r.ID, ∃ k : Int, a.temperature = k := by
    intro a ha
    obtain ⟨_, _, _, _, th, _, _, _, htemp⟩ := mem_sensorPoints64 catalog _ r.ID a ha
    rcases htemp with htemp | ⟨_, htemp⟩
    · obtain ⟨k, hk⟩ := roundF64_intCast_isInt th.2
      exact ⟨k, by rw [htemp, hk]⟩
    · exact ⟨0, by rw [htemp]; norm_num⟩
  have hxi : ∃ k : Int, (⟨r.Temperature, p⟩ : point).temperature = k :=
    hint _ (by rw [hsp]; simp)
  have hbi : ∃ k : Int, next.temperature = k := hint _ (by rw [hsp]; simp)
  obtain ⟨rest', hhot', hclose⟩ :=
    closePoints_append_cons_cons before ⟨r.Temperature, p⟩ next rest hhot
  have hsegs : sensorSegments64 catalog nf.2.CurvePoints r.ID =
      segmentsOf64 (before ++ ⟨r.Temperature, p⟩ :: next :: rest') := by
    unfold sensorSegments64
    rw [hsp, hclose]
  have hval : evalSegments (sensorSegments64 catalog nf.2.CurvePoints r.ID) r.Temperature = p := by
    rw [hsegs]
    exact evalSegments64_at_anchor ⟨r.Temperature, p⟩ next rest' hhot' hxi hbi ht0 htmax hp0 hpn
      hn100 before
  have hne : sensorSegments64 catalog nf.2.CurvePoints r.ID ≠ [] := by
    rw [hsegs]
    exact List.ne_nil_of_mem (mem_segmentsOf64_append before _ next rest')
  have hev := NewCurveShaper64_evaluator_of_fan cfg catalog s h nf hmem huniq r.ID hne
  obtain ⟨e, he, hpwm, hid, _⟩ := mget_Eval_single s (NewCurveShaper64_wf cfg catalog s h) now r
    nf.2.ID _ hev (by rw [hval]; exact hp0)
  exact ⟨e, he, by rw [hpwm, hval], hid⟩

/-- C4, amended, on the curve `20%: {cpu: 20}`, `100%: {cpu: 50}`: the anchors of `cpu` are
`(0, 20)`, `(20, 20)`, `(50, 100)`, and a reading of exactly 20 degrees gives PWM 20. -/
theorem Eval64_at_anchor_witness :
    fanAnchors64 exCatalog { ID := 3, Label := "rear", CurvePoints := exFullCurve } 1 =
        [⟨0, 20⟩, ⟨20, 20⟩, ⟨50, 100⟩] ∧
      ∃ e, mget ((shaperOf64 (exCfg exFullCurve) exCatalog).Eval 0 [cpuAt 20]) 3 = some e ∧
        e.PWM = 20 ∧ e.TemperatureID = 1 :=
  ⟨by decide!,
    Eval64_at_anchor (exCfg exFullCurve) exCatalog (shaperOf64 (exCfg exFullCurve) exCatalog)
      rfl 0 ("fan4", { ID := 3, Label := "rear", CurvePoints := exFullCurve })
      (by simp [exCfg])
      (by
        intro nf' hnf' _
        simp only [exCfg, List.mem_singleton] at hnf'
        rw [hnf'])
      (cpuAt 20) 20 [⟨0, 20⟩] ⟨50, 100⟩ [] (by decide!)
      (by
        intro a ha
        simp only [List.mem_singleton] at ha
        rw [ha]
        norm_num [cpuAt])
      (by norm_num [cpuAt]) (by norm_num [cpuAt]) (by decide) (by decide) (by decide)⟩

/-- C4 as stated fails at the last configured point, at a step, and where the rounding of
`float64` shows.  On the curve `20%: {cpu: 30}`, `50%: {cpu: 60}` a reading of exactly 60
degrees, the threshold of the point of PWM 50, gives PWM 100 (the closing anchor is at the
same temperature).  On the curve `20%: {cpu: 40}`, `50%: {cpu: 40}`, `100%: {cpu: 80}` a
reading of exactly 40 degrees, the threshold of the point of PWM 20, gives PWM 50.  On the
curve `20%: {cpu: 20}`, `100%: {cpu: 50}` a reading of exactly 50 degrees gives PWM 99: the
last segment yields `100 - 2 ^ (-46)` there.  On the curve `20%: {cpu: -40}`,
`50%: {cpu: -19}` a reading of exactly -40 degrees gives PWM 19.  On the curve
`1%: {cpu: 2 ^ 47}`, `100%: {cpu: 2 ^ 47 + 1}` a reading of exactly `2 ^ 47` degrees gives
PWM 0. -/
theorem Eval64_at_anchor_counterexample :
    (acceptedCurve exTwoPointCurve = true ∧
        (mget ((shaperOf64 (exCfg exTwoPointCurve) exCatalog).Eval 0 [cpuAt 60]) 3).map
          (fun e => e.PWM) = some 100) ∧
      (acceptedCurve exStepCurve = true ∧
        (mget ((shaperOf64 (exCfg exStepCurve) exCatalog).Eval 0 [cpuAt 40]) 3).map
          (fun e => e.PWM) = some 50) ∧
      (acceptedCurve exFullCurve = true ∧
        (mget ((shaperOf64 (exCfg exFullCurve) exCatalog).Eval 0 [cpuAt 50]) 3).map
          (fun e => e.PWM) = some 99) ∧
      (acceptedCurve exFrostCurve = true ∧
        (mget ((shaperOf64 (exCfg exFrostCurve) exCatalog).Eval 0 [cpuAt (-40)]) 3).map
          (fun e => e.PWM) = some 19) ∧
      (acceptedCurve exHugeCurve = true ∧
        (mget ((shaperOf64 (exCfg exHugeCurve) exCatalog).Eval 0 [cpuAt (2 ^ 47)]) 3).map
          (fun e => e.PWM) = some 0) := by
  refine ⟨⟨by decide, by decide!⟩, ⟨by decide, by decide!⟩, ⟨by decide, by decide!⟩,
    ⟨by decide, by decide!⟩, ⟨by decide, by decide!⟩⟩

end Openfand
